import Mathlib

/-!
# gorilla-xmlrpc: the XML-RPC codec (`xml/rpc2xml.go`, `xml/xml2rpc.go`)

A shallow embedding of the encoder (`rpcRequest2XML`, `rpcResponse2XML`,
`rpcParams2XML`, `rpc2XML` and its helpers) and of the decoder (`xml2RPC`,
`getFaultResponse`, `value2Field` and its helpers).

Modelling conventions.

* Go values seen through `reflect` are terms of `GoVal`; their types are terms
  of `GoType`.  The universe is: `int`, `float64`, `string`, `bool`,
  `time.Time`, slices, structs without embedded fields, pointers, and `other`
  for every type whose kind is outside the dispatch tables (maps, sized
  integers, `uint8`, ...).  `GoVal.invalid` is the zero `reflect.Value`.
  Named scalar types, arrays and interface-typed fields are outside the
  universe.
* A panic is the result `none`; a Go `error` result is an `Option GoError`
  (`none` is `nil`).
* Code that mutates through a `*reflect.Value` returns the new content.
* Library calls with an involved semantics (`fmt` for floats, `strconv.ParseFloat`,
  `encoding/base64`, `fmt.Sscanf`, `time.Date`, `encoding/xml`) and the case
  tables of `unicode` are fields of a `StdLib` parameter.  The simple ones
  (`strings.Replace`, `strconv.Atoi`, `fmt` for integers, `strings.TrimSpace`)
  are defined here.
* A Go string is a Lean `String`: a sequence of runes, its bytes being their
  UTF-8 encoding.  A nil slice and an empty slice are one value.
* The declarations of `fault.go` (the `Fault` constants and
  `faultValue.IsEmpty`) are not part of the sources at hand: they are the fields
  of a `FaultDecls` parameter.
-/

namespace XmlRpc

/-! ## Data model -/

/-- Go strings: the field names `String` and `Int` of the source shadow the Lean
types inside binders, hence the alias. -/
abbrev GoString := String

/-- Go `int` on a 64-bit platform is an `Int` kept within the machine range by
the functions that produce it. -/
abbrev GoInt := Int

/-- A `float64`, by its IEEE-754 bit pattern. -/
structure Float64 where
  bits : Nat
deriving DecidableEq, Repr

/-- A `time.Time`, by its civil reading in its own location. -/
structure Time where
  year : GoInt
  month : Nat
  day : Nat
  hour : Nat
  minute : Nat
  second : Nat
  nsec : Nat
  loc : GoString
deriving DecidableEq, Repr

/-- A struct field as `reflect` shows it: the native identifier, the value of
the `xml` key of its tag (empty when there is none) and the payload (a type for
`reflect.StructField`, a value for `reflect.Value.Field`). -/
structure Field (α : Type) where
  Name : GoString
  Tag : GoString
  Val : α
deriving Repr

/-- Go types (`reflect.Type`). -/
inductive GoType where
  | int
  | float64
  | string
  | bool
  | time
  | slice (elem : GoType)
  | struct (name : GoString) (fields : List (Field GoType))
  | ptr (elem : GoType)
  | other (kind : GoString) (name : GoString)
deriving Repr

/-- Go values (the content of a `reflect.Value`). -/
inductive GoVal where
  | invalid
  | int (n : GoInt)
  | float64 (x : Float64)
  | str (s : GoString)
  | bool (b : Bool)
  | time (t : Time)
  | slice (elem : GoType) (xs : List GoVal)
  | struct (name : GoString) (fields : List (Field GoVal))
  | nilPtr (elem : GoType)
  | ptr (v : GoVal)
  | other (kind : GoString) (name : GoString) (data : Nat)
deriving Repr

/-- The type `Fault` of `fault.go`, as `getFaultResponse` builds it. -/
structure Fault where
  Code : GoInt
  String : GoString
deriving DecidableEq, Repr

/-- Go `error` values met in the codec: a `Fault`, or an error made by a
library call (`fmt.Sscanf`, `base64`), kept by its text. -/
inductive GoError where
  | fault (f : Fault)
  | lib (msg : GoString)
deriving DecidableEq, Repr

/-- The type `member` of `xml2rpc.go`, over the type of its `Value`. -/
structure memberOf (V : Type) where
  Name : GoString
  Value : V
deriving Repr

/-- The type `value` of `xml2rpc.go`: one slot per typed child, and the raw inner
XML. -/
inductive value where
  | mk (Array : List value) (Struct : List (memberOf value))
      (String Int Int4 Double Boolean DateTime Base64 Raw : GoString)
deriving Repr

/-- The type `member` of `xml2rpc.go`. -/
abbrev member := memberOf value

def value.Array : value → List value
  | .mk a _ _ _ _ _ _ _ _ _ => a

def value.Struct : value → List member
  | .mk _ s _ _ _ _ _ _ _ _ => s

def value.String : value → GoString
  | .mk _ _ x _ _ _ _ _ _ _ => x

def value.Int : value → GoString
  | .mk _ _ _ x _ _ _ _ _ _ => x

def value.Int4 : value → GoString
  | .mk _ _ _ _ x _ _ _ _ _ => x

def value.Double : value → GoString
  | .mk _ _ _ _ _ x _ _ _ _ => x

def value.Boolean : value → GoString
  | .mk _ _ _ _ _ _ x _ _ _ => x

def value.DateTime : value → GoString
  | .mk _ _ _ _ _ _ _ x _ _ => x

def value.Base64 : value → GoString
  | .mk _ _ _ _ _ _ _ _ x _ => x

def value.Raw : value → GoString
  | .mk _ _ _ _ _ _ _ _ _ x => x

/-- The value node with no typed child and no text. -/
def value.empty : value := .mk [] [] "" "" "" "" "" "" "" ""

/-- The type `param` of `xml2rpc.go`. -/
structure param where
  Value : value

/-- The type `faultValue`; its declaration is in `fault.go`, the field `Value` is
the one `getFaultResponse` reads. -/
structure faultValue where
  Value : value

/-- The type `response` of `xml2rpc.go` (the field `Name` is never read). -/
structure response where
  Params : List param
  Fault : faultValue

/-- The declarations of `fault.go` that the codec uses. -/
structure FaultDecls where
  FaultDecode : Fault
  FaultWrongArgumentsNumber : Fault
  FaultApplicationError : Fault
  FaultInvalidParams : Fault
  IsEmpty : faultValue → Bool

/-- The library calls taken as given.
`fmtFloat` is `fmt` with the verb `%f`; `parseFloat s` is the value of
`strconv.ParseFloat(s, 64)`; `base64Encode` and `base64Decode` are
`base64.StdEncoding.EncodeToString` and `DecodeString`; `sscanDateTime s` is
the six integers after `fmt.Sscanf(s, "%04d%02d%02dT%02d:%02d:%02d", ...)` and
its error; an error of the library is given by its text; `dateLocal` is `time.Date(y, m, d, h, mi, s, 0, time.Local)`;
`xmlDecode` is `xml.Decoder.Decode` into a `response`, `none` on an error;
`unicodeIsUpper`, `unicodeToUpper` and `unicodeToLower` are `unicode.IsUpper`,
`unicode.ToUpper` and `unicode.ToLower` on a rune. -/
structure StdLib where
  unicodeIsUpper : Char → Bool
  unicodeToUpper : Char → Char
  unicodeToLower : Char → Char
  fmtFloat : Float64 → GoString
  parseFloat : GoString → Float64
  base64Encode : List Nat → GoString
  base64Decode : GoString → List Nat × Option GoString
  sscanDateTime : GoString → (GoInt × GoInt × GoInt × GoInt × GoInt × GoInt) × Option GoString
  dateLocal : GoInt → GoInt → GoInt → GoInt → GoInt → GoInt → Time
  xmlDecode : GoString → Option response

/-! ## Library functions defined here -/

/-- Scanner of `strings.Replace(s, old, new, -1)` for a non-empty `old`: `skip`
counts the runes of a matched occurrence still to pass over. -/
def replaceScan (old new : List Char) : Nat → List Char → List Char
  | _, [] => []
  | skip + 1, _ :: cs => replaceScan old new skip cs
  | 0, c :: cs =>
    if old.isPrefixOf (c :: cs) then new ++ replaceScan old new (old.length - 1) cs
    else c :: replaceScan old new 0 cs

/-- The call `strings.Replace(s, old, new, -1)`: every non-overlapping occurrence of
`old` from the left; an empty `old` matches before every rune and at the
end. -/
def stringsReplaceAll (s old new : GoString) : GoString :=
  if old.data = [] then ⟨new.data ++ s.data.flatMap (fun c => c :: new.data)⟩
  else ⟨replaceScan old.data new.data 0 s.data⟩

/-- The verb `%d` of `fmt` on an integer. -/
def fmtInt (n : Int) : GoString :=
  toString n

/-- The verbs `%02d`, `%04d` of `fmt`: zero padding up to `width`, the sign
counted in the width and written first. -/
def fmtIntPad (width : Nat) (n : Int) : GoString :=
  let digits := toString n.natAbs
  if n < 0 then "-" ++ ⟨List.replicate (width - 1 - digits.length) '0'⟩ ++ digits
  else ⟨List.replicate (width - digits.length) '0'⟩ ++ digits

/-- Value of a run of decimal digits, `none` when a rune is not one. -/
def digitsValue : List Char → Nat → Option Nat
  | [], acc => some acc
  | c :: cs, acc => if c.isDigit then digitsValue cs (acc * 10 + (c.toNat - 48)) else none

/-- The two errors of `strconv`: `ErrSyntax` and `ErrRange`. -/
inductive NumError where
  | invalid
  | outOfRange
deriving DecidableEq, Repr

/-- The loop of `strconv.ParseUint(s, 10, 64)` over the runes left, `n` being the
value read so far: the first rune that is not a digit is a syntax error, and a
digit that takes the value past `1<<64 - 1` is a range error, returned at that
digit, before the runes after it are looked at. -/
def parseUintLoop : List Char → Nat → Except NumError Nat
  | [], n => .ok n
  | c :: cs, n =>
    if !c.isDigit then .error .invalid
    else if n ≥ (2 ^ 64 - 1) / 10 + 1 then .error .outOfRange
    else if n * 10 + (c.toNat - 48) > 2 ^ 64 - 1 then .error .outOfRange
    else parseUintLoop cs (n * 10 + (c.toNat - 48))

/-- The call `strconv.ParseInt(s, 10, 64)`: the value and the error.  A syntax
error gives `0`; a range error gives the nearest bound, also when the range
error of `ParseUint` comes before a rune that is not a digit. -/
def parseInt (s : GoString) : GoInt × Option NumError :=
  let signed : Bool × List Char :=
    match s.data with
    | c :: cs => if c = '-' then (true, cs) else if c = '+' then (false, cs) else (false, c :: cs)
    | [] => (false, [])
  match signed.2 with
  | [] => (0, some .invalid)
  | ds =>
    match parseUintLoop ds 0 with
    | .error .invalid => (0, some .invalid)
    | .error .outOfRange =>
      if signed.1 then (-(2 ^ 63 : Int), some .outOfRange)
      else ((2 ^ 63 : Int) - 1, some .outOfRange)
    | .ok n =>
      if signed.1 then
        (if n > 2 ^ 63 then (-(2 ^ 63 : Int), some .outOfRange) else (-(n : Int), none))
      else (if n ≥ 2 ^ 63 then ((2 ^ 63 : Int) - 1, some .outOfRange) else ((n : Int), none))

/-- The call `strconv.Atoi(s)` on a 64-bit platform: the value and whether an error is
returned.  Its fast path on short texts gives what `ParseInt(s, 10, 0)`
gives. -/
def atoi (s : GoString) : GoInt × Bool :=
  ((parseInt s).1, (parseInt s).2.isSome)

/-- The function `strings.ToLower`: `unicode.ToLower` on every rune. -/
def stringsToLower (L : StdLib) (s : GoString) : GoString :=
  ⟨s.data.map L.unicodeToLower⟩

/-- The first byte of the UTF-8 encoding of a rune. -/
def utf8FirstByte (c : Char) : Nat :=
  if c.toNat < 128 then c.toNat
  else if c.toNat < 2048 then 192 + c.toNat / 64
  else if c.toNat < 65536 then 224 + c.toNat / 4096
  else 240 + c.toNat / 262144

/-- The white space of `unicode.IsSpace` and of the scanner of `fmt`: the
runes with the property `White_Space`. -/
def isSpace (c : Char) : Bool :=
  (9 ≤ c.toNat && c.toNat ≤ 13) || c.toNat == 32 || c.toNat == 133 || c.toNat == 160 ||
    c.toNat == 5760 || (8192 ≤ c.toNat && c.toNat ≤ 8202) || c.toNat == 8232 ||
    c.toNat == 8233 || c.toNat == 8239 || c.toNat == 8287 || c.toNat == 12288

/-- The function `strings.TrimSpace`. -/
def stringsTrimSpace (s : GoString) : GoString :=
  ⟨((s.data.dropWhile isSpace).reverse.dropWhile isSpace).reverse⟩

/-- Whether an identifier is exported: its first rune is an upper-case letter
(`unicode.IsUpper`). -/
def isExported (L : StdLib) (name : GoString) : Bool :=
  match name.data with
  | c :: _ => L.unicodeIsUpper c
  | [] => false

/-- The method `SkipSpace` of the scanner of `fmt.Sscanf`: a new line is an
error. -/
def skipSpace : List Char → Except GoString (List Char)
  | [] => .ok []
  | c :: cs =>
    if c = Char.ofNat 10 then .error "unexpected newline"
    else if isSpace c then skipSpace cs
    else .ok (c :: cs)

/-- The loop of `scanNumber` of `fmt` for the verb `%d`: the runes among
`0123456789_` taken while the width lasts, and the input left. -/
def scanNumber : Nat → List Char → List Char × List Char
  | 0, cs => ([], cs)
  | _ + 1, [] => ([], [])
  | w + 1, c :: cs =>
    if c.isDigit ∨ c = '_' then (c :: (scanNumber w cs).1, (scanNumber w cs).2)
    else ([], c :: cs)

/-- The verb `%d` of `fmt.Sscanf` with a width, into an `int` of 64 bits: blanks
are passed over, then a sign and the runes of a number are taken within the
width, and the token is parsed by `strconv.ParseInt(tok, 10, 64)`.  The value
and the input left, or the text of the error. -/
def scanInt (width : Nat) (input : List Char) : Except GoString (GoInt × List Char) :=
  match skipSpace input with
  | .error e => .error e
  | .ok [] => .error "unexpected EOF"
  | .ok (c :: cs) =>
    let signed : List Char × Nat × List Char :=
      if (c = '+' ∨ c = '-') ∧ 0 < width then ([c], width - 1, cs) else ([], width, c :: cs)
    let tok := scanNumber signed.2.1 signed.2.2
    if signed.2.1 = 0 ∨ signed.2.2 = [] then .error "unexpected EOF"
    else if tok.1 = [] then .error "expected integer"
    else
      match (parseInt ⟨signed.1 ++ tok.1⟩).2 with
      | some .invalid =>
        .error ("strconv.ParseInt: parsing \"" ++ ⟨signed.1 ++ tok.1⟩ ++ "\": invalid syntax")
      | some .outOfRange =>
        .error ("strconv.ParseInt: parsing \"" ++ ⟨signed.1 ++ tok.1⟩ ++
          "\": value out of range")
      | none => .ok ((parseInt ⟨signed.1 ++ tok.1⟩).1, tok.2)

/-- A rune of the format of `fmt.Sscanf` that is neither a blank nor a verb:
the input has to have this rune next. -/
def scanLiteral (c : Char) : List Char → Except GoString (List Char)
  | [] => .error "unexpected EOF"
  | d :: cs => if d = c then .ok cs else .error "input does not match format"

/-- The call `fmt.Sscanf(s, "%04d%02d%02dT%02d:%02d:%02d", ...)` into six `int`
variables that hold 0 before: the six variables after the call and the text of
the error; a variable that the scan did not reach keeps 0. -/
def scanDateTime (s : GoString) : (GoInt × GoInt × GoInt × GoInt × GoInt × GoInt) × Option GoString :=
  match scanInt 4 s.data with
  | .error e => ((0, 0, 0, 0, 0, 0), some e)
  | .ok (year, r1) =>
  match scanInt 2 r1 with
  | .error e => ((year, 0, 0, 0, 0, 0), some e)
  | .ok (month, r2) =>
  match scanInt 2 r2 with
  | .error e => ((year, month, 0, 0, 0, 0), some e)
  | .ok (day, r3) =>
  match scanLiteral 'T' r3 with
  | .error e => ((year, month, day, 0, 0, 0), some e)
  | .ok r4 =>
  match scanInt 2 r4 with
  | .error e => ((year, month, day, 0, 0, 0), some e)
  | .ok (hour, r5) =>
  match scanLiteral ':' r5 with
  | .error e => ((year, month, day, hour, 0, 0), some e)
  | .ok r6 =>
  match scanInt 2 r6 with
  | .error e => ((year, month, day, hour, 0, 0), some e)
  | .ok (minute, r7) =>
  match scanLiteral ':' r7 with
  | .error e => ((year, month, day, hour, minute, 0), some e)
  | .ok r8 =>
  match scanInt 2 r8 with
  | .error e => ((year, month, day, hour, minute, 0), some e)
  | .ok (second, _) => ((year, month, day, hour, minute, second), none)

/-- The call `time.Date(y, m, d, h, mi, s, 0, time.Local)` on fields within
their usual ranges, at a civil time that exists once in the local zone: the
timestamp with these fields. -/
def civilLocal (y m d h mi s : GoInt) : Time :=
  ⟨y, m.toNat, d.toNat, h.toNat, mi.toNat, s.toNat, 0, "Local"⟩

/-! ## Types of values (`reflect.TypeOf`, `reflect.Zero`) -/

/-- The text of a type, `reflect.Type.String`; the name of a struct type and
of a type of another kind is its text. -/
def typeString : GoType → GoString
  | .int => "int"
  | .float64 => "float64"
  | .string => "string"
  | .bool => "bool"
  | .time => "time.Time"
  | .slice elem => "[]" ++ typeString elem
  | .struct name _ => name
  | .ptr elem => "*" ++ typeString elem
  | .other _ name => name

mutual
/-- Identity of types, the comparison of two `reflect.Type`. -/
def GoType.beq : GoType → GoType → Bool
  | .int, .int => true
  | .float64, .float64 => true
  | .string, .string => true
  | .bool, .bool => true
  | .time, .time => true
  | .slice a, .slice b => GoType.beq a b
  | .struct n fs, .struct m gs => n == m && fieldTypesBeq fs gs
  | .ptr a, .ptr b => GoType.beq a b
  | .other k n, .other j m => k == j && n == m
  | _, _ => false
/-- Identity of two lists of field declarations. -/
def fieldTypesBeq : List (Field GoType) → List (Field GoType) → Bool
  | [], [] => true
  | f :: fs, g :: gs =>
    f.Name == g.Name && f.Tag == g.Tag && GoType.beq f.Val g.Val && fieldTypesBeq fs gs
  | _, _ => false
end

mutual
/-- The type of a value, `reflect.TypeOf(v.Interface())`; the zero
`reflect.Value` has the nil type, printed `<nil>`. -/
def typeOf : GoVal → GoType
  | .invalid => .other "invalid" "<nil>"
  | .int _ => .int
  | .float64 _ => .float64
  | .str _ => .string
  | .bool _ => .bool
  | .time _ => .time
  | .slice elem _ => .slice elem
  | .struct name fs => .struct name (fieldTypesOf fs)
  | .nilPtr elem => .ptr elem
  | .ptr v => .ptr (typeOf v)
  | .other kind name _ => .other kind name
/-- The declarations of the fields of a struct value. -/
def fieldTypesOf : List (Field GoVal) → List (Field GoType)
  | [] => []
  | f :: fs => ⟨f.Name, f.Tag, typeOf f.Val⟩ :: fieldTypesOf fs
end

/-- The zero `time.Time`: January 1, year 1, 00:00:00 UTC. -/
def zeroTime : Time := ⟨1, 1, 1, 0, 0, 0, 0, "UTC"⟩

mutual
/-- The zero value of a type, as `reflect.MakeSlice` fills a new slice. -/
def zeroValue : GoType → GoVal
  | .int => .int 0
  | .float64 => .float64 ⟨0⟩
  | .string => .str ""
  | .bool => .bool false
  | .time => .time zeroTime
  | .slice elem => .slice elem []
  | .struct name fs => .struct name (zeroFields fs)
  | .ptr elem => .nilPtr elem
  | .other kind name => .other kind name 0
/-- The zero values of the fields of a struct type. -/
def zeroFields : List (Field GoType) → List (Field GoVal)
  | [] => []
  | f :: fs => ⟨f.Name, f.Tag, zeroValue f.Val⟩ :: zeroFields fs
end

/-- The name of the kind of a value, `reflect.Value.Kind` printed with `%s`. -/
def kindString : GoVal → GoString
  | .invalid => "invalid"
  | .int _ => "int"
  | .float64 _ => "float64"
  | .str _ => "string"
  | .bool _ => "bool"
  | .time _ => "struct"
  | .slice _ _ => "slice"
  | .struct _ _ => "struct"
  | .nilPtr _ => "ptr"
  | .ptr _ => "ptr"
  | .other kind _ _ => kind

/-- The three unexported fields of `time.Time`, as `reflect` lists them; their
content is never read. -/
def timeFields : List (Field GoVal) :=
  [⟨"wall", "", .other "uint64" "uint64" 0⟩, ⟨"ext", "", .other "int64" "int64" 0⟩,
    ⟨"loc", "", .nilPtr (.other "struct" "time.Location")⟩]

/-- The fields of a value of kind `reflect.Struct`, `none` for the other
kinds. -/
def structFields : GoVal → Option (List (Field GoVal))
  | .struct _ fs => some fs
  | .time _ => some timeFields
  | _ => none

/-- The call `reflect.Value.Interface` on a field obtained with `Field(i)`: it
panics on an unexported field. -/
def fieldInterface (L : StdLib) (f : Field GoVal) : Option GoVal :=
  if isExported L f.Name then some f.Val else none

/-- The bytes of a `[]byte` value. -/
def bytesOf : List GoVal → List Nat
  | [] => []
  | .other _ _ b :: xs => b :: bytesOf xs
  | _ :: xs => 0 :: bytesOf xs

/-- The `[]byte` value of a list of bytes; the nil slice and the empty slice
are both the value of the empty list. -/
def bytesVal (bs : List Nat) : GoVal :=
  .slice (.other "uint8" "uint8") (bs.map (fun b => .other "uint8" "uint8" b))

/-! ## The encoder (`rpc2xml.go`) -/

def bool2XML (value : Bool) : GoString :=
  let b := if value then "1" else "0"
  "<boolean>" ++ b ++ "</boolean>"

def string2XML (value : GoString) : GoString :=
  let value := stringsReplaceAll value "&" "&amp;"
  let value := stringsReplaceAll value "\"" "&quot;"
  let value := stringsReplaceAll value "<" "&lt;"
  let value := stringsReplaceAll value ">" "&gt;"
  "<string>" ++ value ++ "</string>"

/-- The text that the verbs `%04d%02d%02dT%02d:%02d:%02d` of `time2XML` give for
the six fields of a timestamp. -/
def dateTimeText (t : Time) : GoString :=
  fmtIntPad 4 t.year ++ fmtIntPad 2 t.month ++ fmtIntPad 2 t.day ++ "T" ++
    fmtIntPad 2 t.hour ++ ":" ++ fmtIntPad 2 t.minute ++ ":" ++ fmtIntPad 2 t.second

def time2XML (t : Time) : GoString :=
  "<dateTime.iso8601>" ++ dateTimeText t ++ "</dateTime.iso8601>"

def base642XML (L : StdLib) (data : List Nat) : GoString :=
  let str := L.base64Encode data
  "<base64>" ++ str ++ "</base64>"

mutual
/-- The function `rpc2XML`: the text written to `w` and the error returned;
`none` when the call panics.  The calls of `struct2XML` and `array2XML` are
unfolded to their loops, see `struct2XML` and `array2XML` below. -/
def rpc2XML (L : StdLib) : GoVal → Option (GoString × Option GoError)
  | .int n => some ("<value>" ++ ("<int>" ++ fmtInt n ++ "</int>") ++ "</value>", none)
  | .float64 x => some ("<value>" ++ ("<double>" ++ L.fmtFloat x ++ "</double>") ++ "</value>", none)
  | .str s => some ("<value>" ++ string2XML s ++ "</value>", none)
  | .bool b => some ("<value>" ++ bool2XML b ++ "</value>", none)
  | .struct _ fs =>
    match structMembers2XML L fs with
    | some body => some ("<value>" ++ ("<struct>" ++ body ++ "</struct>") ++ "</value>", none)
    | none => none
  | .time t => some ("<value>" ++ time2XML t ++ "</value>", none)
  | .slice elem xs =>
    if typeString (.slice elem) != "[]uint8" then
      match arrayItems2XML L xs with
      | some body => some ("<value>" ++ ("<array><data>" ++ body ++ "</data></array>") ++ "</value>", none)
      | none => none
    else some ("<value>" ++ base642XML L (bytesOf xs) ++ "</value>", none)
  | .nilPtr _ => some ("<value>" ++ "<nil/>" ++ "</value>", none)
  | .ptr _ => some ("<value>" ++ "</value>", none)
  | .invalid => some ("<value>" ++ "</value>", none)
  | .other _ _ _ => some ("<value>" ++ "</value>", none)
/-- The loop of `struct2XML`, from field `i` on; `field.Interface()` panics on
an unexported field (`fieldInterface`). -/
def structMembers2XML (L : StdLib) : List (Field GoVal) → Option GoString
  | [] => some ""
  | f :: fs =>
    let name := if f.Tag != "" then f.Tag else f.Name
    if isExported L f.Name then
      match rpc2XML L f.Val with
      | some (out, _) =>
        match structMembers2XML L fs with
        | some rest => some ("<member>" ++ ("<name>" ++ name ++ "</name>") ++ out ++ "</member>" ++ rest)
        | none => none
      | none => none
    else none
/-- The loop of `array2XML`, from element `i` on. -/
def arrayItems2XML (L : StdLib) : List GoVal → Option GoString
  | [] => some ""
  | x :: xs =>
    match rpc2XML L x with
    | some (out, _) =>
      match arrayItems2XML L xs with
      | some rest => some (out ++ rest)
      | none => none
    | none => none
end

/-- The function `struct2XML` on the fields of the record. -/
def struct2XML (L : StdLib) (fs : List (Field GoVal)) : Option GoString :=
  match structMembers2XML L fs with
  | some body => some ("<struct>" ++ body ++ "</struct>")
  | none => none

/-- The function `array2XML` on the elements of the slice. -/
def array2XML (L : StdLib) (xs : List GoVal) : Option GoString :=
  match arrayItems2XML L xs with
  | some body => some ("<array><data>" ++ body ++ "</data></array>")
  | none => none

/-- The inner loop of `rpcParams2XML` over the fields of a record argument,
`err` being the error variable on entry. -/
def fieldParams2XML (L : StdLib) : List (Field GoVal) → Option GoError → Option (GoString × Option GoError)
  | [], err => some ("", err)
  | f :: fs, _ =>
    match fieldInterface L f with
    | none => none
    | some v =>
      match rpc2XML L v with
      | none => none
      | some (out, err) =>
        match fieldParams2XML L fs err with
        | none => none
        | some (rest, err) => some ("<param>" ++ out ++ "</param>" ++ rest, err)

/-- The value `elem` of `rpcParams2XML`: what a pointer refers to, the
argument itself otherwise. -/
def elemOf : GoVal → GoVal
  | .ptr v => v
  | .nilPtr _ => .invalid
  | v => v

/-- The call `reflect.Value.Interface` on `elem`: it panics on the zero
`reflect.Value`. -/
def valueInterface : GoVal → Option GoVal
  | .invalid => none
  | v => some v

/-- The outer loop of `rpcParams2XML` over the arguments. -/
def argParams2XML (L : StdLib) : List GoVal → Option GoError → Option (GoString × Option GoError)
  | [], err => some ("", err)
  | r :: rs, err =>
    let elem := elemOf r
    let here : Option (GoString × Option GoError) :=
      match structFields elem with
      | none =>
        match valueInterface elem with
        | none => none
        | some v =>
          match rpc2XML L v with
          | none => none
          | some (out, err) => some ("<param>" ++ out ++ "</param>", err)
      | some fs => fieldParams2XML L fs err
    match here with
    | none => none
    | some (out, err) =>
      match argParams2XML L rs err with
      | none => none
      | some (rest, err) => some (out ++ rest, err)

def rpcParams2XML (L : StdLib) (rpc : List GoVal) : Option (GoString × Option GoError) :=
  match argParams2XML L rpc none with
  | none => none
  | some (body, err) => some ("<params>" ++ body ++ "</params>", err)

def rpcRequest2XML (L : StdLib) (method : GoString) (rpc : List GoVal) :
    Option (GoString × Option GoError) :=
  match rpcParams2XML L rpc with
  | none => none
  | some (params, err) =>
    some ("<methodCall><methodName>" ++ method ++ "</methodName>" ++ params ++ "</methodCall>", err)

def rpcResponse2XML (L : StdLib) (rpc : List GoVal) : Option (GoString × Option GoError) :=
  match rpcParams2XML L rpc with
  | none => none
  | some (params, err) => some ("<methodResponse>" ++ params ++ "</methodResponse>", err)

/-! ## The decoder (`xml2rpc.go`) -/

def xml2Bool (value : GoString) : Bool :=
  if value = "1" ∨ value = "true" ∨ value = "TRUE" ∨ value = "True" then true
  else if value = "0" ∨ value = "false" ∨ value = "FALSE" ∨ value = "False" then false
  else false

def xml2DateTime (L : StdLib) (value : GoString) : Time × Option GoError :=
  let scanned := L.sscanDateTime value
  let t := L.dateLocal scanned.1.1 scanned.1.2.1 scanned.1.2.2.1 scanned.1.2.2.2.1
    scanned.1.2.2.2.2.1 scanned.1.2.2.2.2.2
  (t, scanned.2.map GoError.lib)

def xml2Base64 (L : StdLib) (value : GoString) : List Nat × Option GoError :=
  ((L.base64Decode value).1, (L.base64Decode value).2.map GoError.lib)

/-- The loop of `captionString` over the runes, `flag` being its variable. -/
def captionScan (L : StdLib) : Bool → List Char → List Char
  | _, [] => []
  | flag, r :: rs =>
    if r = '_' then captionScan L true rs
    else if flag then L.unicodeToUpper r :: captionScan L false rs
    else r :: captionScan L flag rs

def captionString (L : StdLib) (s : GoString) : GoString :=
  ⟨captionScan L true s.data⟩

/-- The loop of `getFaultResponse` over the members, `code` and `str` being its
variables. -/
def faultScan : List member → GoInt → GoString → Fault
  | [], code, str => { Code := code, String := str }
  | field :: rest, code, str =>
    if field.Name = "faultCode" then faultScan rest (atoi field.Value.Int).1 str
    else if field.Name = "faultString" then
      let str := field.Value.String
      let str := if str = "" then field.Value.Raw else str
      faultScan rest code str
    else faultScan rest code str

def getFaultResponse (fault : faultValue) : Fault :=
  faultScan fault.Value.Struct 0 ""

/-- Index of the field that `reflect.Value.FieldByName` returns: the first one
with that name, none for the empty name. -/
def fieldByName (name : GoString) (fs : List (Field GoVal)) : Option Nat :=
  if name = "" then none else fs.findIdx? (fun f => f.Name = name)

/-- Indices of the fields whose name satisfies `p`, counted from `i`. -/
def matchingFields (p : GoString → Bool) : List (Field GoVal) → Nat → List Nat
  | [], _ => []
  | f :: fs, i => if p f.Name then i :: matchingFields p fs (i + 1) else matchingFields p fs (i + 1)

/-- Index of the field that `reflect.Value.FieldByNameFunc` returns: the one
whose name satisfies `p` when there is exactly one, none otherwise. -/
def fieldByNameFunc (p : GoString → Bool) (fs : List (Field GoVal)) : Option Nat :=
  match matchingFields p fs 0 with
  | [i] => some i
  | _ => none

/-- The call `f.CanSet()` on a handle got from a settable struct: the field exists and
is exported. -/
def handleCanSet (L : StdLib) (fs : List (Field GoVal)) : Option Nat → Bool
  | none => false
  | some i =>
    match fs.get? i with
    | some f => isExported L f.Name
    | none => false

/-- The content behind a handle, the zero `reflect.Value` when no field was
found. -/
def handleVal (fs : List (Field GoVal)) : Option Nat → GoVal
  | none => .invalid
  | some i =>
    match fs.get? i with
    | some f => f.Val
    | none => .invalid

/-- The test `unicode.IsUpper(rune(s[0]))` on an identifier: the first byte of
its UTF-8 encoding, read as a rune, is an upper-case letter.  An identifier is
never empty. -/
def firstByteUpper (L : StdLib) (s : GoString) : Bool :=
  match s.data with
  | c :: _ => L.unicodeIsUpper (Char.ofNat (utf8FirstByte c))
  | [] => false

/-- The match function given to `FieldByNameFunc` in `value2Field`. -/
def lowerMatch (L : StdLib) (excepted : GoString) (s : GoString) : Bool :=
  if stringsToLower L s = excepted then firstByteUpper L s
  else false

/-- The handle `f` of the struct loop of `value2Field` (lines 144-154) for a
member name. -/
def memberField (L : StdLib) (fs : List (Field GoVal)) (name : GoString) : Option Nat :=
  let fieldName := captionString L name
  let f := fieldByName fieldName fs
  if !handleCanSet L fs f then
    let excepted := stringsToLower L name
    fieldByNameFunc (lowerMatch L excepted) fs
  else f

/-- Writing through a handle: the content of field `i` is replaced. -/
def setFieldAt (fs : List (Field GoVal)) (h : Option Nat) (v : GoVal) : List (Field GoVal) :=
  match h with
  | none => fs
  | some i => fs.modify (fun f => { f with Val := v }) i

/-- A struct value with its fields replaced; a value that is not a struct of
the universe is left alone. -/
def setFields : GoVal → List (Field GoVal) → GoVal
  | .struct name _, fs => .struct name fs
  | v, _ => v

/-- The fault returned on a struct value bound onto a field that is not a
struct: a copy of `FaultInvalidParams` with a longer `String`. -/
def structMismatch (F : FaultDecls) (cur : GoVal) : Fault :=
  { Code := F.FaultInvalidParams.Code
    String := F.FaultInvalidParams.String ++
      ("structure fields mismatch: " ++ kindString cur ++ " != " ++ "struct") }

/-- The fault returned by the type check of `value2Field`. -/
def typeMismatch (F : FaultDecls) (val cur : GoVal) : Fault :=
  { Code := F.FaultInvalidParams.Code
    String := F.FaultInvalidParams.String ++
      (": fields type mismatch: " ++ typeString (typeOf val) ++ " != " ++ typeString (typeOf cur)) }

/-- The end of `value2Field` (lines 185-197): `val` is `none` for the nil
interface; the result is the new content of the field and the error. -/
def value2FieldAssign (F : FaultDecls) (cur : GoVal) (val : Option GoVal) (err : Option GoError) :
    Option (GoVal × Option GoError) :=
  match val with
  | some v =>
    if !(typeOf v).beq (typeOf cur) then some (cur, some (.fault (typeMismatch F v cur)))
    else some (v, err)
  | none => some (cur, err)

mutual
/-- The function `value2Field`: `canSet` and `cur` are `field.CanSet()` and the
content of `field` on entry; the result is the content of `field` on return
and the error, `none` when the call panics. -/
def value2Field (F : FaultDecls) (L : StdLib) : value → Bool → GoVal → Option (GoVal × Option GoError)
  | .mk a s str int int4 dbl boolean dateTime b64 raw, canSet, cur =>
    if !canSet then some (cur, some (.fault F.FaultApplicationError))
    else if int != "" then value2FieldAssign F cur (some (.int (atoi int).1)) none
    else if int4 != "" then value2FieldAssign F cur (some (.int (atoi int4).1)) none
    else if dbl != "" then value2FieldAssign F cur (some (.float64 (L.parseFloat dbl))) none
    else if str != "" then value2FieldAssign F cur (some (.str str)) none
    else if boolean != "" then value2FieldAssign F cur (some (.bool (xml2Bool boolean))) none
    else if dateTime != "" then
      value2FieldAssign F cur (some (.time (xml2DateTime L dateTime).1)) (xml2DateTime L dateTime).2
    else if b64 != "" then
      value2FieldAssign F cur (some (bytesVal (xml2Base64 L b64).1)) (xml2Base64 L b64).2
    else if s.length != 0 then
      match structFields cur with
      | none => some (cur, some (.fault (structMismatch F cur)))
      | some fs =>
        match structLoop F L s fs none with
        | none => none
        | some (fs, err) => value2FieldAssign F (setFields cur fs) none err
    else if a.length == 0 then value2FieldAssign F cur none none
    else if a.length != 0 then
      match cur with
      | .slice elem xs =>
        match arrayLoop F L a (zeroValue elem) none with
        | none => none
        | some (items, err) => value2FieldAssign F cur (some (.slice elem (xs ++ items))) err
      | _ => none
    else if a.length == 0 then value2FieldAssign F cur none none
    else if raw != "<nil/>" then
      let v := stringsTrimSpace raw
      let v := if v = "<string></string>" then "" else v
      value2FieldAssign F cur (some (.str v)) none
    else value2FieldAssign F cur none none
/-- The loop over the members of a struct value (lines 141-156): `fs` are the
fields of the target so far and `err` the error variable. -/
def structLoop (F : FaultDecls) (L : StdLib) :
    List member → List (Field GoVal) → Option GoError → Option (List (Field GoVal) × Option GoError)
  | [], fs, err => some (fs, err)
  | ⟨name, v⟩ :: rest, fs, _ =>
    match value2Field F L v (handleCanSet L fs (memberField L fs name))
        (handleVal fs (memberField L fs name)) with
    | none => none
    | some (new, err) => structLoop F L rest (setFieldAt fs (memberField L fs name) new) err
/-- The loop over the elements of an array value (lines 163-166): every item
of the new slice starts as `zero`; `err` is the error variable. -/
def arrayLoop (F : FaultDecls) (L : StdLib) :
    List value → GoVal → Option GoError → Option (List GoVal × Option GoError)
  | [], _, err => some ([], err)
  | v :: rest, zero, _ =>
    match value2Field F L v true zero with
    | none => none
    | some (item, err) =>
      match arrayLoop F L rest zero err with
      | none => none
      | some (items, err) => some (item :: items, err)
end

/-- The loop of `xml2RPC` over the params (lines 77-83), from param `i` and
field `i` on; `elem.Field(i)` panics when there is no field left. -/
def paramLoop (F : FaultDecls) (L : StdLib) :
    List param → List (Field GoVal) → Option (List (Field GoVal) × Option GoError)
  | [], fs => some (fs, none)
  | _ :: _, [] => none
  | p :: ps, f :: fs =>
    match value2Field F L p.Value (isExported L f.Name) f.Val with
    | none => none
    | some (v, some err) => some ({ f with Val := v } :: fs, some err)
    | some (v, none) =>
      match paramLoop F L ps fs with
      | none => none
      | some (fs, err) => some ({ f with Val := v } :: fs, err)

/-- The function `xml2RPC`: `rpc` is the record that the argument points
to; the result is that record on return and the error, `none` when the call
panics. -/
def xml2RPC (F : FaultDecls) (L : StdLib) (xmlraw : GoString) (rpc : GoVal) :
    Option (GoVal × Option GoError) :=
  match L.xmlDecode xmlraw with
  | none => some (rpc, some (.fault F.FaultDecode))
  | some ret =>
    if !F.IsEmpty ret.Fault then some (rpc, some (.fault (getFaultResponse ret.Fault)))
    else
      match structFields rpc with
      | none => none
      | some fs =>
        if fs.length < ret.Params.length then some (rpc, some (.fault F.FaultWrongArgumentsNumber))
        else
          match paramLoop F L ret.Params fs with
          | none => none
          | some (fs, err) => some (setFields rpc fs, err)

/-! ## Instances and reference definitions used by the statements -/

/-- A library instance for evaluating the definitions on inputs whose names are
ASCII and that call none of the other fields or do not depend on their result:
the case tables are those of the ASCII letters, the other fields are
constant. -/
def nullLib : StdLib :=
  { unicodeIsUpper := Char.isUpper
    unicodeToUpper := Char.toUpper
    unicodeToLower := Char.toLower
    fmtFloat := fun _ => ""
    parseFloat := fun _ => ⟨0⟩
    base64Encode := fun _ => ""
    base64Decode := fun _ => ([], none)
    sscanDateTime := fun _ => ((0, 0, 0, 0, 0, 0), none)
    dateLocal := fun _ _ _ _ _ _ => zeroTime
    xmlDecode := fun _ => none }

/-- The library instance whose XML decoder returns `ret` on every text. -/
def libDecoding (ret : response) : StdLib :=
  { nullLib with xmlDecode := fun _ => some ret }

/-- An instance of the declarations of `fault.go`, for evaluating the
definitions: four distinct faults, and a fault block that is empty when it has
no struct member. -/
def sampleFaults : FaultDecls :=
  { FaultDecode := ⟨-32700, "Parsing error: not well formed"⟩
    FaultWrongArgumentsNumber := ⟨-32602, "Wrong Arguments Number"⟩
    FaultApplicationError := ⟨-32500, "Application Error"⟩
    FaultInvalidParams := ⟨-32602, "Invalid Method Parameters"⟩
    IsEmpty := fun f => f.Value.Struct.length == 0 }

/-- The value node of `<value><int>s</int></value>`. -/
def intValue (s : GoString) : value :=
  .mk [] [] "" s "" "" "" "" "" ("<int>" ++ s ++ "</int>")

/-- The value node of `<value><string>s</string></value>` for a text `s` without
markup characters. -/
def stringValue (s : GoString) : value :=
  .mk [] [] s "" "" "" "" "" "" ("<string>" ++ s ++ "</string>")

/-- The value node of `<value>s</value>` for a text `s` without markup
characters: no typed child. -/
def rawValue (s : GoString) : value :=
  .mk [] [] "" "" "" "" "" "" "" s

/-- The value node of a struct with the members `ms`; the raw text is not
read on this path and left empty. -/
def structValue (ms : List member) : value :=
  .mk [] ms "" "" "" "" "" "" "" ""

/-- The value node of an array with the elements `xs`; the raw text is not
read on this path and left empty. -/
def arrayValue (xs : List value) : value :=
  .mk xs [] "" "" "" "" "" "" "" ""

/-- The scalar field types of the round-trip claim. -/
inductive Scalar where
  | int (n : GoInt)
  | float (x : Float64)
  | str (s : GoString)
  | bool (b : Bool)
  | time (t : Time)
  | bytes (bs : List Nat)
deriving DecidableEq, Repr

/-- The Go value of a scalar. -/
def Scalar.toVal : Scalar → GoVal
  | .int n => .int n
  | .float x => .float64 x
  | .str s => .str s
  | .bool b => .bool b
  | .time t => .time t
  | .bytes bs => bytesVal bs

/-- The record with the given scalar fields. -/
def scalarRecord (name : GoString) (fs : List (Field Scalar)) : GoVal :=
  .struct name (fs.map (fun f => ⟨f.Name, f.Tag, f.Val.toVal⟩))

/-- The value node that stands for the output of `rpc2XML` on a scalar: the
text of the typed child in its slot, and in `Raw` the markup that `rpc2XML`
writes inside `<value>`.  That `xml.Decoder.Decode` yields this node on that
output is a hypothesis of the statements that use it; for a string it is so
when the decoder accepts every rune and changes none (`xmlVerbatim`). -/
def wireValue (L : StdLib) : Scalar → value
  | .int n => .mk [] [] "" (fmtInt n) "" "" "" "" "" ("<int>" ++ fmtInt n ++ "</int>")
  | .float x =>
    .mk [] [] "" "" "" (L.fmtFloat x) "" "" "" ("<double>" ++ L.fmtFloat x ++ "</double>")
  | .str s => .mk [] [] s "" "" "" "" "" "" (string2XML s)
  | .bool b => .mk [] [] "" "" "" "" (if b then "1" else "0") "" "" (bool2XML b)
  | .time t => .mk [] [] "" "" "" "" "" (dateTimeText t) "" (time2XML t)
  | .bytes bs => .mk [] [] "" "" "" "" "" "" (L.base64Encode bs) (base642XML L bs)

/-- The parsed document that stands for the encoding of a record of
scalars: one param per field, and the fault block `fault`. -/
def wireDocument (L : StdLib) (fs : List (Field Scalar)) (fault : faultValue) : response :=
  { Params := fs.map (fun f => ⟨wireValue L f.Val⟩), Fault := fault }

/-- A rune that `encoding/xml` accepts in a document: tab, new line, carriage
return, and the runes from `U+0020` on except the surrogates, `U+FFFE` and
`U+FFFF`. -/
def xmlChar (c : Char) : Bool :=
  c.toNat == 9 || c.toNat == 10 || c.toNat == 13 || (32 ≤ c.toNat && c.toNat ≤ 55295) ||
    (57344 ≤ c.toNat && c.toNat ≤ 65533) || (65536 ≤ c.toNat && c.toNat ≤ 1114111)

/-- A text that `encoding/xml` reads back rune for rune once its markup
characters are escaped: every rune is accepted and none is a carriage return,
which the decoder turns into a new line. -/
def xmlVerbatim (s : GoString) : Bool :=
  s.data.all (fun c => xmlChar c && c.toNat != 13)

/-- Whether the library reads a scalar back as it wrote it: an integer is within
the range of `int`; the text of a float is not empty and parses to the same
float; a string is read back rune for rune by the XML decoder; the text of a
timestamp scans to the same timestamp without error; a byte sequence is not
empty, nor is its text, and the text decodes to the same bytes without error
(the text of the empty sequence is empty and binds nothing: the field of a
new record stays the nil slice). -/
def readsBack (L : StdLib) : Scalar → Bool
  | .int n => decide (-(2 ^ 63 : Int) ≤ n) && decide (n < (2 ^ 63 : Int))
  | .float x => L.fmtFloat x != "" && L.parseFloat (L.fmtFloat x) == x
  | .str s => xmlVerbatim s
  | .bool _ => true
  | .time t => xml2DateTime L (dateTimeText t) == (t, none)
  | .bytes bs =>
    bs != [] && L.base64Encode bs != "" && L.base64Decode (L.base64Encode bs) == (bs, none)

/-- The value node of `<value><nil/></value>`: no typed child, the raw inner
text is the nil marker. -/
def nilValue : value :=
  .mk [] [] "" "" "" "" "" "" "" "<nil/>"

/-- The member name of the claim on struct encoding: the `xml` tag of the field
when it is not empty, the native identifier otherwise. -/
def memberName (f : Field GoVal) : GoString :=
  if f.Tag ≠ "" then f.Tag else f.Name

/-- The typed slots of a value node, as the claim on precedence names
them. -/
inductive Slot where
  | int | i4 | double | string | boolean | dateTime | base64 | struct | array
deriving DecidableEq, Repr

/-- The order of precedence of the claim. -/
def slotOrder : List Slot :=
  [.int, .i4, .double, .string, .boolean, .dateTime, .base64, .struct, .array]

/-- Whether a slot of a value node is populated: its text, or its list, is not
empty. -/
def populated (v : value) : Slot → Bool
  | .int => v.Int != ""
  | .i4 => v.Int4 != ""
  | .double => v.Double != ""
  | .string => v.String != ""
  | .boolean => v.Boolean != ""
  | .dateTime => v.DateTime != ""
  | .base64 => v.Base64 != ""
  | .struct => !v.Struct.isEmpty
  | .array => !v.Array.isEmpty

/-- The value node with the content of one slot only, and the raw text. -/
def keepSlot (v : value) : Slot → value
  | .int => .mk [] [] "" v.Int "" "" "" "" "" v.Raw
  | .i4 => .mk [] [] "" "" v.Int4 "" "" "" "" v.Raw
  | .double => .mk [] [] "" "" "" v.Double "" "" "" v.Raw
  | .string => .mk [] [] v.String "" "" "" "" "" "" v.Raw
  | .boolean => .mk [] [] "" "" "" "" v.Boolean "" "" v.Raw
  | .dateTime => .mk [] [] "" "" "" "" "" v.DateTime "" v.Raw
  | .base64 => .mk [] [] "" "" "" "" "" "" v.Base64 v.Raw
  | .struct => .mk [] v.Struct "" "" "" "" "" "" "" v.Raw
  | .array => .mk v.Array [] "" "" "" "" "" "" "" v.Raw

/-- The first populated slot in the order of precedence. -/
def firstPopulated (v : value) : Option Slot :=
  slotOrder.find? (populated v)

/-- The value node reduced to its first populated slot; a node with no
populated slot is left alone. -/
def firstSlotOnly (v : value) : value :=
  match firstPopulated v with
  | some k => keepSlot v k
  | none => v

/-- The library instance with the scanner above and the civil reading of
`time.Date`. -/
def civilLib : StdLib :=
  { unicodeIsUpper := Char.isUpper
    unicodeToUpper := Char.toUpper
    unicodeToLower := Char.toLower
    fmtFloat := fun _ => ""
    parseFloat := fun _ => ⟨0⟩
    base64Encode := fun _ => ""
    base64Decode := fun _ => ([], none)
    sscanDateTime := scanDateTime
    dateLocal := civilLocal
    xmlDecode := fun _ => none }

/-- The zero-padded text of width `w` of a natural number, as the claim on
timestamps has it: its `w` low decimal digits, the most significant first. -/
def fixedDigits : Nat → Nat → List Char
  | 0, _ => []
  | w + 1, n => fixedDigits w (n / 10) ++ [Nat.digitChar (n % 10)]

/-- The text `YYYYMMDDTHH:MM:SS` of a timestamp, as the claim on timestamps has
it. -/
def isoText (t : Time) : GoString :=
  ⟨fixedDigits 4 t.year.toNat ++ (fixedDigits 2 t.month ++ (fixedDigits 2 t.day ++
    ('T' :: (fixedDigits 2 t.hour ++ (':' :: (fixedDigits 2 t.minute ++
      (':' :: fixedDigits 2 t.second)))))))⟩

/-- The fields of a timestamp are those of a time of day on a day of a month. -/
def Time.isCivil (t : Time) : Bool :=
  1 ≤ t.month && t.month ≤ 12 && 1 ≤ t.day && t.day ≤ 31 && t.hour ≤ 23 && t.minute ≤ 59 &&
    t.second ≤ 59

/-- A timestamp of the claim on the round trip of timestamps. -/
def sampleTime : Time := ⟨2012, 7, 17, 14, 8, 55, 0, "Local"⟩

/-- A valid decimal integer, as the claim on malformed text has it: an
optional sign followed by one or more decimal digits. -/
def isDecimalInteger (s : GoString) : Bool :=
  match s.data with
  | [] => false
  | c :: cs =>
    if c = '-' ∨ c = '+' then !cs.isEmpty && cs.all Char.isDigit
    else (c :: cs).all Char.isDigit

/-- The digits of a text after its optional sign, up to the first rune that is
not a digit. -/
def leadingDigits (s : GoString) : List Char :=
  match s.data with
  | [] => []
  | c :: cs =>
    if c = '-' ∨ c = '+' then cs.takeWhile Char.isDigit else (c :: cs).takeWhile Char.isDigit

/-- The number that a run of digits writes after the number `acc`. -/
def digitsNat : List Char → Nat → Nat
  | [], acc => acc
  | c :: cs, acc => digitsNat cs (acc * 10 + (c.toNat - 48))

/-- The bound of `int` on the side of the sign of a text: `-1<<63` after a
minus sign, `1<<63 - 1` otherwise. -/
def intBound (s : GoString) : GoInt :=
  match s.data with
  | c :: _ => if c = '-' then -(2 ^ 63 : Int) else (2 ^ 63 : Int) - 1
  | [] => (2 ^ 63 : Int) - 1

/-- The escape of one rune, as the claim on `string2XML` states it. -/
def escapeRune (c : Char) : GoString :=
  if c = '&' then "&amp;"
  else if c = Char.ofNat 34 then "&quot;"
  else if c = '<' then "&lt;"
  else if c = '>' then "&gt;"
  else String.singleton c

/-! ## Theorems: the encoder -/

theorem join_cons (a : GoString) (l : List GoString) :
    String.join (a :: l) = a ++ String.join l := by
  apply String.ext
  simp [String.data_join]

/-- The error returned by `rpc2XML` is always nil. -/
theorem rpc2XML_err (L : StdLib) (v : GoVal) (out : GoString) (err : Option GoError)
    (h : rpc2XML L v = some (out, err)) : err = none := by
  cases v <;> simp only [rpc2XML] at h <;> (try split at h) <;> (try split at h) <;> simp_all

theorem fieldParams2XML_exported (L : StdLib) (fs : List (Field GoVal)) (outs : List GoString)
    (hexp : ∀ f ∈ fs, isExported L f.Name = true)
    (henc : fs.map (fun f => (rpc2XML L f.Val).map Prod.fst) = outs.map some) :
    fieldParams2XML L fs none =
      some (String.join (outs.map (fun o => "<param>" ++ o ++ "</param>")), none) := by
  induction fs generalizing outs with
  | nil =>
    cases outs with
    | nil => rfl
    | cons o os => simp at henc
  | cons f fs ih =>
    cases outs with
    | nil => simp at henc
    | cons o os =>
      simp only [List.map_cons, List.cons.injEq] at henc
      obtain ⟨h1, h2⟩ := henc
      have hf : isExported L f.Name = true := hexp f (List.mem_cons_self _ _)
      have ih2 := ih os (fun g hg => hexp g (List.mem_cons_of_mem _ hg)) h2
      cases hr : rpc2XML L f.Val with
      | none => simp [hr] at h1
      | some p =>
        obtain ⟨out, err⟩ := p
        have he : err = none := rpc2XML_err L f.Val out err hr
        subst he
        simp [hr] at h1
        subst h1
        simp [fieldParams2XML, fieldInterface, hf, hr, ih2, join_cons]

/-- C1, as amended: for a record argument, passed directly or by reference,
whose `N` top-level fields are all exported and whose fields `rpc2XML` encodes
to `outs`, `rpcParams2XML` writes `<params>`, then the `N` elements
`<param>` ++ the encoding of field `i` ++ `</param>` in declared order, then
`</params>`, and returns no error. -/
theorem rpcParams2XML_record (L : StdLib) (r : GoVal) (name : GoString) (fs : List (Field GoVal))
    (outs : List GoString)
    (hr : r = .struct name fs ∨ r = .ptr (.struct name fs))
    (hexp : ∀ f ∈ fs, isExported L f.Name = true)
    (henc : fs.map (fun f => (rpc2XML L f.Val).map Prod.fst) = outs.map some) :
    rpcParams2XML L [r] =
        some ("<params>" ++ String.join (outs.map (fun o => "<param>" ++ o ++ "</param>")) ++
          "</params>", none) ∧
      outs.length = fs.length := by
  have hlen : outs.length = fs.length := by
    have := congrArg List.length henc
    simpa using this.symm
  refine ⟨?_, hlen⟩
  have hf := fieldParams2XML_exported L fs outs hexp henc
  rcases hr with h | h <;> subst h <;>
    simp [rpcParams2XML, argParams2XML, elemOf, structFields, hf]

/-- Witness of `rpcParams2XML_record`: a reference to a record of two
fields. -/
theorem rpcParams2XML_record_witness :
    ((∀ f ∈ [(⟨"Int", "", .int 123⟩ : Field GoVal), ⟨"Bool", "", .bool false⟩],
        isExported nullLib f.Name = true) ∧
      [(⟨"Int", "", .int 123⟩ : Field GoVal), ⟨"Bool", "", .bool false⟩].map
          (fun f => (rpc2XML nullLib f.Val).map Prod.fst) =
        ["<value><int>123</int></value>", "<value><boolean>0</boolean></value>"].map some) ∧
    (rpcParams2XML nullLib [.ptr (.struct "xml.T" [⟨"Int", "", .int 123⟩, ⟨"Bool", "", .bool false⟩])] =
        some ("<params>" ++ String.join (["<value><int>123</int></value>",
          "<value><boolean>0</boolean></value>"].map (fun o => "<param>" ++ o ++ "</param>")) ++
          "</params>", none) ∧
      ["<value><int>123</int></value>", "<value><boolean>0</boolean></value>"].length =
        [(⟨"Int", "", .int 123⟩ : Field GoVal), ⟨"Bool", "", .bool false⟩].length) :=
  ⟨⟨by decide, by decide⟩,
    rpcParams2XML_record nullLib _ "xml.T" [⟨"Int", "", .int 123⟩, ⟨"Bool", "", .bool false⟩] _
      (Or.inr rfl) (by decide) (by decide)⟩

/-- C1 fails as stated: on a record with an unexported field
`elem.Field(i).Interface()` panics and nothing is returned. -/
theorem rpcParams2XML_unexported_panics :
    rpcParams2XML nullLib [.struct "xml.T" [⟨"Int", "", .int 123⟩, ⟨"hidden", "", .int 1⟩]] =
      none := by
  decide

theorem replaceScan_single (c : Char) (new : List Char) (s : List Char) :
    replaceScan [c] new 0 s = s.flatMap (fun x => if x = c then new else [x]) := by
  induction s with
  | nil => rfl
  | cons x xs ih =>
    by_cases h : x = c
    · subst h
      simp [replaceScan, List.isPrefixOf, ih]
    · have h2 : ¬ c = x := fun e => h e.symm
      simp [replaceScan, List.isPrefixOf, ih, h, h2]

theorem stringsReplaceAll_single (s : GoString) (c : Char) (new : GoString) :
    (stringsReplaceAll s (String.singleton c) new).data =
      s.data.flatMap (fun x => if x = c then new.data else [x]) := by
  have h : (String.singleton c).data = [c] := rfl
  simp [stringsReplaceAll, h, replaceScan_single]

/-- The four replacements of `string2XML` applied in turn to the text that
stands for one rune give the escape of that rune. -/
theorem escape_compose (x : Char) :
    ((((if x = '&' then "&amp;".data else [x]).flatMap
        (fun y => if y = Char.ofNat 34 then "&quot;".data else [y])).flatMap
        (fun y => if y = '<' then "&lt;".data else [y])).flatMap
        (fun y => if y = '>' then "&gt;".data else [y])) = (escapeRune x).data := by
  unfold escapeRune
  by_cases h1 : x = '&'
  · subst h1; decide
  · by_cases h2 : x = Char.ofNat 34
    · subst h2; decide
    · by_cases h3 : x = '<'
      · subst h3; decide
      · by_cases h4 : x = '>'
        · subst h4; decide
        · simp [h1, h2, h3, h4, String.singleton]

/-- C2: `string2XML s` is `<string>`, then the escape of every rune of `s` in
order, then `</string>`: the four replacements in sequence escape each special
rune once and never touch the output of an earlier replacement. -/
theorem string2XML_escapes (s : GoString) :
    string2XML s = "<string>" ++ String.join (s.data.map escapeRune) ++ "</string>" := by
  apply String.ext
  have e1 : ("&" : GoString) = String.singleton '&' := rfl
  have e2 : ("\"" : GoString) = String.singleton (Char.ofNat 34) := rfl
  have e3 : ("<" : GoString) = String.singleton '<' := rfl
  have e4 : (">" : GoString) = String.singleton '>' := rfl
  simp only [string2XML, String.data_append, String.data_join, e1, e2, e3, e4,
    stringsReplaceAll_single, List.flatMap_assoc, List.map_map]
  congr 2
  rw [List.flatMap_def]
  congr 1
  apply List.map_congr_left
  intro x _
  have h := escape_compose x
  simp only [List.flatMap_assoc] at h
  simpa using h

/-! ## Theorems: the decoder -/

theorem value2Field_eq (F : FaultDecls) (L : StdLib) (a : List value) (s : List member)
    (str int int4 dbl boolean dateTime b64 raw : GoString) (canSet : Bool) (cur : GoVal) :
    value2Field F L (.mk a s str int int4 dbl boolean dateTime b64 raw) canSet cur =
    if !canSet then some (cur, some (.fault F.FaultApplicationError))
    else if int != "" then value2FieldAssign F cur (some (.int (atoi int).1)) none
    else if int4 != "" then value2FieldAssign F cur (some (.int (atoi int4).1)) none
    else if dbl != "" then value2FieldAssign F cur (some (.float64 (L.parseFloat dbl))) none
    else if str != "" then value2FieldAssign F cur (some (.str str)) none
    else if boolean != "" then value2FieldAssign F cur (some (.bool (xml2Bool boolean))) none
    else if dateTime != "" then
      value2FieldAssign F cur (some (.time (xml2DateTime L dateTime).1)) (xml2DateTime L dateTime).2
    else if b64 != "" then
      value2FieldAssign F cur (some (bytesVal (xml2Base64 L b64).1)) (xml2Base64 L b64).2
    else if s.length != 0 then
      match structFields cur with
      | none => some (cur, some (.fault (structMismatch F cur)))
      | some fs =>
        match structLoop F L s fs none with
        | none => none
        | some (fs, err) => value2FieldAssign F (setFields cur fs) none err
    else if a.length == 0 then value2FieldAssign F cur none none
    else if a.length != 0 then
      match cur with
      | .slice elem xs =>
        match arrayLoop F L a (zeroValue elem) none with
        | none => none
        | some (items, err) => value2FieldAssign F cur (some (.slice elem (xs ++ items))) err
      | _ => none
    else if a.length == 0 then value2FieldAssign F cur none none
    else if raw != "<nil/>" then
      let v := stringsTrimSpace raw
      let v := if v = "<string></string>" then "" else v
      value2FieldAssign F cur (some (.str v)) none
    else value2FieldAssign F cur none none := by
  rfl

theorem structLoop_nil (F : FaultDecls) (L : StdLib) (fs : List (Field GoVal)) (err : Option GoError) :
    structLoop F L [] fs err = some (fs, err) := by
  rfl

theorem structLoop_cons (F : FaultDecls) (L : StdLib) (name : GoString) (v : value)
    (rest : List member) (fs : List (Field GoVal)) (err : Option GoError) :
    structLoop F L (⟨name, v⟩ :: rest) fs err =
      match value2Field F L v (handleCanSet L fs (memberField L fs name)) (handleVal fs (memberField L fs name)) with
      | none => none
      | some (new, err) => structLoop F L rest (setFieldAt fs (memberField L fs name) new) err := by
  rfl

theorem arrayLoop_nil (F : FaultDecls) (L : StdLib) (zero : GoVal) (err : Option GoError) :
    arrayLoop F L [] zero err = some ([], err) := by
  rfl

theorem arrayLoop_cons (F : FaultDecls) (L : StdLib) (v : value) (rest : List value)
    (zero : GoVal) (err : Option GoError) :
    arrayLoop F L (v :: rest) zero err =
      match value2Field F L v true zero with
      | none => none
      | some (item, err) =>
        match arrayLoop F L rest zero err with
        | none => none
        | some (items, err) => some (item :: items, err) := by
  rfl

theorem lib_ne_fault (L : StdLib) (w : Fault) (t : GoString) :
    (xml2DateTime L t).2 ≠ some (.fault w) ∧ (xml2Base64 L t).2 ≠ some (.fault w) := by
  constructor
  · unfold xml2DateTime
    cases (L.sscanDateTime t).2 <;> simp
  · unfold xml2Base64
    cases (L.base64Decode t).2 <;> simp

theorem value2FieldAssign_ne (F : FaultDecls) (w : Fault)
    (hIP : ∀ s, (⟨F.FaultInvalidParams.Code, F.FaultInvalidParams.String ++ s⟩ : Fault) ≠ w)
    (cur : GoVal) (val : Option GoVal) (err : Option GoError) (res : GoVal × Option GoError)
    (herr : err ≠ some (.fault w)) (h : value2FieldAssign F cur val err = some res) :
    res.2 ≠ some (.fault w) := by
  unfold value2FieldAssign at h
  split at h
  · split at h
    · cases h
      exact fun e => hIP _ (GoError.fault.inj (Option.some.inj e))
    · cases h; exact herr
  · cases h; exact herr

mutual
theorem value2Field_ne (F : FaultDecls) (L : StdLib) (w : Fault)
    (hAE : F.FaultApplicationError ≠ w)
    (hIP : ∀ s, (⟨F.FaultInvalidParams.Code, F.FaultInvalidParams.String ++ s⟩ : Fault) ≠ w) :
    ∀ (v : value) (canSet : Bool) (cur : GoVal) (res : GoVal × Option GoError),
      value2Field F L v canSet cur = some res → res.2 ≠ some (.fault w)
  | .mk a s str int int4 dbl boolean dateTime b64 raw, canSet, cur, res, h => by
    have hn : (none : Option GoError) ≠ some (.fault w) := fun e => Option.noConfusion e
    rw [value2Field_eq] at h
    by_cases c0 : (!canSet) = true
    · rw [if_pos c0] at h
      cases h
      exact fun e => hAE (GoError.fault.inj (Option.some.inj e))
    rw [if_neg c0] at h
    by_cases c1 : (int != "") = true
    · rw [if_pos c1] at h
      exact value2FieldAssign_ne F w hIP _ _ _ _ hn h
    rw [if_neg c1] at h
    by_cases c2 : (int4 != "") = true
    · rw [if_pos c2] at h
      exact value2FieldAssign_ne F w hIP _ _ _ _ hn h
    rw [if_neg c2] at h
    by_cases c3 : (dbl != "") = true
    · rw [if_pos c3] at h
      exact value2FieldAssign_ne F w hIP _ _ _ _ hn h
    rw [if_neg c3] at h
    by_cases c4 : (str != "") = true
    · rw [if_pos c4] at h
      exact value2FieldAssign_ne F w hIP _ _ _ _ hn h
    rw [if_neg c4] at h
    by_cases c5 : (boolean != "") = true
    · rw [if_pos c5] at h
      exact value2FieldAssign_ne F w hIP _ _ _ _ hn h
    rw [if_neg c5] at h
    by_cases c6 : (dateTime != "") = true
    · rw [if_pos c6] at h
      exact value2FieldAssign_ne F w hIP _ _ _ _ (lib_ne_fault L w dateTime).1 h
    rw [if_neg c6] at h
    by_cases c7 : (b64 != "") = true
    · rw [if_pos c7] at h
      exact value2FieldAssign_ne F w hIP _ _ _ _ (lib_ne_fault L w b64).2 h
    rw [if_neg c7] at h
    by_cases c8 : (s.length != 0) = true
    · rw [if_pos c8] at h
      cases hsf : structFields cur with
      | none =>
        simp only [hsf] at h
        cases h
        exact fun e => hIP _ (GoError.fault.inj (Option.some.inj e))
      | some fs =>
        simp only [hsf] at h
        cases hloop : structLoop F L s fs none with
        | none => simp only [hloop] at h; cases h
        | some r =>
          simp only [hloop] at h
          exact value2FieldAssign_ne F w hIP _ _ _ _
            (structLoop_ne F L w hAE hIP s fs none r hn hloop) h
    rw [if_neg c8] at h
    by_cases c9 : (a.length == 0) = true
    · rw [if_pos c9] at h
      exact value2FieldAssign_ne F w hIP _ _ _ _ hn h
    rw [if_neg c9] at h
    by_cases c10 : (a.length != 0) = true
    · rw [if_pos c10] at h
      cases cur with
      | slice elem xs =>
        cases hloop : arrayLoop F L a (zeroValue elem) none with
        | none => simp only [hloop] at h; cases h
        | some r =>
          simp only [hloop] at h
          exact value2FieldAssign_ne F w hIP _ _ _ _
            (arrayLoop_ne F L w hAE hIP a _ none r hn hloop) h
      | _ => cases h
    · exact absurd (by simpa using c9) c10
theorem structLoop_ne (F : FaultDecls) (L : StdLib) (w : Fault)
    (hAE : F.FaultApplicationError ≠ w)
    (hIP : ∀ s, (⟨F.FaultInvalidParams.Code, F.FaultInvalidParams.String ++ s⟩ : Fault) ≠ w) :
    ∀ (ms : List member) (fs : List (Field GoVal)) (err : Option GoError)
      (res : List (Field GoVal) × Option GoError),
      err ≠ some (.fault w) → structLoop F L ms fs err = some res → res.2 ≠ some (.fault w)
  | [], fs, err, res, herr, h => by
    rw [structLoop_nil] at h
    cases h; exact herr
  | ⟨name, v⟩ :: rest, fs, err, res, _, h => by
    rw [structLoop_cons] at h
    split at h
    · cases h
    · rename_i new e hv
      exact structLoop_ne F L w hAE hIP rest _ e res
        (value2Field_ne F L w hAE hIP v _ _ _ hv) h
theorem arrayLoop_ne (F : FaultDecls) (L : StdLib) (w : Fault)
    (hAE : F.FaultApplicationError ≠ w)
    (hIP : ∀ s, (⟨F.FaultInvalidParams.Code, F.FaultInvalidParams.String ++ s⟩ : Fault) ≠ w) :
    ∀ (vs : List value) (zero : GoVal) (err : Option GoError)
      (res : List GoVal × Option GoError),
      err ≠ some (.fault w) → arrayLoop F L vs zero err = some res → res.2 ≠ some (.fault w)
  | [], zero, err, res, herr, h => by
    rw [arrayLoop_nil] at h
    cases h; exact herr
  | v :: rest, zero, err, res, _, h => by
    rw [arrayLoop_cons] at h
    split at h
    · cases h
    · rename_i item e hv
      split at h
      · cases h
      · rename_i items e2 hloop
        cases h
        exact arrayLoop_ne F L w hAE hIP rest zero e (items, e2)
          (value2Field_ne F L w hAE hIP v _ _ _ hv) hloop
end

/-- C4: when the parsed response carries a non-empty fault block, `xml2RPC`
returns the `Fault` that `getFaultResponse` extracts and the target record is
left as it was, whatever the params of the response. -/
theorem xml2RPC_fault_shortcircuit (F : FaultDecls) (L : StdLib) (xmlraw : GoString)
    (ret : response) (rpc : GoVal)
    (hparse : L.xmlDecode xmlraw = some ret) (hfault : F.IsEmpty ret.Fault = false) :
    xml2RPC F L xmlraw rpc = some (rpc, some (.fault (getFaultResponse ret.Fault))) := by
  simp [xml2RPC, hparse, hfault]

/-- Witness of `xml2RPC_fault_shortcircuit`: a response with a fault block and
a param. -/
theorem xml2RPC_fault_shortcircuit_witness :
    ((libDecoding ⟨[⟨intValue "5"⟩], ⟨structValue [⟨"faultCode", intValue "116"⟩,
        ⟨"faultString", stringValue "boom"⟩]⟩⟩).xmlDecode "" =
      some ⟨[⟨intValue "5"⟩], ⟨structValue [⟨"faultCode", intValue "116"⟩,
        ⟨"faultString", stringValue "boom"⟩]⟩⟩ ∧
      sampleFaults.IsEmpty ⟨structValue [⟨"faultCode", intValue "116"⟩,
        ⟨"faultString", stringValue "boom"⟩]⟩ = false) ∧
    xml2RPC sampleFaults
        (libDecoding ⟨[⟨intValue "5"⟩], ⟨structValue [⟨"faultCode", intValue "116"⟩,
          ⟨"faultString", stringValue "boom"⟩]⟩⟩) ""
        (.struct "xml.T" [⟨"Int", "", .int 1⟩]) =
      some (.struct "xml.T" [⟨"Int", "", .int 1⟩], some (.fault (getFaultResponse
        ⟨structValue [⟨"faultCode", intValue "116"⟩, ⟨"faultString", stringValue "boom"⟩]⟩))) :=
  ⟨⟨rfl, by decide⟩, xml2RPC_fault_shortcircuit sampleFaults _ "" _ _ rfl (by decide)⟩

/-- C5, the code at the failing input: a `faultString` member whose typed
string child is empty gets the raw inner XML `<string></string>` as its
message, not the empty text. -/
theorem getFaultResponse_empty_string :
    getFaultResponse ⟨structValue [⟨"faultCode", intValue "116"⟩, ⟨"faultString", stringValue ""⟩]⟩ =
      { Code := 116, String := "<string></string>" } := by
  decide

/-- The fault built from the two members, in either order: the message is
the typed text when that is not empty and the raw inner text otherwise. -/
theorem getFaultResponse_pair (c : GoString) (v : value) :
    getFaultResponse ⟨structValue [⟨"faultCode", intValue c⟩, ⟨"faultString", v⟩]⟩ =
        { Code := (atoi c).1, String := if v.String = "" then v.Raw else v.String } ∧
      getFaultResponse ⟨structValue [⟨"faultString", v⟩, ⟨"faultCode", intValue c⟩]⟩ =
        { Code := (atoi c).1, String := if v.String = "" then v.Raw else v.String } := by
  constructor <;> simp [getFaultResponse, structValue, value.Struct, faultScan, intValue, value.Int]

theorem paramLoop_nil (F : FaultDecls) (L : StdLib) (fs : List (Field GoVal)) :
    paramLoop F L [] fs = some (fs, none) := by
  cases fs <;> rfl

theorem paramLoop_cons (F : FaultDecls) (L : StdLib) (p : param) (ps : List param)
    (f : Field GoVal) (fs : List (Field GoVal)) :
    paramLoop F L (p :: ps) (f :: fs) =
      match value2Field F L p.Value (isExported L f.Name) f.Val with
      | none => none
      | some (v, some err) => some ({ f with Val := v } :: fs, some err)
      | some (v, none) =>
        match paramLoop F L ps fs with
        | none => none
        | some (fs, err) => some ({ f with Val := v } :: fs, err) := by
  rfl

/-- What a successful run of the param loop leaves behind. -/
theorem paramLoop_ok (F : FaultDecls) (L : StdLib) :
    ∀ (ps : List param) (fs out : List (Field GoVal)),
      paramLoop F L ps fs = some (out, none) →
      out.length = fs.length ∧ ps.length ≤ fs.length ∧
      (∀ (i : Nat) (p : param) (f : Field GoVal), ps[i]? = some p → fs[i]? = some f →
        ∃ v, value2Field F L p.Value (isExported L f.Name) f.Val = some (v, none) ∧
          out[i]? = some { f with Val := v }) ∧
      (∀ i : Nat, ps.length ≤ i → out[i]? = fs[i]?) := by
  intro ps
  induction ps with
  | nil =>
    intro fs out h
    rw [paramLoop_nil] at h
    cases h
    simp
  | cons p ps ih =>
    intro fs out h
    cases fs with
    | nil => simp [paramLoop] at h
    | cons f fs =>
      rw [paramLoop_cons] at h
      cases hv : value2Field F L p.Value (isExported L f.Name) f.Val with
      | none => simp only [hv] at h; cases h
      | some r =>
        obtain ⟨v, e⟩ := r
        cases e with
        | some err => simp only [hv] at h; cases h
        | none =>
          simp only [hv] at h
          cases hl : paramLoop F L ps fs with
          | none => simp only [hl] at h; cases h
          | some r2 =>
            obtain ⟨out2, e2⟩ := r2
            simp only [hl] at h
            cases h
            obtain ⟨h1, h2, h3, h4⟩ := ih fs out2 hl
            refine ⟨by simp [h1], by simp; omega, ?_, ?_⟩
            · intro i q g hq hg
              cases i with
              | zero =>
                simp at hq hg
                subst hq; subst hg
                exact ⟨v, hv, by simp⟩
              | succ i =>
                simp at hq hg
                obtain ⟨v2, hv2, ho⟩ := h3 i q g hq hg
                exact ⟨v2, hv2, by simpa using ho⟩
            · intro i hi
              cases i with
              | zero => simp at hi
              | succ i =>
                simp at hi
                simpa using h4 i (by omega)


theorem paramLoop_ne (F : FaultDecls) (L : StdLib) (w : Fault)
    (hAE : F.FaultApplicationError ≠ w)
    (hIP : ∀ s, (⟨F.FaultInvalidParams.Code, F.FaultInvalidParams.String ++ s⟩ : Fault) ≠ w) :
    ∀ (ps : List param) (fs : List (Field GoVal)) (res : List (Field GoVal) × Option GoError),
      paramLoop F L ps fs = some res → res.2 ≠ some (.fault w) := by
  intro ps
  induction ps with
  | nil =>
    intro fs res h
    rw [paramLoop_nil] at h
    cases h
    exact fun e => Option.noConfusion e
  | cons p ps ih =>
    intro fs res h
    cases fs with
    | nil => simp [paramLoop] at h
    | cons f fs =>
      rw [paramLoop_cons] at h
      cases hv : value2Field F L p.Value (isExported L f.Name) f.Val with
      | none => simp only [hv] at h; cases h
      | some r =>
        obtain ⟨v, e⟩ := r
        have hne := value2Field_ne F L w hAE hIP p.Value _ _ _ hv
        cases e with
        | some err =>
          simp only [hv] at h
          cases h
          exact hne
        | none =>
          simp only [hv] at h
          cases hl : paramLoop F L ps fs with
          | none => simp only [hl] at h; cases h
          | some r2 =>
            obtain ⟨out2, e2⟩ := r2
            simp only [hl] at h
            cases h
            exact ih fs (out2, e2) hl

/-- C6: on a parsed document without fault block, `xml2RPC` returns
`FaultWrongArgumentsNumber` exactly when the record has fewer fields than the
document has params, and then the record is left as it was.  The faults of
`fault.go` enter through two facts: `FaultApplicationError` is not
`FaultWrongArgumentsNumber`, and no copy of `FaultInvalidParams` with a longer
`String` is. -/
theorem xml2RPC_arity (F : FaultDecls) (L : StdLib) (xmlraw : GoString) (ret : response)
    (name : GoString) (fs : List (Field GoVal))
    (hAE : F.FaultApplicationError ≠ F.FaultWrongArgumentsNumber)
    (hIP : ∀ s, (⟨F.FaultInvalidParams.Code, F.FaultInvalidParams.String ++ s⟩ : Fault) ≠
      F.FaultWrongArgumentsNumber)
    (hparse : L.xmlDecode xmlraw = some ret) (hfault : F.IsEmpty ret.Fault = true) :
    ((∃ out, xml2RPC F L xmlraw (.struct name fs) =
        some (out, some (.fault F.FaultWrongArgumentsNumber))) ↔
      fs.length < ret.Params.length) ∧
    (fs.length < ret.Params.length →
      xml2RPC F L xmlraw (.struct name fs) =
        some (.struct name fs, some (.fault F.FaultWrongArgumentsNumber))) := by
  have hlt : fs.length < ret.Params.length →
      xml2RPC F L xmlraw (.struct name fs) =
        some (.struct name fs, some (.fault F.FaultWrongArgumentsNumber)) := by
    intro h
    simp [xml2RPC, hparse, hfault, structFields, h]
  refine ⟨⟨?_, fun h => ⟨_, hlt h⟩⟩, hlt⟩
  rintro ⟨out, h⟩
  by_contra hge
  simp only [xml2RPC, hparse, hfault, structFields, Bool.not_true, Bool.false_eq_true,
    if_false, hge] at h
  cases hl : paramLoop F L ret.Params fs with
  | none => simp only [hl] at h; cases h
  | some r =>
    obtain ⟨out2, e2⟩ := r
    simp only [hl] at h
    have hne := paramLoop_ne F L _ hAE hIP _ _ _ hl
    injection h with h
    injection h with h1 h2
    exact hne h2

theorem sampleFaults_invalidParams (s : GoString) :
    (⟨sampleFaults.FaultInvalidParams.Code, sampleFaults.FaultInvalidParams.String ++ s⟩ : Fault) ≠
      sampleFaults.FaultWrongArgumentsNumber := by
  intro h
  have h2 := congrArg (fun f : Fault => f.String.data.head?) h
  simp [sampleFaults] at h2

/-- Witness of `xml2RPC_arity`: two params onto a record of one field. -/
theorem xml2RPC_arity_witness :
    sampleFaults.FaultApplicationError ≠ sampleFaults.FaultWrongArgumentsNumber ∧
    (∀ s, (⟨sampleFaults.FaultInvalidParams.Code, sampleFaults.FaultInvalidParams.String ++ s⟩ :
      Fault) ≠ sampleFaults.FaultWrongArgumentsNumber) ∧
    (libDecoding ⟨[⟨intValue "1"⟩, ⟨intValue "2"⟩], ⟨value.empty⟩⟩).xmlDecode "" =
      some ⟨[⟨intValue "1"⟩, ⟨intValue "2"⟩], ⟨value.empty⟩⟩ ∧
    sampleFaults.IsEmpty ⟨value.empty⟩ = true ∧
    (((∃ out, xml2RPC sampleFaults (libDecoding ⟨[⟨intValue "1"⟩, ⟨intValue "2"⟩], ⟨value.empty⟩⟩) ""
        (.struct "xml.T" [⟨"Int", "", .int 0⟩]) =
        some (out, some (.fault sampleFaults.FaultWrongArgumentsNumber))) ↔
      [(⟨"Int", "", .int 0⟩ : Field GoVal)].length <
        (⟨[⟨intValue "1"⟩, ⟨intValue "2"⟩], ⟨value.empty⟩⟩ : response).Params.length) ∧
    ([(⟨"Int", "", .int 0⟩ : Field GoVal)].length <
        (⟨[⟨intValue "1"⟩, ⟨intValue "2"⟩], ⟨value.empty⟩⟩ : response).Params.length →
      xml2RPC sampleFaults (libDecoding ⟨[⟨intValue "1"⟩, ⟨intValue "2"⟩], ⟨value.empty⟩⟩) ""
        (.struct "xml.T" [⟨"Int", "", .int 0⟩]) =
        some (.struct "xml.T" [⟨"Int", "", .int 0⟩],
          some (.fault sampleFaults.FaultWrongArgumentsNumber)))) :=
  ⟨by decide, sampleFaults_invalidParams, rfl, by decide,
    xml2RPC_arity sampleFaults _ "" _ "xml.T" [⟨"Int", "", .int 0⟩] (by decide)
      sampleFaults_invalidParams rfl (by decide)⟩

/-- C7: when `xml2RPC` returns no error on a parsed document with `p` params and a
record of `n` fields, then `p ≤ n`, for every `i < p` field `i` holds the
content that `value2Field` leaves when it binds the value of param `i` onto
field `i` (by position, the names and tags of the fields stay), and every field
of index `p` or more is as it was. -/
theorem xml2RPC_positional (F : FaultDecls) (L : StdLib) (xmlraw : GoString) (ret : response)
    (name : GoString) (fs : List (Field GoVal)) (out : GoVal)
    (hparse : L.xmlDecode xmlraw = some ret)
    (hok : xml2RPC F L xmlraw (.struct name fs) = some (out, none)) :
    ∃ fs2, out = .struct name fs2 ∧ fs2.length = fs.length ∧ ret.Params.length ≤ fs.length ∧
      (∀ (i : Nat) (p : param) (f : Field GoVal), ret.Params[i]? = some p → fs[i]? = some f →
        ∃ v, value2Field F L p.Value (isExported L f.Name) f.Val = some (v, none) ∧
          fs2[i]? = some { f with Val := v }) ∧
      (∀ i : Nat, ret.Params.length ≤ i → fs2[i]? = fs[i]?) := by
  simp only [xml2RPC, hparse, structFields] at hok
  split at hok
  · cases hok
  · split at hok
    · cases hok
    · cases hl : paramLoop F L ret.Params fs with
      | none => simp only [hl] at hok; cases hok
      | some r =>
        obtain ⟨fs2, e⟩ := r
        simp only [hl, setFields] at hok
        cases hok
        obtain ⟨h1, h2, h3, h4⟩ := paramLoop_ok F L _ _ _ hl
        exact ⟨fs2, rfl, h1, h2, h3, h4⟩

/-- Witness of `xml2RPC_positional`: one param onto a record of two fields. -/
theorem xml2RPC_positional_witness :
    ((libDecoding ⟨[⟨intValue "123"⟩], ⟨value.empty⟩⟩).xmlDecode "" =
        some ⟨[⟨intValue "123"⟩], ⟨value.empty⟩⟩ ∧
      xml2RPC sampleFaults (libDecoding ⟨[⟨intValue "123"⟩], ⟨value.empty⟩⟩) ""
          (.struct "xml.T" [⟨"Int", "", .int 0⟩, ⟨"Str", "", .str "x"⟩]) =
        some (.struct "xml.T" [⟨"Int", "", .int 123⟩, ⟨"Str", "", .str "x"⟩], none)) ∧
    ∃ fs2, GoVal.struct "xml.T" [⟨"Int", "", .int 123⟩, ⟨"Str", "", .str "x"⟩] =
        .struct "xml.T" fs2 ∧
      fs2.length = [(⟨"Int", "", .int 0⟩ : Field GoVal), ⟨"Str", "", .str "x"⟩].length ∧
      (⟨[⟨intValue "123"⟩], ⟨value.empty⟩⟩ : response).Params.length ≤
        [(⟨"Int", "", .int 0⟩ : Field GoVal), ⟨"Str", "", .str "x"⟩].length ∧
      (∀ (i : Nat) (p : param) (f : Field GoVal),
        (⟨[⟨intValue "123"⟩], ⟨value.empty⟩⟩ : response).Params[i]? = some p →
        [(⟨"Int", "", .int 0⟩ : Field GoVal), ⟨"Str", "", .str "x"⟩][i]? = some f →
        ∃ v, value2Field sampleFaults (libDecoding ⟨[⟨intValue "123"⟩], ⟨value.empty⟩⟩) p.Value
            (isExported (libDecoding ⟨[⟨intValue "123"⟩], ⟨value.empty⟩⟩) f.Name) f.Val = some (v, none) ∧
          fs2[i]? = some { f with Val := v }) ∧
      (∀ i : Nat, (⟨[⟨intValue "123"⟩], ⟨value.empty⟩⟩ : response).Params.length ≤ i →
        fs2[i]? = [(⟨"Int", "", .int 0⟩ : Field GoVal), ⟨"Str", "", .str "x"⟩][i]?) :=
  ⟨⟨rfl, rfl⟩, xml2RPC_positional sampleFaults _ "" _ "xml.T" _ _ rfl rfl⟩

/-- Binding a struct value with one member onto a record: the member is
bound onto the handle that `memberField` gives and the result written back. -/
theorem value2Field_single_member (F : FaultDecls) (L : StdLib) (name m : GoString) (v : value)
    (fs : List (Field GoVal)) :
    value2Field F L (structValue [⟨m, v⟩]) true (.struct name fs) =
      (value2Field F L v (handleCanSet L fs (memberField L fs m)) (handleVal fs (memberField L fs m))).map
        (fun r => (.struct name (setFieldAt fs (memberField L fs m) r.1), r.2)) := by
  unfold structValue
  rw [value2Field_eq]
  simp only [structFields, structLoop_cons, structLoop_nil]
  cases value2Field F L v (handleCanSet L fs (memberField L fs m)) (handleVal fs (memberField L fs m)) with
  | none => simp
  | some r => simp [value2FieldAssign, setFields]

theorem matchingFields_none (p : GoString → Bool) :
    ∀ (fs : List (Field GoVal)) (k : Nat),
      (∀ (j : Nat) (g : Field GoVal), fs[j]? = some g → p g.Name = false) →
      matchingFields p fs k = []
  | [], _, _ => rfl
  | f :: fs, k, h => by
    have h0 : p f.Name = false := h 0 f (by simp)
    have ht := matchingFields_none p fs (k + 1) (fun j g hg => h (j + 1) g (by simpa using hg))
    simp [matchingFields, h0, ht]

theorem matchingFields_unique (p : GoString → Bool) :
    ∀ (fs : List (Field GoVal)) (k i : Nat) (f : Field GoVal),
      fs[i]? = some f → p f.Name = true →
      (∀ (j : Nat) (g : Field GoVal), fs[j]? = some g → p g.Name = true → j = i) →
      matchingFields p fs k = [k + i]
  | [], _, _, _, hget, _, _ => by simp at hget
  | f0 :: fs, k, 0, f, hget, hp, hu => by
    simp at hget
    subst hget
    have ht := matchingFields_none p fs (k + 1) (fun j g hg => by
      cases hpg : p g.Name with
      | false => rfl
      | true =>
        have := hu (j + 1) g (by simpa using hg) hpg
        omega)
    simp [matchingFields, hp, ht]
  | f0 :: fs, k, i + 1, f, hget, hp, hu => by
    have h0 : p f0.Name = false := by
      cases hp0 : p f0.Name with
      | false => rfl
      | true =>
        have := hu 0 f0 (by simp) hp0
        omega
    have ht := matchingFields_unique p fs (k + 1) i f (by simpa using hget) hp
      (fun j g hg hpg => by
        have := hu (j + 1) g (by simpa using hg) hpg
        omega)
    simp [matchingFields, h0, ht]
    omega

theorem fieldByNameFunc_unique (p : GoString → Bool) (fs : List (Field GoVal)) (i : Nat)
    (f : Field GoVal) (hget : fs[i]? = some f) (hp : p f.Name = true)
    (hu : ∀ (j : Nat) (g : Field GoVal), fs[j]? = some g → p g.Name = true → j = i) :
    fieldByNameFunc p fs = some i := by
  unfold fieldByNameFunc
  rw [matchingFields_unique p fs 0 i f hget hp hu]
  simp

theorem isExported_ne_empty (L : StdLib) (n : GoString) (h : isExported L n = true) : n ≠ "" := by
  intro e
  subst e
  simp [isExported] at h

/-- How `memberField` resolves a member name. -/
theorem memberField_resolves (L : StdLib) (fs : List (Field GoVal)) (m : GoString) (i : Nat) (f : Field GoVal)
    (hget : fs[i]? = some f) (hexp : isExported L f.Name = true)
    (hres : fieldByName (captionString L m) fs = some i ∨
      (handleCanSet L fs (fieldByName (captionString L m) fs) = false ∧
        stringsToLower L f.Name = stringsToLower L m ∧ firstByteUpper L f.Name = true ∧
        ∀ (j : Nat) (g : Field GoVal), fs[j]? = some g →
          stringsToLower L g.Name = stringsToLower L m → firstByteUpper L g.Name = true →
          j = i)) :
    memberField L fs m = some i ∧ handleCanSet L fs (memberField L fs m) = true ∧
      handleVal fs (memberField L fs m) = f.Val := by
  have key : memberField L fs m = some i := by
    unfold memberField
    rcases hres with h | ⟨h1, h2, h2b, h3⟩
    · simp [h, handleCanSet, hget, hexp]
    · simp only [h1, Bool.not_false, if_true]
      apply fieldByNameFunc_unique _ fs i f hget
      · unfold lowerMatch
        simp only [h2, if_true]
        exact h2b
      · intro j g hg hp
        unfold lowerMatch at hp
        by_cases hl : stringsToLower L g.Name = stringsToLower L m
        · simp only [hl, if_true] at hp
          exact h3 j g hg hl hp
        · simp [hl] at hp
  rw [key]
  simp [handleCanSet, handleVal, List.get?_eq_getElem?, hget, hexp]


theorem fieldByName_first (fs : List (Field GoVal)) (n : GoString) (i : Nat) (f : Field GoVal)
    (hget : fs[i]? = some f) (hn : f.Name = n) (hne : n ≠ "")
    (hfirst : ∀ (j : Nat) (g : Field GoVal), j < i → fs[j]? = some g → g.Name ≠ n) :
    fieldByName n fs = some i := by
  unfold fieldByName
  rw [if_neg hne, List.findIdx?_eq_some_iff_getElem]
  obtain ⟨hi, hfi⟩ := List.getElem?_eq_some_iff.mp hget
  refine ⟨hi, ?_, ?_⟩
  · simp [hfi, hn]
  · intro j hj
    have := hfirst j fs[j] hj (List.getElem?_eq_getElem _)
    simpa using this

theorem fieldByName_absent (fs : List (Field GoVal)) (n : GoString)
    (h : ∀ g ∈ fs, g.Name ≠ n) : fieldByName n fs = none := by
  unfold fieldByName
  split
  · rfl
  · rw [List.findIdx?_eq_none_iff]
    intro g hg
    simpa using h g hg

/-- C9, as amended: a struct value with the member `m` is bound onto a record
whose exported field `i` is resolved from `m` in one of two ways: its
identifier is `captionString L m` (each underscore dropped, the first rune and
the rune after an underscore in upper case) and it is the first field with
that identifier; or no field has the identifier `captionString L m`, the
identifier equals `m` up to letter case, underscores included, its first byte
read as a rune is an upper-case letter, and no other field has such an
identifier.  Then the member is bound onto field `i`: the field gets the
content that `value2Field` leaves for the value of the member.  The case
tables are those of the library, whatever they are. -/
theorem value2Field_member_name (F : FaultDecls) (L : StdLib) (name m : GoString) (v : value)
    (fs : List (Field GoVal)) (i : Nat) (f : Field GoVal)
    (hget : fs[i]? = some f) (hexp : isExported L f.Name = true)
    (hres : (f.Name = captionString L m ∧
        ∀ (j : Nat) (g : Field GoVal), j < i → fs[j]? = some g → g.Name ≠ captionString L m) ∨
      ((∀ g ∈ fs, g.Name ≠ captionString L m) ∧
        stringsToLower L f.Name = stringsToLower L m ∧ firstByteUpper L f.Name = true ∧
        ∀ (j : Nat) (g : Field GoVal), fs[j]? = some g →
          stringsToLower L g.Name = stringsToLower L m → firstByteUpper L g.Name = true →
          j = i)) :
    value2Field F L (structValue [⟨m, v⟩]) true (.struct name fs) =
      (value2Field F L v true f.Val).map
        (fun r => (.struct name (setFieldAt fs (some i) r.1), r.2)) := by
  have hr : fieldByName (captionString L m) fs = some i ∨
      (handleCanSet L fs (fieldByName (captionString L m) fs) = false ∧
        stringsToLower L f.Name = stringsToLower L m ∧ firstByteUpper L f.Name = true ∧
        ∀ (j : Nat) (g : Field GoVal), fs[j]? = some g →
          stringsToLower L g.Name = stringsToLower L m → firstByteUpper L g.Name = true →
          j = i) := by
    rcases hres with ⟨h1, h2⟩ | ⟨h1, h2, h2b, h3⟩
    · exact Or.inl (fieldByName_first fs _ i f hget h1 (h1 ▸ isExported_ne_empty L _ hexp) h2)
    · refine Or.inr ⟨?_, h2, h2b, h3⟩
      rw [fieldByName_absent fs _ h1]
      rfl
  obtain ⟨k1, k2, k3⟩ := memberField_resolves L fs m i f hget hexp hr
  rw [value2Field_single_member, k2, k3, k1]

/-- Witness of `value2Field_member_name`: the member `userid` against the field
`UserID`. -/
theorem value2Field_member_name_witness :
    ([(⟨"UserID", "", .int 0⟩ : Field GoVal)][0]? = some ⟨"UserID", "", .int 0⟩ ∧
      isExported nullLib "UserID" = true) ∧
    value2Field sampleFaults nullLib (structValue [⟨"userid", intValue "7"⟩]) true
        (.struct "xml.T" [⟨"UserID", "", .int 0⟩]) =
      (value2Field sampleFaults nullLib (intValue "7") true (.int 0)).map
        (fun r => (.struct "xml.T" (setFieldAt [⟨"UserID", "", .int 0⟩] (some 0) r.1), r.2)) :=
  ⟨⟨rfl, by decide⟩,
    value2Field_member_name sampleFaults nullLib "xml.T" "userid" (intValue "7")
      [⟨"UserID", "", .int 0⟩] 0 ⟨"UserID", "", .int 0⟩ rfl (by decide)
      (Or.inr ⟨by decide, by decide, by decide, by
        intro j g hg _ _
        cases j with
        | zero => rfl
        | succ j => simp at hg⟩)⟩

/-- C9 fails as stated: the member `user_id` is not bound onto the field
`UserID`; the field keeps its content and the call returns
`FaultApplicationError`. -/
theorem value2Field_user_id_UserID :
    value2Field sampleFaults nullLib (structValue [⟨"user_id", intValue "7"⟩]) true
        (.struct "xml.T" [⟨"UserID", "", .int 0⟩]) =
      some (.struct "xml.T" [⟨"UserID", "", .int 0⟩],
        some (.fault sampleFaults.FaultApplicationError)) := by
  rfl

theorem fieldByName_names_only (n : GoString) (fs gs : List (Field GoVal))
    (h : fs.map Field.Name = gs.map Field.Name) : fieldByName n fs = fieldByName n gs := by
  unfold fieldByName
  have e : ∀ l : List (Field GoVal), l.findIdx? (fun f => decide (f.Name = n)) =
      (l.map Field.Name).findIdx? (fun s => decide (s = n)) := by
    intro l
    rw [List.findIdx?_map]
    rfl
  rw [e fs, e gs, h]

theorem matchingFields_names_only (p : GoString → Bool) :
    ∀ (fs gs : List (Field GoVal)) (k : Nat), fs.map Field.Name = gs.map Field.Name →
      matchingFields p fs k = matchingFields p gs k
  | [], [], _, _ => rfl
  | [], _ :: _, _, h => by simp at h
  | _ :: _, [], _, h => by simp at h
  | f :: fs, g :: gs, k, h => by
    simp only [List.map_cons, List.cons.injEq] at h
    have ih := matchingFields_names_only p fs gs (k + 1) h.2
    simp [matchingFields, h.1, ih]

theorem handleCanSet_names_only (L : StdLib) (fs gs : List (Field GoVal)) (o : Option Nat)
    (h : fs.map Field.Name = gs.map Field.Name) : handleCanSet L fs o = handleCanSet L gs o := by
  cases o with
  | none => rfl
  | some i =>
    have e : (fs.map Field.Name)[i]? = (gs.map Field.Name)[i]? := by rw [h]
    simp only [List.getElem?_map] at e
    unfold handleCanSet
    simp only [List.get?_eq_getElem?]
    cases hf : fs[i]? <;> cases hg : gs[i]? <;> simp_all

/-- Which field a member resolves to depends on the native identifiers of the
record only: the `xml` tags are not read. -/
theorem memberField_names_only (L : StdLib) (m : GoString) (fs gs : List (Field GoVal))
    (h : fs.map Field.Name = gs.map Field.Name) : memberField L fs m = memberField L gs m := by
  unfold memberField fieldByNameFunc
  simp only [fieldByName_names_only _ fs gs h, handleCanSet_names_only L fs gs _ h,
    matchingFields_names_only _ fs gs 0 h]

/-- C10, as amended: the `xml` tag of a field is not read on decode.  A member
named as the tag of field `i` is bound onto that field when
`captionString` of the tag is the identifier of the field, the field is
exported and it is the first one with that identifier; and for every member
name, the field it resolves to is the same in any record with the same native
identifiers, whatever the tags. -/
theorem value2Field_member_override (F : FaultDecls) (L : StdLib) (name : GoString) (v : value)
    (fs : List (Field GoVal)) (i : Nat) (f : Field GoVal)
    (hget : fs[i]? = some f) (hexp : isExported L f.Name = true)
    (hname : f.Name = captionString L f.Tag)
    (hfirst : ∀ (j : Nat) (g : Field GoVal), j < i → fs[j]? = some g →
      g.Name ≠ captionString L f.Tag) :
    value2Field F L (structValue [⟨f.Tag, v⟩]) true (.struct name fs) =
        (value2Field F L v true f.Val).map
          (fun r => (.struct name (setFieldAt fs (some i) r.1), r.2)) ∧
      ∀ (m : GoString) (gs : List (Field GoVal)), gs.map Field.Name = fs.map Field.Name →
        memberField L gs m = memberField L fs m := by
  refine ⟨?_, fun m gs h => memberField_names_only L m gs fs h⟩
  have hr := fieldByName_first fs _ i f hget hname (hname ▸ isExported_ne_empty L _ hexp) hfirst
  obtain ⟨k1, k2, k3⟩ := memberField_resolves L fs f.Tag i f hget hexp (Or.inl hr)
  rw [value2Field_single_member, k2, k3, k1]

/-- Witness of `value2Field_member_override`: the field `StdoutLogfile` of the
record `ProcessInfo`, tagged `stdout_logfile`. -/
theorem value2Field_member_override_witness :
    ([(⟨"StdoutLogfile", "stdout_logfile", .str ""⟩ : Field GoVal)][0]? =
        some ⟨"StdoutLogfile", "stdout_logfile", .str ""⟩ ∧
      isExported nullLib "StdoutLogfile" = true ∧ "StdoutLogfile" = captionString nullLib "stdout_logfile") ∧
    (value2Field sampleFaults nullLib (structValue [⟨"stdout_logfile", stringValue "/log"⟩]) true
        (.struct "xml.ProcessInfo" [⟨"StdoutLogfile", "stdout_logfile", .str ""⟩]) =
        (value2Field sampleFaults nullLib (stringValue "/log") true (.str "")).map
          (fun r => (.struct "xml.ProcessInfo"
            (setFieldAt [⟨"StdoutLogfile", "stdout_logfile", .str ""⟩] (some 0) r.1), r.2)) ∧
      ∀ (m : GoString) (gs : List (Field GoVal)),
        gs.map Field.Name = [(⟨"StdoutLogfile", "stdout_logfile", .str ""⟩ : Field GoVal)].map
          Field.Name →
        memberField nullLib gs m = memberField nullLib [⟨"StdoutLogfile", "stdout_logfile", .str ""⟩] m) :=
  ⟨⟨rfl, by decide, by decide⟩,
    value2Field_member_override sampleFaults nullLib "xml.ProcessInfo" (stringValue "/log")
      [⟨"StdoutLogfile", "stdout_logfile", .str ""⟩] 0 ⟨"StdoutLogfile", "stdout_logfile", .str ""⟩
      rfl (by decide) (by decide) (by intro j g hj; omega)⟩

/-- C10 fails as stated: a member named `bar` is not bound onto the field `Foo`
tagged `bar`; the field keeps its content and the call returns
`FaultApplicationError`. -/
theorem value2Field_override_unrelated :
    value2Field sampleFaults nullLib (structValue [⟨"bar", intValue "7"⟩]) true
        (.struct "xml.T" [⟨"Foo", "bar", .int 0⟩]) =
      some (.struct "xml.T" [⟨"Foo", "bar", .int 0⟩],
        some (.fault sampleFaults.FaultApplicationError)) := by
  rfl

/-- C8, the code at the failing input: an array value bound onto an `int`
field makes `reflect.MakeSlice` panic; no `InvalidParams` fault is
returned. -/
theorem value2Field_array_onto_int :
    value2Field sampleFaults nullLib (arrayValue [intValue "1"]) true (.int 0) = none := by
  rfl

/-- The type check on the scalar path: an `<int>` with a non-empty text is
assigned to a field of type `int` and refused with the `InvalidParams` fault,
the field kept, on a field of any other type. -/
theorem value2Field_int_gate (F : FaultDecls) (L : StdLib) (s : GoString) (cur : GoVal)
    (hs : s ≠ "") :
    value2Field F L (intValue s) true cur =
      if GoType.beq .int (typeOf cur) then some (.int (atoi s).1, none)
      else some (cur, some (.fault (typeMismatch F (.int (atoi s).1) cur))) := by
  unfold intValue
  rw [value2Field_eq]
  simp only [Bool.not_true, Bool.false_eq_true, if_false, bne_iff_ne, ne_eq, hs, not_false_eq_true,
    if_true, value2FieldAssign, typeOf]
  by_cases h : GoType.beq .int (typeOf cur) = true
  · simp [h]
  · simp [h]

/-- The struct path of `value2Field` has the check that the array path misses. -/
theorem value2Field_struct_onto_int :
    value2Field sampleFaults nullLib (structValue [⟨"a", intValue "1"⟩]) true (.int 0) =
      some (.int 0, some (.fault (structMismatch sampleFaults (.int 0)))) := by
  rfl


/-! ## Theorems: the round trip -/

theorem digitChar_value (m : Nat) (h : m < 10) :
    (Nat.digitChar m).isDigit = true ∧ (Nat.digitChar m).toNat - 48 = m := by
  interval_cases m <;> decide

/-- Reading the decimal digits that `Nat.toDigitsCore` writes gives the number
back. -/
theorem digitsValue_toDigitsCore :
    ∀ (fuel n : Nat) (ds : List Char), n < fuel →
      digitsValue (Nat.toDigitsCore 10 fuel n ds) 0 = digitsValue ds n
  | 0, _, _, h => by omega
  | fuel + 1, n, ds, h => by
    have hd := digitChar_value (n % 10) (Nat.mod_lt _ (by decide))
    unfold Nat.toDigitsCore
    by_cases h0 : n / 10 = 0
    · simp only [h0, if_true]
      have e : n % 10 = n := by omega
      simp only [digitsValue, hd.1, hd.2, if_true, Nat.zero_mul, Nat.zero_add]
      rw [e]
    · simp only [h0, if_false]
      rw [digitsValue_toDigitsCore fuel (n / 10) _ (by omega)]
      have : n / 10 * 10 + n % 10 = n := by omega
      simp [digitsValue, hd.1, hd.2, this]

theorem toDigitsCore_ne_nil (fuel n : Nat) (ds : List Char) :
    Nat.toDigitsCore 10 (fuel + 1) n ds ≠ [] := by
  induction fuel generalizing n ds with
  | zero =>
    unfold Nat.toDigitsCore
    by_cases h : n / 10 = 0 <;> simp [h, Nat.toDigitsCore]
  | succ k ih =>
    unfold Nat.toDigitsCore
    by_cases h : n / 10 = 0
    · simp [h]
    · simp only [h, if_false]
      exact ih _ _

theorem toDigits_head (n : Nat) :
    ∃ c cs, Nat.toDigits 10 n = c :: cs ∧ c.isDigit = true ∧ digitsValue (c :: cs) 0 = some n := by
  have hv : digitsValue (Nat.toDigits 10 n) 0 = some n := by
    unfold Nat.toDigits
    rw [digitsValue_toDigitsCore (n + 1) n [] (by omega)]
    rfl
  cases hl : Nat.toDigits 10 n with
  | nil => exact absurd hl (toDigitsCore_ne_nil n n [])
  | cons c cs =>
    refine ⟨c, cs, rfl, ?_, hl ▸ hv⟩
    rw [hl] at hv
    unfold digitsValue at hv
    split at hv
    · assumption
    · cases hv

theorem digitsValue_le :
    ∀ (ds : List Char) (acc n : Nat), digitsValue ds acc = some n → acc ≤ n
  | [], acc, n, h => by
    simp only [digitsValue, Option.some.injEq] at h
    omega
  | c :: cs, acc, n, h => by
    unfold digitsValue at h
    by_cases hc : c.isDigit = true
    · simp only [hc, if_true] at h
      have := digitsValue_le cs _ n h
      omega
    · simp [hc] at h

/-- On a run of digits whose value fits 64 bits the loop of `ParseUint` gives
the value. -/
theorem parseUintLoop_digits :
    ∀ (ds : List Char) (acc n : Nat), digitsValue ds acc = some n → n < 2 ^ 64 →
      parseUintLoop ds acc = .ok n
  | [], acc, n, h, _ => by
    simp only [digitsValue, Option.some.injEq] at h
    simp [parseUintLoop, h]
  | c :: cs, acc, n, h, hn => by
    unfold digitsValue at h
    by_cases hc : c.isDigit = true
    · simp only [hc, if_true] at h
      have hle := digitsValue_le cs _ n h
      have ih := parseUintLoop_digits cs _ n h hn
      have h1 : ¬ (acc ≥ (2 ^ 64 - 1) / 10 + 1) := by
        norm_num at hn ⊢
        omega
      have h2 : ¬ (acc * 10 + (c.toNat - 48) > 2 ^ 64 - 1) := by
        norm_num at hn ⊢
        omega
      unfold parseUintLoop
      simp only [hc, Bool.not_true, Bool.false_eq_true, if_false, h1, h2, ih]
    · simp [hc] at h

theorem parseInt_digits (c : Char) (cs : List Char) (n : Nat) (h1 : c ≠ '-') (h2 : c ≠ '+')
    (hv : digitsValue (c :: cs) 0 = some n) (hn : n < 2 ^ 63) :
    parseInt ⟨c :: cs⟩ = ((n : Int), none) := by
  have hp := parseUintLoop_digits (c :: cs) 0 n hv (by norm_num at hn ⊢; omega)
  have hm : ¬ (n ≥ 2 ^ 63) := by omega
  simp only [parseInt, h1, h2, if_false, hp, hm]
  rfl

theorem parseInt_neg_digits (c : Char) (cs : List Char) (n : Nat)
    (hv : digitsValue (c :: cs) 0 = some n) (hn : n ≤ 2 ^ 63) :
    parseInt ⟨'-' :: c :: cs⟩ = (-(n : Int), none) := by
  have hp := parseUintLoop_digits (c :: cs) 0 n hv (by norm_num at hn ⊢; omega)
  have hm : ¬ (n > 2 ^ 63) := by omega
  simp only [parseInt, if_true, hp, hm, if_false]

theorem atoi_fmtInt (n : Int) (hlo : -(2 ^ 63 : Int) ≤ n) (hhi : n < (2 ^ 63 : Int)) :
    atoi (fmtInt n) = (n, false) ∧ fmtInt n ≠ "" := by
  cases n with
  | ofNat m =>
    obtain ⟨c, cs, h1, h2, h3⟩ := toDigits_head m
    have e : (fmtInt (Int.ofNat m)).data = c :: cs := h1
    have hm : ¬ (m ≥ 2 ^ 63) := by
      have : (m : Int) < 2 ^ 63 := hhi
      omega
    have hc1 : c ≠ '-' := by intro e; subst e; simp at h2
    have hc2 : c ≠ '+' := by intro e; subst e; simp at h2
    constructor
    · have hs : fmtInt (Int.ofNat m) = ⟨c :: cs⟩ := String.ext e
      rw [atoi, hs, parseInt_digits c cs m hc1 hc2 h3 (by omega)]
      rfl
    · intro h
      rw [h] at e
      cases e
  | negSucc m =>
    obtain ⟨c, cs, h1, h2, h3⟩ := toDigits_head (m + 1)
    have e : (fmtInt (Int.negSucc m)).data = '-' :: c :: cs := by
      show ("-" ++ (Nat.repr (m + 1))).data = _
      rw [String.data_append]
      show ['-'] ++ Nat.toDigits 10 (m + 1) = _
      rw [h1]
      rfl
    have hm : ¬ (m + 1 > 2 ^ 63) := by
      have h1 : -(2 ^ 63 : Int) ≤ Int.negSucc m := hlo
      rw [Int.negSucc_eq] at h1
      omega
    constructor
    · have hs : fmtInt (Int.negSucc m) = ⟨'-' :: c :: cs⟩ := String.ext e
      rw [atoi, hs, parseInt_neg_digits c cs (m + 1) h3 (by omega), Int.negSucc_eq]
      rfl
    · intro h
      rw [h] at e
      cases e


theorem bytesOf_bytesVal (bs : List Nat) :
    bytesOf (bs.map (fun b => GoVal.other "uint8" "uint8" b)) = bs := by
  induction bs with
  | nil => rfl
  | cons b bs ih => simp [bytesOf, ih]

/-- What `rpc2XML` writes for a scalar is `<value>`, the markup kept in `Raw`
of its value node, and `</value>`. -/
theorem rpc2XML_scalar (L : StdLib) (s : Scalar) :
    rpc2XML L s.toVal = some ("<value>" ++ (wireValue L s).Raw ++ "</value>", none) := by
  cases s with
  | bytes bs =>
    have h : typeString (.slice (.other "uint8" "uint8")) = "[]uint8" := by decide
    simp [Scalar.toVal, bytesVal, rpc2XML, wireValue, value.Raw, h, bytesOf_bytesVal]
  | _ => simp [Scalar.toVal, rpc2XML, wireValue, value.Raw]

theorem dateTimeText_ne_empty (t : Time) : dateTimeText t ≠ "" := by
  intro h
  have h2 := congrArg String.length h
  simp only [dateTimeText, String.length_append] at h2
  have e : "T".length = 1 := rfl
  have e0 : "".length = 0 := rfl
  rw [e, e0] at h2
  omega

/-- Binding the value node of a scalar onto the zero value of its type gives
the scalar back, when the library reads it back. -/
theorem value2Field_scalar (F : FaultDecls) (L : StdLib) (s : Scalar)
    (h : readsBack L s = true) :
    value2Field F L (wireValue L s) true (zeroValue (typeOf s.toVal)) = some (s.toVal, none) := by
  cases s with
  | int n =>
    simp only [readsBack, Bool.and_eq_true, decide_eq_true_eq] at h
    obtain ⟨h1, h2⟩ := atoi_fmtInt n h.1 h.2
    simp only [wireValue]
    rw [value2Field_eq]
    simp [h2, h1, value2FieldAssign, Scalar.toVal, typeOf, zeroValue, GoType.beq]
  | float x =>
    simp only [readsBack, Bool.and_eq_true, bne_iff_ne, ne_eq, beq_iff_eq] at h
    simp only [wireValue]
    rw [value2Field_eq]
    simp [h.1, h.2, value2FieldAssign, Scalar.toVal, typeOf, zeroValue, GoType.beq]
  | str s =>
    simp only [wireValue]
    rw [value2Field_eq]
    by_cases hs : s = ""
    · subst hs
      simp [value2FieldAssign, Scalar.toVal, typeOf, zeroValue]
    · simp [hs, value2FieldAssign, Scalar.toVal, typeOf, zeroValue, GoType.beq]
  | bool b =>
    simp only [wireValue]
    rw [value2Field_eq]
    cases b <;> simp [value2FieldAssign, Scalar.toVal, typeOf, zeroValue, GoType.beq, xml2Bool]
  | time t =>
    simp only [readsBack, beq_iff_eq] at h
    simp only [wireValue]
    rw [value2Field_eq]
    simp [dateTimeText_ne_empty, h, value2FieldAssign, Scalar.toVal, typeOf, zeroValue, GoType.beq]
  | bytes bs =>
    simp only [readsBack, Bool.and_eq_true, bne_iff_ne, ne_eq, beq_iff_eq] at h
    have he : L.base64Encode bs ≠ "" := h.1.2
    simp only [wireValue]
    rw [value2Field_eq]
    simp [he, xml2Base64, h.2, value2FieldAssign, Scalar.toVal, typeOf, zeroValue, bytesVal,
      GoType.beq]


theorem zeroFields_fieldTypesOf (fs : List (Field GoVal)) :
    zeroFields (fieldTypesOf fs) = fs.map (fun f => ⟨f.Name, f.Tag, zeroValue (typeOf f.Val)⟩) := by
  induction fs with
  | nil => rfl
  | cons f fs ih =>
    show (⟨f.Name, f.Tag, zeroValue (typeOf f.Val)⟩ : Field GoVal) ::
      zeroFields (fieldTypesOf fs) = _
    rw [ih]
    rfl

theorem zeroValue_scalarRecord (name : GoString) (fs : List (Field Scalar)) :
    zeroValue (typeOf (scalarRecord name fs)) =
      .struct name (fs.map (fun f => ⟨f.Name, f.Tag, zeroValue (typeOf f.Val.toVal)⟩)) := by
  show GoVal.struct name (zeroFields (fieldTypesOf _)) = _
  rw [zeroFields_fieldTypesOf]
  simp [List.map_map, Function.comp_def]

/-- The param loop on the document of a record of scalars and the zero
record. -/
theorem paramLoop_scalars (F : FaultDecls) (L : StdLib) (fs : List (Field Scalar))
    (hexp : ∀ f ∈ fs, isExported L f.Name = true)
    (hlib : ∀ f ∈ fs, readsBack L f.Val = true) :
    paramLoop F L (fs.map (fun f => ⟨wireValue L f.Val⟩))
        (fs.map (fun f => ⟨f.Name, f.Tag, zeroValue (typeOf f.Val.toVal)⟩)) =
      some (fs.map (fun f => ⟨f.Name, f.Tag, f.Val.toVal⟩), none) := by
  induction fs with
  | nil => rfl
  | cons f fs ih =>
    have h1 := hexp f (List.mem_cons_self _ _)
    have h2 := value2Field_scalar F L f.Val (hlib f (List.mem_cons_self _ _))
    have h3 := ih (fun g hg => hexp g (List.mem_cons_of_mem _ hg))
      (fun g hg => hlib g (List.mem_cons_of_mem _ hg))
    simp only [List.map_cons]
    rw [paramLoop_cons]
    simp only [h1, h2, h3]

theorem fieldParams2XML_scalars (L : StdLib) (fs : List (Field Scalar))
    (hexp : ∀ f ∈ fs, isExported L f.Name = true) :
    fieldParams2XML L (fs.map (fun f => ⟨f.Name, f.Tag, f.Val.toVal⟩)) none =
      some (String.join (fs.map (fun f =>
        "<param>" ++ ("<value>" ++ (wireValue L f.Val).Raw ++ "</value>") ++ "</param>")), none) := by
  have h := fieldParams2XML_exported L (fs.map (fun f => ⟨f.Name, f.Tag, f.Val.toVal⟩))
    (fs.map (fun f => "<value>" ++ (wireValue L f.Val).Raw ++ "</value>"))
    (by
      intro g hg
      obtain ⟨f, hf, rfl⟩ := List.mem_map.mp hg
      exact hexp f hf)
    (by simp [List.map_map, Function.comp_def, rpc2XML_scalar])
  simpa [List.map_map, Function.comp_def] using h

/-- C3, as amended: for a record whose fields are exported scalars (integers,
floats, strings, booleans, timestamps, byte sequences) that are read back as
written (strings of runes that the XML decoder accepts and does not change,
byte sequences that are not empty, floats, timestamps and bytes that the
library parses back to themselves), `rpcResponse2XML` and `rpcRequest2XML`
return the document whose params hold the markup of the fields in order, and
`xml2RPC` on each of these two documents binds onto the zero record of the same
type, returns no error and leaves a record equal to the one encoded.  The XML
decoder enters through one fact: it reads these two documents as the params
written, without fault block. -/
theorem xml2RPC_roundtrip (F : FaultDecls) (L : StdLib) (name method : GoString)
    (fs : List (Field Scalar)) (fault : faultValue)
    (hexp : ∀ f ∈ fs, isExported L f.Name = true)
    (hlib : ∀ f ∈ fs, readsBack L f.Val = true)
    (hfault : F.IsEmpty fault = true)
    (hparse : ∀ doc : GoString,
      (rpcResponse2XML L [scalarRecord name fs] = some (doc, none) ∨
        rpcRequest2XML L method [scalarRecord name fs] = some (doc, none)) →
      L.xmlDecode doc = some (wireDocument L fs fault)) :
    ∃ body,
      body = "<params>" ++ String.join (fs.map (fun f =>
        "<param>" ++ ("<value>" ++ (wireValue L f.Val).Raw ++ "</value>") ++ "</param>")) ++
        "</params>" ∧
      rpcResponse2XML L [scalarRecord name fs] =
        some ("<methodResponse>" ++ body ++ "</methodResponse>", none) ∧
      rpcRequest2XML L method [scalarRecord name fs] =
        some ("<methodCall><methodName>" ++ method ++ "</methodName>" ++ body ++ "</methodCall>",
          none) ∧
      xml2RPC F L ("<methodResponse>" ++ body ++ "</methodResponse>")
          (zeroValue (typeOf (scalarRecord name fs))) = some (scalarRecord name fs, none) ∧
      xml2RPC F L ("<methodCall><methodName>" ++ method ++ "</methodName>" ++ body ++
          "</methodCall>") (zeroValue (typeOf (scalarRecord name fs))) =
        some (scalarRecord name fs, none) := by
  have henc := fieldParams2XML_scalars L fs hexp
  have hp : rpcParams2XML L [scalarRecord name fs] =
      some ("<params>" ++ String.join (fs.map (fun f =>
        "<param>" ++ ("<value>" ++ (wireValue L f.Val).Raw ++ "</value>") ++ "</param>")) ++
        "</params>", none) := by
    simp [rpcParams2XML, argParams2XML, scalarRecord, elemOf, structFields, henc]
  have hresp : rpcResponse2XML L [scalarRecord name fs] =
      some ("<methodResponse>" ++ ("<params>" ++ String.join (fs.map (fun f =>
        "<param>" ++ ("<value>" ++ (wireValue L f.Val).Raw ++ "</value>") ++ "</param>")) ++
        "</params>") ++ "</methodResponse>", none) := by
    simp [rpcResponse2XML, hp]
  have hreq : rpcRequest2XML L method [scalarRecord name fs] =
      some ("<methodCall><methodName>" ++ method ++ "</methodName>" ++
        ("<params>" ++ String.join (fs.map (fun f =>
        "<param>" ++ ("<value>" ++ (wireValue L f.Val).Raw ++ "</value>") ++ "</param>")) ++
        "</params>") ++ "</methodCall>", none) := by
    simp [rpcRequest2XML, hp]
  have hl := paramLoop_scalars F L fs hexp hlib
  have hdec : ∀ doc : GoString, L.xmlDecode doc = some (wireDocument L fs fault) →
      xml2RPC F L doc (zeroValue (typeOf (scalarRecord name fs))) =
        some (scalarRecord name fs, none) := by
    intro doc hd
    rw [zeroValue_scalarRecord]
    simp [xml2RPC, hd, hfault, wireDocument, structFields, hl, setFields, scalarRecord]
  exact ⟨_, rfl, hresp, hreq, hdec _ (hparse _ (Or.inl hresp)), hdec _ (hparse _ (Or.inr hreq))⟩

/-- Witness of `xml2RPC_roundtrip`: a record with an integer, a string and a
boolean, and a decoder that reads its document. -/
theorem xml2RPC_roundtrip_witness :
    ((∀ f ∈ [(⟨"Int", "", .int 123⟩ : Field Scalar), ⟨"Str", "", .str "Hello"⟩,
        ⟨"Bool", "", .bool true⟩],
        isExported (libDecoding (wireDocument nullLib [⟨"Int", "", .int 123⟩,
          ⟨"Str", "", .str "Hello"⟩, ⟨"Bool", "", .bool true⟩] ⟨value.empty⟩)) f.Name = true) ∧
      (∀ f ∈ [(⟨"Int", "", .int 123⟩ : Field Scalar), ⟨"Str", "", .str "Hello"⟩,
        ⟨"Bool", "", .bool true⟩],
        readsBack (libDecoding (wireDocument nullLib [⟨"Int", "", .int 123⟩,
          ⟨"Str", "", .str "Hello"⟩, ⟨"Bool", "", .bool true⟩] ⟨value.empty⟩)) f.Val = true) ∧
      sampleFaults.IsEmpty ⟨value.empty⟩ = true) ∧
    ∃ body,
      body = "<params>" ++ String.join ([(⟨"Int", "", .int 123⟩ : Field Scalar),
        ⟨"Str", "", .str "Hello"⟩, ⟨"Bool", "", .bool true⟩].map (fun f =>
        "<param>" ++ ("<value>" ++ (wireValue (libDecoding (wireDocument nullLib
          [⟨"Int", "", .int 123⟩, ⟨"Str", "", .str "Hello"⟩, ⟨"Bool", "", .bool true⟩]
          ⟨value.empty⟩)) f.Val).Raw ++ "</value>") ++ "</param>")) ++ "</params>" ∧
      rpcResponse2XML (libDecoding (wireDocument nullLib [⟨"Int", "", .int 123⟩,
          ⟨"Str", "", .str "Hello"⟩, ⟨"Bool", "", .bool true⟩] ⟨value.empty⟩))
          [scalarRecord "xml.T" [⟨"Int", "", .int 123⟩, ⟨"Str", "", .str "Hello"⟩,
            ⟨"Bool", "", .bool true⟩]] =
        some ("<methodResponse>" ++ body ++ "</methodResponse>", none) ∧
      rpcRequest2XML (libDecoding (wireDocument nullLib [⟨"Int", "", .int 123⟩,
          ⟨"Str", "", .str "Hello"⟩, ⟨"Bool", "", .bool true⟩] ⟨value.empty⟩)) "Some.Method"
          [scalarRecord "xml.T" [⟨"Int", "", .int 123⟩, ⟨"Str", "", .str "Hello"⟩,
            ⟨"Bool", "", .bool true⟩]] =
        some ("<methodCall><methodName>" ++ "Some.Method" ++ "</methodName>" ++ body ++
          "</methodCall>", none) ∧
      xml2RPC sampleFaults (libDecoding (wireDocument nullLib [⟨"Int", "", .int 123⟩,
          ⟨"Str", "", .str "Hello"⟩, ⟨"Bool", "", .bool true⟩] ⟨value.empty⟩))
          ("<methodResponse>" ++ body ++ "</methodResponse>")
          (zeroValue (typeOf (scalarRecord "xml.T" [⟨"Int", "", .int 123⟩,
            ⟨"Str", "", .str "Hello"⟩, ⟨"Bool", "", .bool true⟩]))) =
          some (scalarRecord "xml.T" [⟨"Int", "", .int 123⟩, ⟨"Str", "", .str "Hello"⟩,
            ⟨"Bool", "", .bool true⟩], none) ∧
      xml2RPC sampleFaults (libDecoding (wireDocument nullLib [⟨"Int", "", .int 123⟩,
          ⟨"Str", "", .str "Hello"⟩, ⟨"Bool", "", .bool true⟩] ⟨value.empty⟩))
          ("<methodCall><methodName>" ++ "Some.Method" ++ "</methodName>" ++ body ++
            "</methodCall>")
          (zeroValue (typeOf (scalarRecord "xml.T" [⟨"Int", "", .int 123⟩,
            ⟨"Str", "", .str "Hello"⟩, ⟨"Bool", "", .bool true⟩]))) =
          some (scalarRecord "xml.T" [⟨"Int", "", .int 123⟩, ⟨"Str", "", .str "Hello"⟩,
            ⟨"Bool", "", .bool true⟩], none) :=
  ⟨⟨by decide, by decide, by decide⟩,
    xml2RPC_roundtrip sampleFaults _ "xml.T" "Some.Method"
      [⟨"Int", "", .int 123⟩, ⟨"Str", "", .str "Hello"⟩, ⟨"Bool", "", .bool true⟩] ⟨value.empty⟩
      (by decide) (by decide) (by decide) (fun _ _ => rfl)⟩

/-- C3 fails as stated, in two ways.  A record with an unexported integer
field is not encoded: `elem.Field(i).Interface()` panics.  And the document of
a record whose string field is empty, decoded into a record of the same type
whose field holds `old`, leaves `old` there: the empty text of `<string>` reads
as no typed child. -/
theorem xml2RPC_roundtrip_fails :
    rpcResponse2XML nullLib [scalarRecord "xml.T" [⟨"count", "", .int 1⟩]] = none ∧
    rpcResponse2XML nullLib [scalarRecord "xml.T" [⟨"Str", "", .str ""⟩]] =
      some ("<methodResponse><params><param><value><string></string></value></param>" ++
        "</params></methodResponse>", none) ∧
    xml2RPC sampleFaults (libDecoding (wireDocument nullLib [⟨"Str", "", .str ""⟩] ⟨value.empty⟩))
        ("<methodResponse><params><param><value><string></string></value></param>" ++
          "</params></methodResponse>")
        (.struct "xml.T" [⟨"Str", "", .str "old"⟩]) =
      some (.struct "xml.T" [⟨"Str", "", .str "old"⟩], none) :=
  ⟨by decide, by decide, rfl⟩

/-! ## Theorems: unsupported kinds and errors of the encoder -/

theorem fieldParams2XML_err (L : StdLib) :
    ∀ (fs : List (Field GoVal)) (err : Option GoError) (out : GoString) (e : Option GoError),
      fieldParams2XML L fs err = some (out, e) → err = none → e = none := by
  intro fs
  induction fs with
  | nil =>
    intro err out e h he
    simp only [fieldParams2XML] at h
    cases h
    exact he
  | cons f fs ih =>
    intro err out e h _
    simp only [fieldParams2XML] at h
    cases hi : fieldInterface L f with
    | none => simp only [hi] at h; cases h
    | some v =>
      simp only [hi] at h
      cases hr : rpc2XML L v with
      | none => simp only [hr] at h; cases h
      | some r =>
        obtain ⟨o, er⟩ := r
        simp only [hr] at h
        cases hl : fieldParams2XML L fs er with
        | none => simp only [hl] at h; cases h
        | some r2 =>
          obtain ⟨rest, e2⟩ := r2
          simp only [hl] at h
          cases h
          exact ih er rest _ hl (rpc2XML_err L v o er hr)

theorem argParams2XML_err (L : StdLib) :
    ∀ (rs : List GoVal) (err : Option GoError) (out : GoString) (e : Option GoError),
      argParams2XML L rs err = some (out, e) → err = none → e = none := by
  intro rs
  induction rs with
  | nil =>
    intro err out e h he
    simp only [argParams2XML] at h
    cases h
    exact he
  | cons r rs ih =>
    intro err out e h he
    simp only [argParams2XML] at h
    cases hs : structFields (elemOf r) with
    | some fs =>
      simp only [hs] at h
      cases hf : fieldParams2XML L fs err with
      | none => simp only [hf] at h; cases h
      | some r1 =>
        obtain ⟨o, e1⟩ := r1
        simp only [hf] at h
        cases hl : argParams2XML L rs e1 with
        | none => simp only [hl] at h; cases h
        | some r2 =>
          obtain ⟨rest, e2⟩ := r2
          simp only [hl] at h
          cases h
          exact ih e1 rest _ hl (fieldParams2XML_err L fs err o e1 hf he)
    | none =>
      simp only [hs] at h
      cases hi : valueInterface (elemOf r) with
      | none => simp only [hi] at h; cases h
      | some v =>
        simp only [hi] at h
        cases hr : rpc2XML L v with
        | none => simp only [hr] at h; cases h
        | some r1 =>
          obtain ⟨o, e1⟩ := r1
          simp only [hr] at h
          cases hl : argParams2XML L rs e1 with
          | none => simp only [hl] at h; cases h
          | some r2 =>
            obtain ⟨rest, e2⟩ := r2
            simp only [hl] at h
            cases h
            exact ih e1 rest _ hl (rpc2XML_err L v o e1 hr)

theorem rpcParams2XML_err (L : StdLib) (rpc : List GoVal) (out : GoString)
    (e : Option GoError) (h : rpcParams2XML L rpc = some (out, e)) : e = none := by
  unfold rpcParams2XML at h
  cases hl : argParams2XML L rpc none with
  | none => simp only [hl] at h; cases h
  | some r =>
    obtain ⟨body, e1⟩ := r
    simp only [hl] at h
    cases h
    exact argParams2XML_err L rpc none body _ hl rfl

/-- C20: for a value of a kind outside the dispatch table (`other`: a map, an
integer or a float of another width, ...) and for a reference that is not
nil, `rpc2XML` writes `<value></value>` and returns no error; `rpc2XML` returns
no error on any value, and neither do `rpcRequest2XML` and `rpcResponse2XML` on
any arguments for which they return. -/
theorem rpc2XML_unsupported (L : StdLib) :
    (∀ kind name data, rpc2XML L (.other kind name data) = some ("<value></value>", none)) ∧
    (∀ v, rpc2XML L (.ptr v) = some ("<value></value>", none)) ∧
    (∀ v out err, rpc2XML L v = some (out, err) → err = none) ∧
    (∀ method rpc out err, rpcRequest2XML L method rpc = some (out, err) → err = none) ∧
    (∀ rpc out err, rpcResponse2XML L rpc = some (out, err) → err = none) := by
  refine ⟨fun _ _ _ => ?_, fun _ => ?_, fun v out err h => rpc2XML_err L v out err h, ?_, ?_⟩
  · simp [rpc2XML]
  · simp [rpc2XML]
  · intro method rpc out err h
    unfold rpcRequest2XML at h
    cases hp : rpcParams2XML L rpc with
    | none => simp only [hp] at h; cases h
    | some r =>
      obtain ⟨params, e1⟩ := r
      simp only [hp] at h
      cases h
      exact rpcParams2XML_err L rpc params _ hp
  · intro rpc out err h
    unfold rpcResponse2XML at h
    cases hp : rpcParams2XML L rpc with
    | none => simp only [hp] at h; cases h
    | some r =>
      obtain ⟨params, e1⟩ := r
      simp only [hp] at h
      cases h
      exact rpcParams2XML_err L rpc params _ hp

/-- Witness of `rpc2XML_unsupported`: a map and a reference to a reference as
arguments. -/
theorem rpc2XML_unsupported_witness :
    rpcResponse2XML nullLib [.other "map" "map[string]int" 0, .ptr (.ptr (.int 5))] =
      some ("<methodResponse><params><param><value></value></param>" ++
        "<param><value></value></param></params></methodResponse>", none) ∧
    ((∀ kind name data, rpc2XML nullLib (.other kind name data) = some ("<value></value>", none)) ∧
    (∀ v, rpc2XML nullLib (.ptr v) = some ("<value></value>", none)) ∧
    (∀ v out err, rpc2XML nullLib v = some (out, err) → err = none) ∧
    (∀ method rpc out err, rpcRequest2XML nullLib method rpc = some (out, err) → err = none) ∧
    (∀ rpc out err, rpcResponse2XML nullLib rpc = some (out, err) → err = none)) :=
  ⟨by decide, rpc2XML_unsupported nullLib⟩

/-! ## Theorems: struct encoding and arguments that are not records -/

theorem structMembers2XML_exported (L : StdLib) (fs : List (Field GoVal)) (outs : List GoString)
    (hexp : ∀ f ∈ fs, isExported L f.Name = true)
    (henc : fs.map (fun f => (rpc2XML L f.Val).map Prod.fst) = outs.map some) :
    structMembers2XML L fs =
      some (String.join (List.zipWith
        (fun f o => "<member><name>" ++ memberName f ++ "</name>" ++ o ++ "</member>") fs outs)) := by
  induction fs generalizing outs with
  | nil =>
    cases outs with
    | nil => rfl
    | cons o os => simp at henc
  | cons f fs ih =>
    cases outs with
    | nil => simp at henc
    | cons o os =>
      simp only [List.map_cons, List.cons.injEq] at henc
      obtain ⟨h1, h2⟩ := henc
      have hf : isExported L f.Name = true := hexp f (List.mem_cons_self _ _)
      have ih2 := ih os (fun g hg => hexp g (List.mem_cons_of_mem _ hg)) h2
      cases hr : rpc2XML L f.Val with
      | none => simp [hr] at h1
      | some p =>
        obtain ⟨out, err⟩ := p
        simp [hr] at h1
        subst h1
        rw [structMembers2XML]
        simp only [hf, if_true, hr, ih2, List.zipWith_cons_cons, join_cons]
        congr 1
        apply String.ext
        by_cases ht : f.Tag = "" <;> simp [memberName, ht, String.data_append]

/-- C18, as amended: for a record that is not a timestamp, whose fields are all
exported and whose fields `rpc2XML` encodes to `outs`, `rpc2XML` writes
`<value><struct>`, then for every field in declared order `<member><name>`, the
member name (the `xml` tag when it is not empty, the native identifier
otherwise), `</name>`, the encoding of the field and `</member>`, then
`</struct></value>`, and returns no error. -/
theorem rpc2XML_struct (L : StdLib) (name : GoString) (fs : List (Field GoVal))
    (outs : List GoString)
    (hexp : ∀ f ∈ fs, isExported L f.Name = true)
    (henc : fs.map (fun f => (rpc2XML L f.Val).map Prod.fst) = outs.map some) :
    rpc2XML L (.struct name fs) =
      some ("<value><struct>" ++ String.join (List.zipWith
        (fun f o => "<member><name>" ++ memberName f ++ "</name>" ++ o ++ "</member>") fs outs) ++
        "</struct></value>", none) := by
  rw [rpc2XML]
  simp only [structMembers2XML_exported L fs outs hexp henc]
  congr 2
  apply String.ext
  simp [String.data_append]

/-- Witness of `rpc2XML_struct`: a record with a field without tag and a field
with one. -/
theorem rpc2XML_struct_witness :
    ((∀ f ∈ [(⟨"Foo", "", .int 42⟩ : Field GoVal), ⟨"Pid", "pid", .int 7⟩],
        isExported nullLib f.Name = true) ∧
      [(⟨"Foo", "", .int 42⟩ : Field GoVal), ⟨"Pid", "pid", .int 7⟩].map
          (fun f => (rpc2XML nullLib f.Val).map Prod.fst) =
        ["<value><int>42</int></value>", "<value><int>7</int></value>"].map some) ∧
    rpc2XML nullLib (.struct "xml.T" [⟨"Foo", "", .int 42⟩, ⟨"Pid", "pid", .int 7⟩]) =
      some ("<value><struct>" ++ String.join (List.zipWith
        (fun f o => "<member><name>" ++ memberName f ++ "</name>" ++ o ++ "</member>")
        [(⟨"Foo", "", .int 42⟩ : Field GoVal), ⟨"Pid", "pid", .int 7⟩]
        ["<value><int>42</int></value>", "<value><int>7</int></value>"]) ++
        "</struct></value>", none) :=
  ⟨⟨by decide, by decide⟩,
    rpc2XML_struct nullLib "xml.T" [⟨"Foo", "", .int 42⟩, ⟨"Pid", "pid", .int 7⟩] _
      (by decide) (by decide)⟩

/-- C18 fails as stated: on a record with an unexported field
`field.Interface()` panics in `struct2XML` and nothing is returned. -/
theorem rpc2XML_struct_unexported_panics :
    rpc2XML nullLib (.struct "xml.T" [⟨"Foo", "", .int 42⟩, ⟨"hidden", "", .int 1⟩]) = none := by
  decide

theorem argParams2XML_values (L : StdLib) (rs : List GoVal) (outs : List GoString)
    (hnon : ∀ r ∈ rs, structFields (elemOf r) = none ∧ elemOf r ≠ .invalid)
    (henc : rs.map (fun r => (rpc2XML L (elemOf r)).map Prod.fst) = outs.map some) :
    argParams2XML L rs none =
      some (String.join (outs.map (fun o => "<param>" ++ o ++ "</param>")), none) := by
  induction rs generalizing outs with
  | nil =>
    cases outs with
    | nil => rfl
    | cons o os => simp at henc
  | cons r rs ih =>
    cases outs with
    | nil => simp at henc
    | cons o os =>
      simp only [List.map_cons, List.cons.injEq] at henc
      obtain ⟨h1, h2⟩ := henc
      obtain ⟨hs, hi⟩ := hnon r (List.mem_cons_self _ _)
      have ih2 := ih os (fun g hg => hnon g (List.mem_cons_of_mem _ hg)) h2
      have hvi : valueInterface (elemOf r) = some (elemOf r) := by
        cases he : elemOf r <;> simp_all [valueInterface]
      cases hr : rpc2XML L (elemOf r) with
      | none => simp [hr] at h1
      | some p =>
        obtain ⟨out, err⟩ := p
        have he : err = none := rpc2XML_err L _ out err hr
        subst he
        simp [hr] at h1
        subst h1
        simp [argParams2XML, hs, hvi, hr, ih2, join_cons]

/-- A reference to a value that is not a reference is encoded as the
value. -/
theorem rpcParams2XML_ptr (L : StdLib) (v : GoVal) (hv : elemOf v = v) :
    rpcParams2XML L [.ptr v] = rpcParams2XML L [v] := by
  have e : elemOf (.ptr v) = elemOf v := by rw [hv]; rfl
  simp only [rpcParams2XML, argParams2XML, e]

/-- C19, as amended: for arguments none of which is a record, a reference to a
record or a nil reference, `rpcParams2XML` writes `<params>`, then for every
argument in order `<param>`, the encoding by `rpc2XML` of the argument, or of
what it refers to when it is a reference, and `</param>`, then `</params>`, and
returns no error; and a reference to an argument that is not itself a
reference is encoded as that argument. -/
theorem rpcParams2XML_values (L : StdLib) (rs : List GoVal) (outs : List GoString)
    (hnon : ∀ r ∈ rs, structFields (elemOf r) = none ∧ elemOf r ≠ .invalid)
    (henc : rs.map (fun r => (rpc2XML L (elemOf r)).map Prod.fst) = outs.map some) :
    rpcParams2XML L rs =
        some ("<params>" ++ String.join (outs.map (fun o => "<param>" ++ o ++ "</param>")) ++
          "</params>", none) ∧
      outs.length = rs.length ∧
      ∀ r ∈ rs, elemOf r = r → rpcParams2XML L [.ptr r] = rpcParams2XML L [r] := by
  have hlen : outs.length = rs.length := by
    have := congrArg List.length henc
    simpa using this.symm
  refine ⟨?_, hlen, fun r _ hr => rpcParams2XML_ptr L r hr⟩
  simp [rpcParams2XML, argParams2XML_values L rs outs hnon henc]

/-- Witness of `rpcParams2XML_values`: a reference to a string and a
boolean. -/
theorem rpcParams2XML_values_witness :
    ((∀ r ∈ [GoVal.ptr (.str "hello"), .bool true],
        structFields (elemOf r) = none ∧ elemOf r ≠ .invalid) ∧
      [GoVal.ptr (.str "hello"), .bool true].map
          (fun r => (rpc2XML nullLib (elemOf r)).map Prod.fst) =
        ["<value><string>hello</string></value>", "<value><boolean>1</boolean></value>"].map
          some) ∧
    (rpcParams2XML nullLib [.ptr (.str "hello"), .bool true] =
        some ("<params>" ++ String.join (["<value><string>hello</string></value>",
          "<value><boolean>1</boolean></value>"].map (fun o => "<param>" ++ o ++ "</param>")) ++
          "</params>", none) ∧
      ["<value><string>hello</string></value>", "<value><boolean>1</boolean></value>"].length =
        [GoVal.ptr (.str "hello"), .bool true].length ∧
      ∀ r ∈ [GoVal.ptr (.str "hello"), .bool true], elemOf r = r →
        rpcParams2XML nullLib [.ptr r] = rpcParams2XML nullLib [r]) :=
  ⟨⟨by
      intro r hr
      simp only [List.mem_cons, List.mem_singleton, List.not_mem_nil, or_false] at hr
      rcases hr with h | h <;> subst h <;> exact ⟨rfl, fun e => GoVal.noConfusion e⟩,
    by decide⟩,
    rpcParams2XML_values nullLib [.ptr (.str "hello"), .bool true] _
      (by
        intro r hr
        simp only [List.mem_cons, List.mem_singleton, List.not_mem_nil, or_false] at hr
        rcases hr with h | h <;> subst h <;> exact ⟨rfl, fun e => GoVal.noConfusion e⟩)
      (by decide)⟩

/-- C19 fails as stated: on a nil reference `elem.Interface()` panics and nothing
is returned; a timestamp has the kind of a struct and its unexported fields
make `elem.Field(i).Interface()` panic; and a reference to a reference to `5` is
not encoded as the reference to `5` is. -/
theorem rpcParams2XML_nil_reference :
    rpcParams2XML nullLib [.nilPtr .int] = none ∧
    rpcParams2XML nullLib [.time zeroTime] = none ∧
    rpcParams2XML nullLib [.ptr (.int 5)] =
      some ("<params><param><value><int>5</int></value></param></params>", none) ∧
    rpcParams2XML nullLib [.ptr (.ptr (.int 5))] =
      some ("<params><param><value></value></param></params>", none) := by
  decide

/-! ## Theorems: settability, nil, untyped values -/

/-- The guard at the head of `value2Field`. -/
theorem value2Field_false (F : FaultDecls) (L : StdLib) (v : value) (cur : GoVal) :
    value2Field F L v false cur = some (cur, some (.fault F.FaultApplicationError)) := by
  cases v
  rw [value2Field_eq]
  rfl

/-- One step of the struct loop leaves an unexported field as it was. -/
theorem setFieldAt_unexported (F : FaultDecls) (L : StdLib) (v : value)
    (fs : List (Field GoVal)) (h : Option Nat) (new : GoVal) (e : Option GoError)
    (hv : value2Field F L v (handleCanSet L fs h) (handleVal fs h) = some (new, e))
    (i : Nat) (f : Field GoVal) (hf : fs[i]? = some f) (hx : isExported L f.Name = false) :
    (setFieldAt fs h new)[i]? = some f := by
  cases h with
  | none => exact hf
  | some j =>
    unfold setFieldAt
    by_cases hij : j = i
    · subst hij
      have hc : handleCanSet L fs (some j) = false := by
        simp [handleCanSet, List.get?_eq_getElem?, hf, hx]
      have hval : handleVal fs (some j) = f.Val := by
        simp [handleVal, List.get?_eq_getElem?, hf]
      rw [hc, hval, value2Field_false] at hv
      injection hv with hv
      injection hv with h1 h2
      subst h1
      simp [hf]
    · rw [List.getElem?_modify_ne _ _ hij]
      exact hf

theorem structLoop_unexported (F : FaultDecls) (L : StdLib) :
    ∀ (ms : List member) (fs : List (Field GoVal)) (err : Option GoError)
      (out : List (Field GoVal)) (e : Option GoError),
      structLoop F L ms fs err = some (out, e) →
      ∀ (i : Nat) (f : Field GoVal), fs[i]? = some f → isExported L f.Name = false →
        out[i]? = some f := by
  intro ms
  induction ms with
  | nil =>
    intro fs err out e h i f hf _
    rw [structLoop_nil] at h
    cases h
    exact hf
  | cons m ms ih =>
    intro fs err out e h i f hf hx
    obtain ⟨name, v⟩ := m
    rw [structLoop_cons] at h
    cases hv : value2Field F L v (handleCanSet L fs (memberField L fs name))
        (handleVal fs (memberField L fs name)) with
    | none => simp only [hv] at h; cases h
    | some r =>
      obtain ⟨new, e1⟩ := r
      simp only [hv] at h
      exact ih _ _ _ _ h i f (setFieldAt_unexported F L v fs _ new e1 hv i f hf hx) hx

theorem paramLoop_unexported (F : FaultDecls) (L : StdLib) :
    ∀ (ps : List param) (fs out : List (Field GoVal)) (e : Option GoError),
      paramLoop F L ps fs = some (out, e) →
      ∀ (i : Nat) (f : Field GoVal), fs[i]? = some f → isExported L f.Name = false →
        out[i]? = some f := by
  intro ps
  induction ps with
  | nil =>
    intro fs out e h i f hf _
    rw [paramLoop_nil] at h
    cases h
    exact hf
  | cons p ps ih =>
    intro fs out e h i f hf hx
    cases fs with
    | nil => simp at hf
    | cons g fs =>
      rw [paramLoop_cons] at h
      cases hv : value2Field F L p.Value (isExported L g.Name) g.Val with
      | none => simp only [hv] at h; cases h
      | some r =>
        obtain ⟨v, e1⟩ := r
        have hg : isExported L g.Name = false → v = g.Val := by
          intro hgx
          rw [hgx, value2Field_false] at hv
          injection hv with hv
          injection hv with h1 _
          exact h1.symm
        cases e1 with
        | some err =>
          simp only [hv] at h
          cases h
          cases i with
          | zero =>
            simp at hf
            subst hf
            simp [hg hx]
          | succ i => simpa using hf
        | none =>
          simp only [hv] at h
          cases hl : paramLoop F L ps fs with
          | none => simp only [hl] at h; cases h
          | some r2 =>
            obtain ⟨out2, e2⟩ := r2
            simp only [hl] at h
            cases h
            cases i with
            | zero =>
              simp at hf
              subst hf
              simp [hg hx]
            | succ i =>
              simp at hf
              simpa using ih fs out2 _ hl i f hf hx

/-- C16: on a field that cannot be set, `value2Field` returns
`FaultApplicationError` and leaves the field as it was, whatever the value.
So binding a struct value onto a record, and `xml2RPC` on a record, leave every
unexported field of the record as it was. -/
theorem value2Field_unsettable (F : FaultDecls) (L : StdLib) :
    (∀ (v : value) (cur : GoVal),
      value2Field F L v false cur = some (cur, some (.fault F.FaultApplicationError))) ∧
    (∀ (ms : List member) (name : GoString) (fs : List (Field GoVal)) (out : GoVal)
      (err : Option GoError),
      value2Field F L (structValue ms) true (.struct name fs) = some (out, err) →
      ∃ fs2, out = .struct name fs2 ∧
        ∀ (i : Nat) (f : Field GoVal), fs[i]? = some f → isExported L f.Name = false →
          fs2[i]? = some f) ∧
    (∀ (xmlraw name : GoString) (fs : List (Field GoVal)) (out : GoVal) (err : Option GoError),
      xml2RPC F L xmlraw (.struct name fs) = some (out, err) →
      ∃ fs2, out = .struct name fs2 ∧
        ∀ (i : Nat) (f : Field GoVal), fs[i]? = some f → isExported L f.Name = false →
          fs2[i]? = some f) := by
  refine ⟨value2Field_false F L, ?_, ?_⟩
  · intro ms name fs out err h
    unfold structValue at h
    rw [value2Field_eq] at h
    by_cases hm : (ms.length != 0) = true
    · simp only [Bool.not_true, Bool.false_eq_true, if_false, bne_self_eq_false, hm, if_true,
        structFields] at h
      cases hl : structLoop F L ms fs none with
      | none => simp only [hl] at h; cases h
      | some r =>
        obtain ⟨fs2, e⟩ := r
        simp only [hl, value2FieldAssign, setFields] at h
        cases h
        exact ⟨fs2, rfl, structLoop_unexported F L ms fs none fs2 _ hl⟩
    · simp only [Bool.not_true, Bool.false_eq_true, if_false, bne_self_eq_false, hm,
        List.length_nil, beq_self_eq_true, if_true, value2FieldAssign] at h
      cases h
      exact ⟨fs, rfl, fun i f hf _ => hf⟩
  · intro xmlraw name fs out err h
    unfold xml2RPC at h
    cases hp : L.xmlDecode xmlraw with
    | none =>
      simp only [hp] at h
      cases h
      exact ⟨fs, rfl, fun i f hf _ => hf⟩
    | some ret =>
      simp only [hp, structFields] at h
      split at h
      · cases h
        exact ⟨fs, rfl, fun i f hf _ => hf⟩
      · split at h
        · cases h
          exact ⟨fs, rfl, fun i f hf _ => hf⟩
        · cases hl : paramLoop F L ret.Params fs with
          | none => simp only [hl] at h; cases h
          | some r =>
            obtain ⟨fs2, e⟩ := r
            simp only [hl, setFields] at h
            cases h
            exact ⟨fs2, rfl, paramLoop_unexported F L _ fs fs2 _ hl⟩

/-- Witness of `value2Field_unsettable`: an integer bound onto an unexported
field, directly and through `xml2RPC`. -/
theorem value2Field_unsettable_witness :
    xml2RPC sampleFaults (libDecoding ⟨[⟨intValue "5"⟩], ⟨value.empty⟩⟩) ""
        (.struct "xml.T" [⟨"count", "", .int 1⟩]) =
      some (.struct "xml.T" [⟨"count", "", .int 1⟩],
        some (.fault sampleFaults.FaultApplicationError)) ∧
    ((∀ (v : value) (cur : GoVal),
      value2Field sampleFaults nullLib v false cur =
        some (cur, some (.fault sampleFaults.FaultApplicationError))) ∧
    (∀ (ms : List member) (name : GoString) (fs : List (Field GoVal)) (out : GoVal)
      (err : Option GoError),
      value2Field sampleFaults nullLib (structValue ms) true (.struct name fs) = some (out, err) →
      ∃ fs2, out = .struct name fs2 ∧
        ∀ (i : Nat) (f : Field GoVal), fs[i]? = some f → isExported nullLib f.Name = false →
          fs2[i]? = some f) ∧
    (∀ (xmlraw name : GoString) (fs : List (Field GoVal)) (out : GoVal) (err : Option GoError),
      xml2RPC sampleFaults nullLib xmlraw (.struct name fs) = some (out, err) →
      ∃ fs2, out = .struct name fs2 ∧
        ∀ (i : Nat) (f : Field GoVal), fs[i]? = some f → isExported nullLib f.Name = false →
          fs2[i]? = some f)) :=
  ⟨rfl, value2Field_unsettable sampleFaults nullLib⟩


/-- C12: binding the value whose only content is the nil marker `<nil/>` onto
a settable field, of any type and content, returns no error and leaves the
field as it was. -/
theorem value2Field_nil (F : FaultDecls) (L : StdLib) (cur : GoVal) :
    value2Field F L nilValue true cur = some (cur, none) := by
  unfold nilValue
  rw [value2Field_eq]
  rfl


/-- C13, the code at the failing inputs: a value with no typed child and the
raw text `hello`, bound onto a string field that holds `x`, leaves `x` and
returns no error; the value of `<string></string>`, bound onto a string field
that holds `old`, leaves `old`.  The case `len(value.Array) == 0` is taken
before the default branch can be. -/
theorem value2Field_untyped_not_assigned :
    value2Field sampleFaults nullLib (rawValue "hello") true (.str "x") = some (.str "x", none) ∧
    value2Field sampleFaults nullLib (stringValue "") true (.str "old") =
      some (.str "old", none) := by
  exact ⟨rfl, rfl⟩


/-! ## Theorems: arrays, struct members and errors in the loops -/

mutual
theorem GoType.beq_refl : ∀ t : GoType, GoType.beq t t = true
  | .int => rfl
  | .float64 => rfl
  | .string => rfl
  | .bool => rfl
  | .time => rfl
  | .slice a => by
    have h := GoType.beq_refl a
    simpa [GoType.beq] using h
  | .struct n fs => by
    have h := fieldTypesBeq_refl fs
    simpa [GoType.beq] using h
  | .ptr a => by
    have h := GoType.beq_refl a
    simpa [GoType.beq] using h
  | .other k n => by simp [GoType.beq]
theorem fieldTypesBeq_refl : ∀ fs : List (Field GoType), fieldTypesBeq fs fs = true
  | [] => rfl
  | f :: fs => by
    have h1 := GoType.beq_refl f.Val
    have h2 := fieldTypesBeq_refl fs
    simp [fieldTypesBeq, h1, h2]
end

/-- What the array loop leaves: one item per element, each the content that
`value2Field` leaves when it binds the element onto the zero value. -/
theorem arrayLoop_items (F : FaultDecls) (L : StdLib) (zero : GoVal) :
    ∀ (a : List value) (err : Option GoError) (items : List GoVal) (e : Option GoError),
      arrayLoop F L a zero err = some (items, e) →
      items.length = a.length ∧
      ∀ (i : Nat) (v : value), a[i]? = some v →
        ∃ item e1, value2Field F L v true zero = some (item, e1) ∧ items[i]? = some item := by
  intro a
  induction a with
  | nil =>
    intro err items e h
    rw [arrayLoop_nil] at h
    cases h
    simp
  | cons v rest ih =>
    intro err items e h
    rw [arrayLoop_cons] at h
    cases hv : value2Field F L v true zero with
    | none => simp only [hv] at h; cases h
    | some r =>
      obtain ⟨item, e1⟩ := r
      simp only [hv] at h
      cases hl : arrayLoop F L rest zero e1 with
      | none => simp only [hl] at h; cases h
      | some r2 =>
        obtain ⟨items2, e2⟩ := r2
        simp only [hl] at h
        cases h
        obtain ⟨h1, h2⟩ := ih e1 items2 _ hl
        refine ⟨by simp [h1], ?_⟩
        intro i w hw
        cases i with
        | zero =>
          simp at hw
          subst hw
          exact ⟨item, e1, hv, by simp⟩
        | succ i =>
          simp at hw
          obtain ⟨it, e3, h3, h4⟩ := h2 i w hw
          exact ⟨it, e3, h3, by simpa using h4⟩

/-- C14, as amended: when an array of `n ≥ 1` values is bound without error onto
a slice field, the field afterwards holds the elements it held before,
followed by `n` new elements, the `i`-th of them being the content that
`value2Field` leaves when it binds the `i`-th value onto the zero value of the
element type: the new elements are appended. -/
theorem value2Field_array_appends (F : FaultDecls) (L : StdLib) (a : List value) (elem : GoType)
    (xs : List GoVal) (out : GoVal) (ha : a ≠ [])
    (h : value2Field F L (arrayValue a) true (.slice elem xs) = some (out, none)) :
    ∃ items, out = .slice elem (xs ++ items) ∧ items.length = a.length ∧
      ∀ (i : Nat) (v : value), a[i]? = some v →
        ∃ item e, value2Field F L v true (zeroValue elem) = some (item, e) ∧
          items[i]? = some item := by
  unfold arrayValue at h
  rw [value2Field_eq] at h
  have hl0 : (a.length == 0) = false := by
    cases a with
    | nil => exact absurd rfl ha
    | cons _ _ => rfl
  have hl1 : (a.length != 0) = true := by
    cases a with
    | nil => exact absurd rfl ha
    | cons _ _ => rfl
  simp only [Bool.not_true, Bool.false_eq_true, if_false, bne_self_eq_false, List.length_nil,
    hl0, hl1, if_true] at h
  cases hl : arrayLoop F L a (zeroValue elem) none with
  | none => simp only [hl] at h; cases h
  | some r =>
    obtain ⟨items, e⟩ := r
    simp only [hl, value2FieldAssign, typeOf, GoType.beq, GoType.beq_refl, Bool.not_true,
      Bool.false_eq_true, if_false] at h
    cases h
    obtain ⟨h1, h2⟩ := arrayLoop_items F L _ a none items _ hl
    exact ⟨items, rfl, h1, h2⟩

/-- Witness of `value2Field_array_appends`: two integers onto a slice that holds
one. -/
theorem value2Field_array_appends_witness :
    ([intValue "1", intValue "2"] ≠ [] ∧
      value2Field sampleFaults nullLib (arrayValue [intValue "1", intValue "2"]) true
          (.slice .int [.int 9]) =
        some (.slice .int [.int 9, .int 1, .int 2], none)) ∧
    ∃ items, GoVal.slice .int [.int 9, .int 1, .int 2] = .slice .int ([.int 9] ++ items) ∧
      items.length = [intValue "1", intValue "2"].length ∧
      ∀ (i : Nat) (v : value), [intValue "1", intValue "2"][i]? = some v →
        ∃ item e, value2Field sampleFaults nullLib v true (zeroValue .int) = some (item, e) ∧
          items[i]? = some item :=
  ⟨⟨by simp, rfl⟩,
    value2Field_array_appends sampleFaults nullLib [intValue "1", intValue "2"] .int [.int 9] _
      (by simp) rfl⟩

/-- C14 fails as stated: an array of one value bound onto a slice that holds one
element leaves two elements. -/
theorem value2Field_array_keeps_old :
    value2Field sampleFaults nullLib (arrayValue [intValue "1"]) true (.slice .int [.int 9]) =
      some (.slice .int [.int 9, .int 1], none) := by
  rfl

/-- C15, the code at the failing inputs: binding `<string>x</string>` onto an
`int` fails with the `InvalidParams` fault; as the first of two elements of an
array bound onto a `[]int`, and as the first of two members of a struct, the
failure is lost: `value2Field` returns no error, and neither does `xml2RPC`. -/
theorem value2Field_swallows_errors :
    value2Field sampleFaults nullLib (stringValue "x") true (.int 0) =
      some (.int 0, some (.fault (typeMismatch sampleFaults (.str "x") (.int 0)))) ∧
    value2Field sampleFaults nullLib (arrayValue [stringValue "x", intValue "1"]) true
        (.slice .int []) =
      some (.slice .int [.int 0, .int 1], none) ∧
    value2Field sampleFaults nullLib
        (structValue [⟨"Foo", stringValue "x"⟩, ⟨"Bar", intValue "1"⟩]) true
        (.struct "xml.T" [⟨"Foo", "", .int 0⟩, ⟨"Bar", "", .int 0⟩]) =
      some (.struct "xml.T" [⟨"Foo", "", .int 0⟩, ⟨"Bar", "", .int 1⟩], none) ∧
    xml2RPC sampleFaults
        (libDecoding ⟨[⟨arrayValue [stringValue "x", intValue "1"]⟩], ⟨value.empty⟩⟩) ""
        (.struct "xml.T" [⟨"Data", "", .slice .int []⟩]) =
      some (.struct "xml.T" [⟨"Data", "", .slice .int [.int 0, .int 1]⟩], none) := by
  exact ⟨rfl, rfl, rfl, rfl⟩


theorem setFieldAt_names (fs : List (Field GoVal)) (h : Option Nat) (v : GoVal) :
    (setFieldAt fs h v).map Field.Name = fs.map Field.Name := by
  cases h with
  | none => rfl
  | some i =>
    unfold setFieldAt
    apply List.ext_getElem?
    intro n
    simp only [List.getElem?_map, List.getElem?_modify]
    by_cases hn : i = n
    · subst hn
      cases fs[i]? <;> simp
    · simp [hn]

theorem setFieldAt_handleVal (fs : List (Field GoVal)) (h : Option Nat) :
    setFieldAt fs h (handleVal fs h) = fs := by
  cases h with
  | none => rfl
  | some i =>
    unfold setFieldAt
    apply List.ext_getElem?
    intro n
    simp only [List.getElem?_modify]
    by_cases hn : i = n
    · subst hn
      cases hf : fs[i]? with
      | none => simp
      | some f => simp [handleVal, List.get?_eq_getElem?, hf]
    · simp [hn]

theorem structLoop_names (F : FaultDecls) (L : StdLib) :
    ∀ (ms : List member) (fs : List (Field GoVal)) (err : Option GoError)
      (out : List (Field GoVal)) (e : Option GoError),
      structLoop F L ms fs err = some (out, e) → out.map Field.Name = fs.map Field.Name := by
  intro ms
  induction ms with
  | nil =>
    intro fs err out e h
    rw [structLoop_nil] at h
    cases h
    rfl
  | cons m ms ih =>
    intro fs err out e h
    obtain ⟨name, v⟩ := m
    rw [structLoop_cons] at h
    cases hv : value2Field F L v (handleCanSet L fs (memberField L fs name))
        (handleVal fs (memberField L fs name)) with
    | none => simp only [hv] at h; cases h
    | some r =>
      obtain ⟨new, e1⟩ := r
      simp only [hv] at h
      rw [ih _ _ _ _ h, setFieldAt_names]

theorem structLoop_append (F : FaultDecls) (L : StdLib) :
    ∀ (pre post : List member) (fs : List (Field GoVal)) (err : Option GoError),
      structLoop F L (pre ++ post) fs err =
        match structLoop F L pre fs err with
        | none => none
        | some (fs2, e) => structLoop F L post fs2 e := by
  intro pre
  induction pre with
  | nil =>
    intro post fs err
    simp [structLoop_nil]
  | cons m pre ih =>
    intro post fs err
    obtain ⟨name, v⟩ := m
    rw [List.cons_append, structLoop_cons, structLoop_cons]
    cases hv : value2Field F L v (handleCanSet L fs (memberField L fs name))
        (handleVal fs (memberField L fs name)) with
    | none => rfl
    | some r =>
      obtain ⟨new, e1⟩ := r
      simp only []
      exact ih post _ e1

/-- Binding a struct value onto a record is the struct loop on its fields. -/
theorem value2Field_struct_loop (F : FaultDecls) (L : StdLib) (ms : List member)
    (name : GoString) (fs : List (Field GoVal)) :
    value2Field F L (structValue ms) true (.struct name fs) =
      (structLoop F L ms fs none).map (fun r => (.struct name r.1, r.2)) := by
  unfold structValue
  rw [value2Field_eq]
  cases ms with
  | nil => simp [structLoop_nil, value2FieldAssign]
  | cons m ms =>
    simp only [Bool.not_true, Bool.false_eq_true, if_false, bne_self_eq_false, structFields]
    have : ((m :: ms).length != 0) = true := rfl
    simp only [this, if_true]
    cases structLoop F L (m :: ms) fs none with
    | none => rfl
    | some r => simp [value2FieldAssign, setFields]

/-- The struct loop reads its error variable only when no member is left. -/
theorem structLoop_err (F : FaultDecls) (L : StdLib) (ms : List member)
    (fs : List (Field GoVal)) (e1 e2 : Option GoError) :
    (ms ≠ [] → structLoop F L ms fs e1 = structLoop F L ms fs e2) ∧
      (structLoop F L ms fs e1).map Prod.fst = (structLoop F L ms fs e2).map Prod.fst := by
  cases ms with
  | nil => exact ⟨fun h => absurd rfl h, by simp [structLoop_nil]⟩
  | cons m ms =>
    obtain ⟨name, v⟩ := m
    have h : structLoop F L (⟨name, v⟩ :: ms) fs e1 = structLoop F L (⟨name, v⟩ :: ms) fs e2 := by
      rw [structLoop_cons, structLoop_cons]
    exact ⟨fun _ => h, by rw [h]⟩

/-- One turn of the struct loop on a member that resolves to no settable
field: the fields stay and the error variable holds `FaultApplicationError`. -/
theorem structLoop_unmatched (F : FaultDecls) (L : StdLib) (m : GoString) (v : value)
    (post : List member) (fs : List (Field GoVal)) (err : Option GoError)
    (hun : handleCanSet L fs (memberField L fs m) = false) :
    structLoop F L (⟨m, v⟩ :: post) fs err =
      structLoop F L post fs (some (.fault F.FaultApplicationError)) := by
  simp only [structLoop_cons, hun, value2Field_false, setFieldAt_handleVal]

/-- C11, as amended: a struct member whose name resolves to no settable field
of the record is not bound.  Wherever it stands, the fields of the record end
as they do for the struct without the member.  When another member follows
it, the whole result, error included, is that of the struct without the
member: the `FaultApplicationError` of the member is overwritten.  When it
stands last, `value2Field` returns `FaultApplicationError`, with the fields as
the members before it leave them. -/
theorem value2Field_unmatched (F : FaultDecls) (L : StdLib) (name m : GoString) (v : value)
    (pre post : List member) (fs : List (Field GoVal))
    (hun : handleCanSet L fs (memberField L fs m) = false) :
    (value2Field F L (structValue (pre ++ ⟨m, v⟩ :: post)) true (.struct name fs)).map Prod.fst =
        (value2Field F L (structValue (pre ++ post)) true (.struct name fs)).map Prod.fst ∧
      (post ≠ [] →
        value2Field F L (structValue (pre ++ ⟨m, v⟩ :: post)) true (.struct name fs) =
          value2Field F L (structValue (pre ++ post)) true (.struct name fs)) ∧
      value2Field F L (structValue (pre ++ [⟨m, v⟩])) true (.struct name fs) =
        (value2Field F L (structValue pre) true (.struct name fs)).map
          (fun r => (r.1, some (.fault F.FaultApplicationError))) := by
  simp only [value2Field_struct_loop, structLoop_append]
  cases hl : structLoop F L pre fs none with
  | none => exact ⟨rfl, fun _ => rfl, rfl⟩
  | some r =>
    obtain ⟨fs2, e⟩ := r
    have hn := structLoop_names F L pre fs none fs2 e hl
    have hm : memberField L fs2 m = memberField L fs m := memberField_names_only L m fs2 fs hn
    have hc : handleCanSet L fs2 (memberField L fs2 m) = false := by
      rw [hm, handleCanSet_names_only L fs2 fs _ hn, hun]
    simp only [structLoop_unmatched F L m v _ fs2 e hc]
    have he := structLoop_err F L post fs2 (some (.fault F.FaultApplicationError)) e
    refine ⟨?_, ?_, ?_⟩
    · have h2 := he.2
      simp only [Option.map_map] at h2 ⊢
      cases h1 : structLoop F L post fs2 (some (.fault F.FaultApplicationError)) <;>
        cases h3 : structLoop F L post fs2 e <;> simp_all
    · intro hp
      rw [he.1 hp]
    · simp [structLoop_nil]

/-- Witness of `value2Field_unmatched`: the member `zzz` between the members
`Foo` and `Bar`. -/
theorem value2Field_unmatched_witness :
    handleCanSet nullLib [(⟨"Foo", "", .int 0⟩ : Field GoVal), ⟨"Bar", "", .int 0⟩]
        (memberField nullLib [(⟨"Foo", "", .int 0⟩ : Field GoVal), ⟨"Bar", "", .int 0⟩] "zzz") =
      false ∧
    ((value2Field sampleFaults nullLib
          (structValue ([⟨"Foo", intValue "7"⟩] ++ ⟨"zzz", intValue "1"⟩ :: [⟨"Bar", intValue "8"⟩]))
          true (.struct "xml.T" [⟨"Foo", "", .int 0⟩, ⟨"Bar", "", .int 0⟩])).map Prod.fst =
        (value2Field sampleFaults nullLib
          (structValue ([⟨"Foo", intValue "7"⟩] ++ [⟨"Bar", intValue "8"⟩]))
          true (.struct "xml.T" [⟨"Foo", "", .int 0⟩, ⟨"Bar", "", .int 0⟩])).map Prod.fst ∧
      (([⟨"Bar", intValue "8"⟩] : List member) ≠ [] →
        value2Field sampleFaults nullLib
          (structValue ([⟨"Foo", intValue "7"⟩] ++ ⟨"zzz", intValue "1"⟩ :: [⟨"Bar", intValue "8"⟩]))
          true (.struct "xml.T" [⟨"Foo", "", .int 0⟩, ⟨"Bar", "", .int 0⟩]) =
        value2Field sampleFaults nullLib
          (structValue ([⟨"Foo", intValue "7"⟩] ++ [⟨"Bar", intValue "8"⟩]))
          true (.struct "xml.T" [⟨"Foo", "", .int 0⟩, ⟨"Bar", "", .int 0⟩])) ∧
      value2Field sampleFaults nullLib
          (structValue ([⟨"Foo", intValue "7"⟩] ++ [⟨"zzz", intValue "1"⟩]))
          true (.struct "xml.T" [⟨"Foo", "", .int 0⟩, ⟨"Bar", "", .int 0⟩]) =
        (value2Field sampleFaults nullLib (structValue [⟨"Foo", intValue "7"⟩]) true
          (.struct "xml.T" [⟨"Foo", "", .int 0⟩, ⟨"Bar", "", .int 0⟩])).map
          (fun r => (r.1, some (.fault sampleFaults.FaultApplicationError)))) :=
  ⟨by decide,
    value2Field_unmatched sampleFaults nullLib "xml.T" "zzz" (intValue "1")
      [⟨"Foo", intValue "7"⟩] [⟨"Bar", intValue "8"⟩]
      [⟨"Foo", "", .int 0⟩, ⟨"Bar", "", .int 0⟩] (by decide)⟩

/-- C11 fails as stated: a member that resolves to no field, standing last,
makes `value2Field` return `FaultApplicationError`. -/
theorem value2Field_unmatched_last_errors :
    value2Field sampleFaults nullLib
        (structValue [⟨"Foo", intValue "7"⟩, ⟨"zzz", intValue "1"⟩]) true
        (.struct "xml.T" [⟨"Foo", "", .int 0⟩]) =
      some (.struct "xml.T" [⟨"Foo", "", .int 7⟩],
        some (.fault sampleFaults.FaultApplicationError)) := by
  rfl

/-- The param loop when param `i` is the first to fail. -/
theorem paramLoop_first_error (F : FaultDecls) (L : StdLib) :
    ∀ (i : Nat) (ps : List param) (fs : List (Field GoVal)) (p : param) (f : Field GoVal)
      (v : GoVal) (err : GoError),
      ps[i]? = some p → fs[i]? = some f →
      value2Field F L p.Value (isExported L f.Name) f.Val = some (v, some err) →
      (∀ (j : Nat) (q : param) (g : Field GoVal), j < i → ps[j]? = some q → fs[j]? = some g →
        ∃ w, value2Field F L q.Value (isExported L g.Name) g.Val = some (w, none)) →
      ∃ out, paramLoop F L ps fs = some (out, some err) ∧ out.length = fs.length ∧
        (∀ (j : Nat) (q : param) (g : Field GoVal), j < i → ps[j]? = some q → fs[j]? = some g →
          ∃ w, value2Field F L q.Value (isExported L g.Name) g.Val = some (w, none) ∧
            out[j]? = some { g with Val := w }) ∧
        out[i]? = some { f with Val := v } ∧
        ∀ j : Nat, i < j → out[j]? = fs[j]? := by
  intro i
  induction i with
  | zero =>
    intro ps fs p f v err hp hf hfail _
    cases ps with
    | nil => simp at hp
    | cons p0 ps =>
      cases fs with
      | nil => simp at hf
      | cons f0 fs =>
        simp at hp hf
        subst hp; subst hf
        refine ⟨{ f0 with Val := v } :: fs, ?_, by simp, ?_, by simp, ?_⟩
        · rw [paramLoop_cons]
          simp only [hfail]
        · intro j q g hj
          omega
        · intro j hj
          cases j with
          | zero => omega
          | succ j => simp
  | succ i ih =>
    intro ps fs p f v err hp hf hfail hprev
    cases ps with
    | nil => simp at hp
    | cons p0 ps =>
      cases fs with
      | nil => simp at hf
      | cons f0 fs =>
        simp at hp hf
        obtain ⟨w0, hw0⟩ := hprev 0 p0 f0 (by omega) (by simp) (by simp)
        obtain ⟨out, h1, h2, h3, h4, h5⟩ := ih ps fs p f v err hp hf hfail
          (fun j q g hj hq hg => hprev (j + 1) q g (by omega) (by simpa using hq)
            (by simpa using hg))
        refine ⟨{ f0 with Val := w0 } :: out, ?_, by simp [h2], ?_, by simpa using h4, ?_⟩
        · rw [paramLoop_cons]
          simp only [hw0, h1]
        · intro j q g hj hq hg
          cases j with
          | zero =>
            simp at hq hg
            subst hq; subst hg
            exact ⟨w0, hw0, by simp⟩
          | succ j =>
            simp at hq hg
            obtain ⟨w, hw, ho⟩ := h3 j q g (by omega) hq hg
            exact ⟨w, hw, by simpa using ho⟩
        · intro j hj
          cases j with
          | zero => omega
          | succ j =>
            simpa using h5 j (by omega)

/-- C17: when param `i` is the first whose binding returns an error, on a parsed
document without fault block and a record with a field for every param,
`xml2RPC` returns that error, every field `j < i` holds the content bound from
param `j`, field `i` holds what the failing call left, and every field
`j > i` is as it was. -/
theorem xml2RPC_first_error (F : FaultDecls) (L : StdLib) (xmlraw : GoString) (ret : response)
    (name : GoString) (fs : List (Field GoVal)) (i : Nat) (p : param) (f : Field GoVal)
    (v : GoVal) (err : GoError)
    (hparse : L.xmlDecode xmlraw = some ret) (hfault : F.IsEmpty ret.Fault = true)
    (harity : ret.Params.length ≤ fs.length)
    (hp : ret.Params[i]? = some p) (hf : fs[i]? = some f)
    (hfail : value2Field F L p.Value (isExported L f.Name) f.Val = some (v, some err))
    (hprev : ∀ (j : Nat) (q : param) (g : Field GoVal), j < i → ret.Params[j]? = some q →
      fs[j]? = some g →
      ∃ w, value2Field F L q.Value (isExported L g.Name) g.Val = some (w, none)) :
    ∃ out, xml2RPC F L xmlraw (.struct name fs) = some (.struct name out, some err) ∧
      out.length = fs.length ∧
      (∀ (j : Nat) (q : param) (g : Field GoVal), j < i → ret.Params[j]? = some q →
        fs[j]? = some g →
        ∃ w, value2Field F L q.Value (isExported L g.Name) g.Val = some (w, none) ∧
          out[j]? = some { g with Val := w }) ∧
      out[i]? = some { f with Val := v } ∧
      ∀ j : Nat, i < j → out[j]? = fs[j]? := by
  obtain ⟨out, h1, h2, h3, h4, h5⟩ :=
    paramLoop_first_error F L i ret.Params fs p f v err hp hf hfail hprev
  refine ⟨out, ?_, h2, h3, h4, h5⟩
  have hn : ¬ fs.length < ret.Params.length := by omega
  simp [xml2RPC, hparse, hfault, structFields, hn, h1, setFields]

/-- Witness of `xml2RPC_first_error`: three params, the second of which is a
string bound onto an `int`. -/
theorem xml2RPC_first_error_witness :
    ((libDecoding ⟨[⟨intValue "1"⟩, ⟨stringValue "x"⟩, ⟨intValue "3"⟩], ⟨value.empty⟩⟩).xmlDecode
        "" = some ⟨[⟨intValue "1"⟩, ⟨stringValue "x"⟩, ⟨intValue "3"⟩], ⟨value.empty⟩⟩ ∧
      value2Field sampleFaults
          (libDecoding ⟨[⟨intValue "1"⟩, ⟨stringValue "x"⟩, ⟨intValue "3"⟩], ⟨value.empty⟩⟩)
          (stringValue "x") (isExported nullLib "B") (.int 0) =
        some (.int 0, some (.fault (typeMismatch sampleFaults (.str "x") (.int 0))))) ∧
    ∃ out, xml2RPC sampleFaults
          (libDecoding ⟨[⟨intValue "1"⟩, ⟨stringValue "x"⟩, ⟨intValue "3"⟩], ⟨value.empty⟩⟩) ""
          (.struct "xml.T" [⟨"A", "", .int 0⟩, ⟨"B", "", .int 0⟩, ⟨"C", "", .int 0⟩]) =
        some (.struct "xml.T" out,
          some (.fault (typeMismatch sampleFaults (.str "x") (.int 0)))) ∧
      out.length = [(⟨"A", "", .int 0⟩ : Field GoVal), ⟨"B", "", .int 0⟩, ⟨"C", "", .int 0⟩].length ∧
      (∀ (j : Nat) (q : param) (g : Field GoVal), j < 1 →
        (⟨[⟨intValue "1"⟩, ⟨stringValue "x"⟩, ⟨intValue "3"⟩], ⟨value.empty⟩⟩ :
          response).Params[j]? = some q →
        [(⟨"A", "", .int 0⟩ : Field GoVal), ⟨"B", "", .int 0⟩, ⟨"C", "", .int 0⟩][j]? = some g →
        ∃ w, value2Field sampleFaults
            (libDecoding ⟨[⟨intValue "1"⟩, ⟨stringValue "x"⟩, ⟨intValue "3"⟩], ⟨value.empty⟩⟩)
            q.Value (isExported (libDecoding ⟨[⟨intValue "1"⟩, ⟨stringValue "x"⟩, ⟨intValue "3"⟩],
              ⟨value.empty⟩⟩) g.Name) g.Val = some (w, none) ∧
          out[j]? = some { g with Val := w }) ∧
      out[1]? = some { (⟨"B", "", .int 0⟩ : Field GoVal) with Val := .int 0 } ∧
      ∀ j : Nat, 1 < j →
        out[j]? = [(⟨"A", "", .int 0⟩ : Field GoVal), ⟨"B", "", .int 0⟩, ⟨"C", "", .int 0⟩][j]? :=
  ⟨⟨rfl, rfl⟩,
    xml2RPC_first_error sampleFaults _ "" _ "xml.T"
      [⟨"A", "", .int 0⟩, ⟨"B", "", .int 0⟩, ⟨"C", "", .int 0⟩] 1 ⟨stringValue "x"⟩
      ⟨"B", "", .int 0⟩ (.int 0) _ rfl (by decide) (by decide) rfl rfl rfl
      (by
        intro j q g hj hq hg
        have hj0 : j = 0 := by omega
        subst hj0
        simp only [List.getElem?_cons_zero, Option.some.injEq] at hq hg
        subst hq
        subst hg
        exact ⟨.int 1, rfl⟩)⟩


/-! ## Theorems: precedence of the slots -/

/-- The bind of a value node is the bind of the node that keeps its first
populated slot only. -/
theorem value2Field_first_slot (F : FaultDecls) (L : StdLib) (v : value) (canSet : Bool)
    (cur : GoVal) :
    value2Field F L v canSet cur = value2Field F L (firstSlotOnly v) canSet cur := by
  obtain ⟨a, s, str, int, int4, dbl, boolean, dateTime, b64, raw⟩ := v
  by_cases c1 : int = ""
  swap
  · simp [firstSlotOnly, firstPopulated, slotOrder, populated, keepSlot, value.Int, value.Raw, c1,
      value2Field_eq]
  subst c1
  by_cases c2 : int4 = ""
  swap
  · simp [firstSlotOnly, firstPopulated, slotOrder, populated, keepSlot, value.Int, value.Int4,
      value.Raw, c2, value2Field_eq]
  subst c2
  by_cases c3 : dbl = ""
  swap
  · simp [firstSlotOnly, firstPopulated, slotOrder, populated, keepSlot, value.Int, value.Int4,
      value.Double, value.Raw, c3, value2Field_eq]
  subst c3
  by_cases c4 : str = ""
  swap
  · simp [firstSlotOnly, firstPopulated, slotOrder, populated, keepSlot, value.Int, value.Int4,
      value.Double, value.String, value.Raw, c4, value2Field_eq]
  subst c4
  by_cases c5 : boolean = ""
  swap
  · simp [firstSlotOnly, firstPopulated, slotOrder, populated, keepSlot, value.Int, value.Int4,
      value.Double, value.String, value.Boolean, value.Raw, c5, value2Field_eq]
  subst c5
  by_cases c6 : dateTime = ""
  swap
  · simp [firstSlotOnly, firstPopulated, slotOrder, populated, keepSlot, value.Int, value.Int4,
      value.Double, value.String, value.Boolean, value.DateTime, value.Raw, c6, value2Field_eq]
  subst c6
  by_cases c7 : b64 = ""
  swap
  · simp [firstSlotOnly, firstPopulated, slotOrder, populated, keepSlot, value.Int, value.Int4,
      value.Double, value.String, value.Boolean, value.DateTime, value.Base64, value.Raw, c7,
      value2Field_eq]
  subst c7
  cases s with
  | cons m ms =>
    simp [firstSlotOnly, firstPopulated, slotOrder, populated, keepSlot, value.Int, value.Int4,
      value.Double, value.String, value.Boolean, value.DateTime, value.Base64, value.Struct,
      value.Raw, value2Field_eq]
  | nil =>
    cases a with
    | cons x xs =>
      simp [firstSlotOnly, firstPopulated, slotOrder, populated, keepSlot, value.Int, value.Int4,
        value.Double, value.String, value.Boolean, value.DateTime, value.Base64, value.Struct,
        value.Array, value.Raw, value2Field_eq]
    | nil =>
      simp [firstSlotOnly, firstPopulated, slotOrder, populated, value.Int, value.Int4,
        value.Double, value.String, value.Boolean, value.DateTime, value.Base64, value.Struct,
        value.Array]

/-- A text in the `<i4>` slot is bound as the same text in the `<int>` slot. -/
theorem value2Field_i4_as_int (F : FaultDecls) (L : StdLib) (a : List value) (s : List member)
    (str t dbl boolean dateTime b64 raw : GoString) (canSet : Bool) (cur : GoVal) :
    value2Field F L (.mk a s str "" t dbl boolean dateTime b64 raw) canSet cur =
      value2Field F L (.mk a s str t "" dbl boolean dateTime b64 raw) canSet cur := by
  rw [value2Field_eq, value2Field_eq]
  by_cases h : t = ""
  · subst h; rfl
  · simp [h]

/-- C21: `value2Field` binds a value node as it binds the node that keeps only
its first populated slot in the order int, i4, double, string, boolean,
dateTime, base64, struct, array, so the later slots are ignored; and a text in
the `<i4>` slot is bound exactly as the same text in the `<int>` slot. -/
theorem value2Field_precedence (F : FaultDecls) (L : StdLib) :
    (∀ (v : value) (canSet : Bool) (cur : GoVal),
      value2Field F L v canSet cur = value2Field F L (firstSlotOnly v) canSet cur) ∧
    (∀ (a : List value) (s : List member) (str t dbl boolean dateTime b64 raw : GoString)
        (canSet : Bool) (cur : GoVal),
      value2Field F L (.mk a s str "" t dbl boolean dateTime b64 raw) canSet cur =
        value2Field F L (.mk a s str t "" dbl boolean dateTime b64 raw) canSet cur) :=
  ⟨value2Field_first_slot F L, value2Field_i4_as_int F L⟩


/-! ## Theorems: timestamps -/

theorem fixedDigits_length : ∀ (w n : Nat), (fixedDigits w n).length = w
  | 0, _ => rfl
  | w + 1, n => by simp [fixedDigits, fixedDigits_length w]

theorem fixedDigits_zero : ∀ (w : Nat), fixedDigits w 0 = List.replicate w '0'
  | 0 => rfl
  | w + 1 => by
    rw [fixedDigits, List.replicate_succ', Nat.zero_div, fixedDigits_zero w]
    rfl

theorem toDigitsCore_acc : ∀ (fuel n : Nat) (ds : List Char),
    Nat.toDigitsCore 10 fuel n ds = Nat.toDigitsCore 10 fuel n [] ++ ds
  | 0, _, _ => by simp [Nat.toDigitsCore]
  | fuel + 1, n, ds => by
    unfold Nat.toDigitsCore
    by_cases h0 : n / 10 = 0
    · simp [h0]
    · simp only [h0, if_false]
      rw [toDigitsCore_acc fuel (n / 10) (_ :: ds), toDigitsCore_acc fuel (n / 10) [_]]
      simp

theorem toDigitsCore_fixed : ∀ (w fuel n : Nat), n < fuel → n < 10 ^ (w + 1) →
    (Nat.toDigitsCore 10 fuel n []).length ≤ w + 1 ∧
      List.replicate (w + 1 - (Nat.toDigitsCore 10 fuel n []).length) '0' ++
        Nat.toDigitsCore 10 fuel n [] = fixedDigits (w + 1) n
  | _, 0, _, h, _ => by omega
  | 0, fuel + 1, n, _, h10 => by
    have h0 : n / 10 = 0 := by omega
    have e : n % 10 = n := by omega
    unfold Nat.toDigitsCore
    simp [h0, fixedDigits, e]
  | w + 1, fuel + 1, n, hf, h10 => by
    unfold Nat.toDigitsCore
    by_cases h0 : n / 10 = 0
    · simp only [h0, if_true, List.length_singleton]
      constructor
      · omega
      · rw [fixedDigits, h0, fixedDigits_zero]
        simp
    · simp only [h0, if_false]
      rw [toDigitsCore_acc]
      have h1 : n / 10 < 10 ^ (w + 1) := by
        rw [Nat.div_lt_iff_lt_mul (by decide)]
        rw [pow_succ] at h10
        exact h10
      obtain ⟨hl, he⟩ := toDigitsCore_fixed w fuel (n / 10) (by omega) h1
      constructor
      · simp only [List.length_append, List.length_singleton]
        omega
      · rw [fixedDigits, ← he]
        simp only [List.length_append, List.length_singleton, List.append_assoc]
        congr 2
        omega

theorem fmtIntPad_fixed (w n : Nat) (h : n < 10 ^ (w + 1)) :
    fmtIntPad (w + 1) (n : Int) = ⟨fixedDigits (w + 1) n⟩ := by
  have hn : ¬ ((n : Int) < 0) := by omega
  obtain ⟨_, he⟩ := toDigitsCore_fixed w (n + 1) n (by omega) h
  apply String.ext
  simp only [fmtIntPad, hn, if_false, String.data_append, Int.natAbs_ofNat]
  rw [← he]
  rfl

theorem fixedDigits_isDigit : ∀ (w n : Nat) (c : Char), c ∈ fixedDigits w n → c.isDigit = true
  | 0, _, _, h => by simp [fixedDigits] at h
  | w + 1, n, c, h => by
    simp only [fixedDigits, List.mem_append, List.mem_singleton] at h
    rcases h with h | h
    · exact fixedDigits_isDigit w _ c h
    · rw [h]
      exact (digitChar_value (n % 10) (Nat.mod_lt _ (by decide))).1

theorem digitsValue_append : ∀ (xs ys : List Char) (acc : Nat),
    digitsValue (xs ++ ys) acc = (digitsValue xs acc).bind (digitsValue ys)
  | [], _, _ => rfl
  | c :: xs, ys, acc => by
    simp only [List.cons_append, digitsValue]
    by_cases hc : c.isDigit = true
    · simp only [hc, if_true]
      exact digitsValue_append xs ys _
    · simp [hc]

theorem digitsValue_fixed : ∀ (w n : Nat), digitsValue (fixedDigits w n) 0 = some (n % 10 ^ w)
  | 0, n => by simp [fixedDigits, digitsValue, Nat.mod_one]
  | w + 1, n => by
    have hd := digitChar_value (n % 10) (Nat.mod_lt _ (by decide))
    rw [fixedDigits, digitsValue_append, digitsValue_fixed w (n / 10)]
    simp only [Option.some_bind, digitsValue, hd.1, hd.2, if_true]
    congr 1
    rw [pow_succ, Nat.mul_comm (10 ^ w) 10, Nat.mod_mul]
    omega

theorem scanNumber_digits : ∀ (ds rest : List Char), (∀ c ∈ ds, c.isDigit = true) →
    scanNumber ds.length (ds ++ rest) = (ds, rest)
  | [], rest, _ => by simp [scanNumber]
  | d :: ds, rest, h => by
    have hd : d.isDigit = true := h d (by simp)
    have ih := scanNumber_digits ds rest (fun c hc => h c (by simp [hc]))
    simp [scanNumber, hd, ih]

theorem isDigit_plain (c : Char) (h : c.isDigit = true) :
    c ≠ Char.ofNat 10 ∧ isSpace c = false ∧ c ≠ '+' ∧ c ≠ '-' := by
  refine ⟨?_, ?_, ?_, ?_⟩
  · intro e; subst e; revert h; decide
  · have hd : 48 ≤ c.toNat ∧ c.toNat ≤ 57 := by
      simp only [Char.isDigit, Bool.and_eq_true, decide_eq_true_eq, ge_iff_le,
        UInt32.le_def] at h
      exact h
    simp only [isSpace, Bool.or_eq_false_iff, Bool.and_eq_false_imp, decide_eq_true_eq,
      decide_eq_false_iff_not, beq_eq_false_iff_ne, ne_eq]
    omega
  · intro e; subst e; revert h; decide
  · intro e; subst e; revert h; decide

/-- Scanning the zero-padded text of a number with the width of the text gives
the number back and leaves the rest of the input. -/
theorem scanInt_fixed (w n : Nat) (rest : List Char) (h : n < 10 ^ (w + 1)) (h63 : n < 2 ^ 63) :
    scanInt (w + 1) (fixedDigits (w + 1) n ++ rest) = .ok ((n : Int), rest) := by
  have hdig := fixedDigits_isDigit (w + 1) n
  have hlen := fixedDigits_length (w + 1) n
  have hval := digitsValue_fixed (w + 1) n
  rw [Nat.mod_eq_of_lt h] at hval
  have hscan := scanNumber_digits (fixedDigits (w + 1) n) rest hdig
  rw [hlen] at hscan
  generalize fixedDigits (w + 1) n = ds at hdig hlen hval hscan
  cases ds with
  | nil => simp at hlen
  | cons c cs =>
    obtain ⟨p1, p2, p3, p4⟩ := isDigit_plain c (hdig c (by simp))
    have hsk : skipSpace ((c :: cs) ++ rest) = .ok ((c :: cs) ++ rest) := by
      simp [skipSpace, p1, p2]
    have hat : parseInt ⟨c :: cs⟩ = ((n : Int), none) :=
      parseInt_digits c cs n p4 p3 hval h63
    unfold scanInt
    rw [hsk]
    simp only [List.cons_append, p3, p4, or_self, false_and, if_false]
    rw [← List.cons_append, hscan]
    simp [hat]

theorem dateTimeText_isoText (t : Time) (hy : 0 ≤ t.year ∧ t.year ≤ 9999)
    (hc : t.isCivil = true) : dateTimeText t = isoText t := by
  simp only [Time.isCivil, Bool.and_eq_true, decide_eq_true_eq] at hc
  obtain ⟨⟨⟨⟨⟨⟨_, c2⟩, _⟩, c4⟩, c5⟩, c6⟩, c7⟩ := hc
  have y1 : (0 : Int) ≤ (t.year : Int) := hy.1
  have y2 : (t.year : Int) ≤ (9999 : Int) := hy.2
  have ey : t.year = ((t.year.toNat : Nat) : Int) := (Int.toNat_of_nonneg y1).symm
  have hyn : t.year.toNat < 10 ^ (3 + 1) := by
    have : ((t.year.toNat : Nat) : Int) ≤ (9999 : Int) := by rw [Int.toNat_of_nonneg y1]; exact y2
    norm_num
    omega
  unfold dateTimeText
  rw [ey, fmtIntPad_fixed 3 _ hyn, fmtIntPad_fixed 1 t.month (by norm_num; omega),
    fmtIntPad_fixed 1 t.day (by norm_num; omega), fmtIntPad_fixed 1 t.hour (by norm_num; omega),
    fmtIntPad_fixed 1 t.minute (by norm_num; omega),
    fmtIntPad_fixed 1 t.second (by norm_num; omega)]
  apply String.ext
  simp [isoText]

theorem scanDateTime_isoText (t : Time) (hy : 0 ≤ t.year ∧ t.year ≤ 9999)
    (hc : t.isCivil = true) :
    scanDateTime (isoText t) =
      ((t.year, (t.month : Int), (t.day : Int), (t.hour : Int), (t.minute : Int),
        (t.second : Int)), none) := by
  simp only [Time.isCivil, Bool.and_eq_true, decide_eq_true_eq] at hc
  obtain ⟨⟨⟨⟨⟨⟨_, c2⟩, _⟩, c4⟩, c5⟩, c6⟩, c7⟩ := hc
  have y1 : (0 : Int) ≤ (t.year : Int) := hy.1
  have y2 : (t.year : Int) ≤ (9999 : Int) := hy.2
  have ey : ((t.year.toNat : Nat) : Int) = t.year := Int.toNat_of_nonneg y1
  have hyn : t.year.toNat < 10 ^ (3 + 1) := by
    have : ((t.year.toNat : Nat) : Int) ≤ (9999 : Int) := by rw [Int.toNat_of_nonneg y1]; exact y2
    norm_num
    omega
  have s1 := scanInt_fixed 3 t.year.toNat (fixedDigits 2 t.month ++ (fixedDigits 2 t.day ++
    ('T' :: (fixedDigits 2 t.hour ++ (':' :: (fixedDigits 2 t.minute ++
      (':' :: fixedDigits 2 t.second))))))) hyn (by omega)
  have s2 := scanInt_fixed 1 t.month (fixedDigits 2 t.day ++
    ('T' :: (fixedDigits 2 t.hour ++ (':' :: (fixedDigits 2 t.minute ++
      (':' :: fixedDigits 2 t.second)))))) (by norm_num; omega) (by omega)
  have s3 := scanInt_fixed 1 t.day
    ('T' :: (fixedDigits 2 t.hour ++ (':' :: (fixedDigits 2 t.minute ++
      (':' :: fixedDigits 2 t.second))))) (by norm_num; omega) (by omega)
  have s4 := scanInt_fixed 1 t.hour (':' :: (fixedDigits 2 t.minute ++
      (':' :: fixedDigits 2 t.second))) (by norm_num; omega) (by omega)
  have s5 := scanInt_fixed 1 t.minute (':' :: fixedDigits 2 t.second) (by norm_num; omega)
    (by omega)
  have s6 := scanInt_fixed 1 t.second [] (by norm_num; omega) (by omega)
  rw [List.append_nil] at s6
  simp only [Nat.reduceAdd, ey] at s1 s2 s3 s4 s5 s6
  simp only [scanDateTime, isoText, s1, s2, s3, s4, s5, s6, scanLiteral, if_true]

/-- C22: for a local-time timestamp `t` with whole seconds, the year between
0 and 9999 and the fields of a time of day on a day of a month, `time2XML t` is
`<dateTime.iso8601>`, the zero-padded text `YYYYMMDDTHH:MM:SS` of 17 runes and
`</dateTime.iso8601>`, and `xml2DateTime` on that text returns `t` and no
error.  The library enters through two facts: `fmt.Sscanf` reads that text as
`scanDateTime` does, and `time.Date` on the fields of `t` in the local zone
gives the timestamp with these fields. -/
theorem time2XML_roundtrip (L : StdLib) (t : Time)
    (hyear : 0 ≤ t.year ∧ t.year ≤ 9999) (hcivil : t.isCivil = true)
    (hwhole : t.nsec = 0) (hlocal : t.loc = "Local")
    (hscan : L.sscanDateTime (isoText t) = scanDateTime (isoText t))
    (hdate : L.dateLocal t.year t.month t.day t.hour t.minute t.second =
      civilLocal t.year t.month t.day t.hour t.minute t.second) :
    time2XML t = "<dateTime.iso8601>" ++ isoText t ++ "</dateTime.iso8601>" ∧
      (isoText t).length = 17 ∧
      xml2DateTime L (isoText t) = (t, none) := by
  refine ⟨?_, ?_, ?_⟩
  · rw [time2XML, dateTimeText_isoText t hyear hcivil]
  · simp [isoText, String.length, fixedDigits_length]
  · simp only [xml2DateTime, hscan, scanDateTime_isoText t hyear hcivil, hdate, Option.map_none']
    obtain ⟨y, mo, d, h, mi, s, ns, loc⟩ := t
    simp only at hwhole hlocal
    subst hwhole hlocal
    simp [civilLocal]

theorem time2XML_roundtrip_witness :
    ((0 ≤ sampleTime.year ∧ sampleTime.year ≤ 9999) ∧ sampleTime.isCivil = true ∧
      sampleTime.nsec = 0 ∧ sampleTime.loc = "Local") ∧
    (time2XML sampleTime =
        "<dateTime.iso8601>" ++ isoText sampleTime ++ "</dateTime.iso8601>" ∧
      (isoText sampleTime).length = 17 ∧
      xml2DateTime civilLib (isoText sampleTime) = (sampleTime, none)) :=
  ⟨⟨by decide, by decide, by decide, by decide⟩,
    time2XML_roundtrip civilLib sampleTime (by decide) (by decide) (by decide) (by decide) rfl rfl⟩

/-- The timestamp of the tests of the repository: its text, and the text read
back. -/
theorem time2XML_sample :
    isoText sampleTime = "20120717T14:08:55" ∧
      time2XML sampleTime = "<dateTime.iso8601>20120717T14:08:55</dateTime.iso8601>" ∧
      xml2DateTime civilLib "20120717T14:08:55" = (sampleTime, none) := by
  refine ⟨by decide, by decide, by decide⟩


/-! ## Theorems: malformed scalar text -/

theorem digitsNat_le : ∀ (ds : List Char) (acc : Nat), acc ≤ digitsNat ds acc
  | [], _ => Nat.le_refl _
  | c :: cs, acc => by
    have := digitsNat_le cs (acc * 10 + (c.toNat - 48))
    simp only [digitsNat]
    omega

/-- A rune that is not a digit, met before the digits pass 64 bits, is a
syntax error of `ParseUint`. -/
theorem parseUintLoop_invalid :
    ∀ (ds : List Char) (acc : Nat), ds.all Char.isDigit = false →
      digitsNat (ds.takeWhile Char.isDigit) acc < 2 ^ 64 →
      parseUintLoop ds acc = .error .invalid
  | [], _, h, _ => by simp at h
  | c :: cs, acc, h, hl => by
    unfold parseUintLoop
    by_cases hc : c.isDigit = true
    · simp only [List.takeWhile_cons, hc, if_true, digitsNat] at hl
      have hle := digitsNat_le (cs.takeWhile Char.isDigit) (acc * 10 + (c.toNat - 48))
      have h1 : ¬ (acc ≥ (2 ^ 64 - 1) / 10 + 1) := by
        norm_num at hl ⊢
        omega
      have h2 : ¬ (acc * 10 + (c.toNat - 48) > 2 ^ 64 - 1) := by
        norm_num at hl ⊢
        omega
      simp only [hc, Bool.not_true, Bool.false_eq_true, if_false, h1, h2]
      apply parseUintLoop_invalid cs _ _ hl
      simpa [hc] using h
    · simp [hc]

/-- Digits that pass 64 bits are a range error of `ParseUint`, whatever
follows them. -/
theorem parseUintLoop_outOfRange :
    ∀ (ds : List Char) (acc : Nat), acc < 2 ^ 64 →
      2 ^ 64 ≤ digitsNat (ds.takeWhile Char.isDigit) acc →
      parseUintLoop ds acc = .error .outOfRange
  | [], acc, ha, hl => by
    simp only [List.takeWhile_nil, digitsNat] at hl
    omega
  | c :: cs, acc, ha, hl => by
    unfold parseUintLoop
    by_cases hc : c.isDigit = true
    · simp only [List.takeWhile_cons, hc, if_true, digitsNat] at hl
      simp only [hc, Bool.not_true, Bool.false_eq_true, if_false]
      by_cases h1 : acc ≥ (2 ^ 64 - 1) / 10 + 1
      · rw [if_pos h1]
      · by_cases h2 : acc * 10 + (c.toNat - 48) > 2 ^ 64 - 1
        · rw [if_neg h1, if_pos h2]
        · rw [if_neg h1, if_neg h2]
          exact parseUintLoop_outOfRange cs _ (by norm_num at h2 ⊢; omega) hl
    · simp only [List.takeWhile_cons, hc, Bool.false_eq_true, if_false, digitsNat] at hl
      omega

/-- On a text that is not a decimal integer and whose leading digits stay
within 64 bits `strconv.Atoi` returns 0 and an error. -/
theorem atoi_malformed (s : GoString) (h : isDecimalInteger s = false)
    (hl : digitsNat (leadingDigits s) 0 < 2 ^ 64) : atoi s = (0, true) := by
  unfold isDecimalInteger at h
  unfold leadingDigits at hl
  unfold atoi parseInt
  cases hd : s.data with
  | nil => rfl
  | cons c cs =>
    rw [hd] at h hl
    simp only at h hl
    by_cases h1 : c = '-'
    · simp only [h1, true_or, if_true, Bool.and_eq_false_imp, Bool.not_eq_true',
        List.isEmpty_eq_false] at h hl
      simp only [h1, if_true]
      cases cs with
      | nil => rfl
      | cons d ds =>
        have := parseUintLoop_invalid (d :: ds) 0 (h (by simp)) hl
        simp only [this]
        rfl
    · by_cases h2 : c = '+'
      · simp only [h2, or_true, if_true, Bool.and_eq_false_imp, Bool.not_eq_true',
          List.isEmpty_eq_false] at h hl
        have h3 : ¬ ('+' = '-') := by decide
        simp only [h2, h3, if_false, if_true]
        cases cs with
        | nil => rfl
        | cons d ds =>
          have := parseUintLoop_invalid (d :: ds) 0 (h (by simp)) hl
          simp only [this]
          rfl
      · simp only [h1, h2, or_self, if_false] at h hl
        have := parseUintLoop_invalid (c :: cs) 0 h hl
        simp only [h1, h2, if_false, this]
        rfl

/-- On a text whose leading digits pass 64 bits `strconv.Atoi` returns the
bound of `int` on the side of the sign, whatever follows the digits. -/
theorem atoi_outOfRange (s : GoString) (hl : 2 ^ 64 ≤ digitsNat (leadingDigits s) 0) :
    atoi s = (intBound s, true) := by
  unfold leadingDigits at hl
  unfold atoi parseInt intBound
  cases hd : s.data with
  | nil =>
    rw [hd] at hl
    simp [digitsNat] at hl
  | cons c cs =>
    rw [hd] at hl
    simp only at hl
    by_cases h1 : c = '-'
    · simp only [h1, true_or, if_true] at hl
      simp only [h1, if_true]
      cases cs with
      | nil => simp [digitsNat] at hl
      | cons d ds =>
        have := parseUintLoop_outOfRange (d :: ds) 0 (by norm_num) hl
        simp only [this]
        rfl
    · by_cases h2 : c = '+'
      · simp only [h2, or_true, if_true] at hl
        have h3 : ¬ ('+' = '-') := by decide
        simp only [h2, h3, if_false, if_true]
        cases cs with
        | nil => simp [digitsNat] at hl
        | cons d ds =>
          have := parseUintLoop_outOfRange (d :: ds) 0 (by norm_num) hl
          simp only [this]
          rfl
      · simp only [h1, h2, or_self, if_false] at hl
        have := parseUintLoop_outOfRange (c :: cs) 0 (by norm_num) hl
        simp only [h1, h2, if_false, this]
        rfl

/-- C23, as amended: on a settable int-typed field, a value whose `<int>`
text, or whose `<i4>` text when the `<int>` text is empty, is a non-empty text
`s` is bound without error to the value that `strconv.Atoi(s)` returns, the
parse error discarded.  That value is 0 when `s` is not a decimal integer and
its digits up to the first rune that is not one stay below `1<<64`; it is the
bound of `int` on the side of the sign when these digits reach `1<<64`,
whatever follows them.  A non-empty `<boolean>` text outside `1`, `true`,
`TRUE`, `True`, with no earlier slot populated, binds `false` onto a bool
field without error. -/
theorem value2Field_malformed (F : FaultDecls) (L : StdLib) (a : List value) (st : List member)
    (str s i4 dbl bo dt b64 raw t : GoString) (k : GoInt) (b : Bool)
    (hs : s ≠ "") (ht : t ≠ "")
    (hbool : t ≠ "1" ∧ t ≠ "true" ∧ t ≠ "TRUE" ∧ t ≠ "True") :
    value2Field F L (.mk a st str s i4 dbl bo dt b64 raw) true (.int k) =
        some (.int (atoi s).1, none) ∧
      value2Field F L (.mk a st str "" s dbl bo dt b64 raw) true (.int k) =
        some (.int (atoi s).1, none) ∧
      (isDecimalInteger s = false → digitsNat (leadingDigits s) 0 < 2 ^ 64 → (atoi s).1 = 0) ∧
      (2 ^ 64 ≤ digitsNat (leadingDigits s) 0 → (atoi s).1 = intBound s) ∧
      value2Field F L (.mk a st "" "" "" "" t dt b64 raw) true (.bool b) =
        some (.bool false, none) := by
  refine ⟨?_, ?_, ?_, ?_, ?_⟩
  · rw [value2Field_eq]
    simp [hs, value2FieldAssign, typeOf, GoType.beq]
  · rw [value2Field_eq]
    simp [hs, value2FieldAssign, typeOf, GoType.beq]
  · intro h hl
    rw [atoi_malformed s h hl]
  · intro hl
    rw [atoi_outOfRange s hl]
  · rw [value2Field_eq]
    simp [ht, value2FieldAssign, typeOf, GoType.beq, xml2Bool, hbool.1, hbool.2.1, hbool.2.2.1,
      hbool.2.2.2]

/-- Witness of `value2Field_malformed`: the integer text `12a` and the
boolean text `yes`. -/
theorem value2Field_malformed_witness :
    (("12a" : GoString) ≠ "" ∧ ("yes" : GoString) ≠ "" ∧
      (("yes" : GoString) ≠ "1" ∧ ("yes" : GoString) ≠ "true" ∧ ("yes" : GoString) ≠ "TRUE" ∧
        ("yes" : GoString) ≠ "True")) ∧
    (value2Field sampleFaults nullLib (.mk [] [] "" "12a" "" "" "" "" "" "<int>12a</int>") true
          (.int 5) = some (.int (atoi "12a").1, none) ∧
      value2Field sampleFaults nullLib (.mk [] [] "" "" "12a" "" "" "" "" "<int>12a</int>") true
          (.int 5) = some (.int (atoi "12a").1, none) ∧
      (isDecimalInteger "12a" = false → digitsNat (leadingDigits "12a") 0 < 2 ^ 64 →
        (atoi "12a").1 = 0) ∧
      (2 ^ 64 ≤ digitsNat (leadingDigits "12a") 0 → (atoi "12a").1 = intBound "12a") ∧
      value2Field sampleFaults nullLib (.mk [] [] "" "" "" "" "yes" "" "" "<int>12a</int>") true
          (.bool true) = some (.bool false, none)) :=
  ⟨⟨by decide, by decide, by decide⟩,
    value2Field_malformed sampleFaults nullLib [] [] "" "12a" "" "" "" "" "" "<int>12a</int>" "yes"
      5 true (by decide) (by decide) (by decide)⟩

/-- C23 fails as stated.  The empty `<boolean>` text is outside `1`, `true`,
`TRUE`, `True`, but it selects no case of the switch and a bool field that
holds `true` keeps it.  And the text `99999999999999999999x` is not a decimal
integer, yet the field is set to the upper bound of `int`, not to 0:
`strconv.Atoi` meets the range error at the last digit, before the `x`. -/
theorem value2Field_empty_boolean :
    value2Field sampleFaults nullLib (.mk [] [] "" "" "" "" "" "" "" "<boolean></boolean>") true
        (.bool true) = some (.bool true, none) ∧
    isDecimalInteger "99999999999999999999x" = false ∧
    value2Field sampleFaults nullLib (intValue "99999999999999999999x") true (.int 0) =
      some (.int 9223372036854775807, none) := by
  exact ⟨rfl, by decide, rfl⟩

end XmlRpc
